import Mathlib

/-!
# goflip: bank-statement ingestion, shallow embedding and verified properties

The Go sources are embedded as pure Lean functions.

* Go `int64`, `int` (64-bit targets) and `time.Duration` values are Lean `Int`s;
  every arithmetic operation of the source that can leave the signed 64-bit
  range is followed by `wrapInt64`, Go's two's-complement wrap-around.
* Go slices are Lean lists (a `nil` slice is `[]`), Go maps are total functions
  into `Option`.
* A Go function with side effects takes the state it reads and returns the
  state it leaves; locks are not modelled, every operation is one atomic step.
* A Go `error` result is an `Option GoError` (`none` is `nil`).
-/

set_option autoImplicit false

namespace Goflip

/-! ## Machine integers -/

/-- Smallest `int64`. -/
def minInt64 : Int := -9223372036854775808

/-- Largest `int64`. -/
def maxInt64 : Int := 9223372036854775807

/-- Two's-complement reduction of a mathematical integer to the `int64` range:
the value Go stores after an overflowing `+`, `-` or `*` on `int64`, `int` or
`time.Duration`. -/
def wrapInt64 (x : Int) : Int :=
  (x + 9223372036854775808) % 18446744073709551616 - 9223372036854775808

/-- Membership in the `int64` range. -/
def inInt64 (x : Int) : Prop := minInt64 ≤ x ∧ x ≤ maxInt64

instance (x : Int) : Decidable (inInt64 x) := by
  unfold inInt64; exact inferInstance

/-! ## package entity -/

/-- Go `type TxType string`. -/
abbrev TxType := String

def TxTypeCredit : TxType := "CREDIT"
def TxTypeDebit : TxType := "DEBIT"

/-- Go `type TxStatus string`. -/
abbrev TxStatus := String

def TxStatusSuccess : TxStatus := "SUCCESS"
def TxStatusFailed : TxStatus := "FAILED"
def TxStatusPending : TxStatus := "PENDING"

/-- Go `type UploadStatus string`. -/
abbrev UploadStatus := String

def UploadStatusQueued : UploadStatus := "QUEUED"
def UploadStatusProcessing : UploadStatus := "PROCESSING"
def UploadStatusDone : UploadStatus := "DONE"
def UploadStatusFailed : UploadStatus := "FAILED"

/-- Go `entity.Transaction`. -/
structure Transaction where
  Timestamp : Int
  Counterparty : String
  Type_ : TxType
  Amount : Int
  Status : TxStatus
  Description : String
  deriving DecidableEq, Repr

/-- Go `entity.UploadMeta`; the zero value has every field zero. -/
structure UploadMeta where
  ID : String
  Status : UploadStatus := ""
  Err : String := ""
  StartedAt : Int := 0
  EndedAt : Int := 0
  TotalLines : Int := 0
  ParsedOK : Int := 0
  ParseErr : Int := 0
  deriving DecidableEq, Repr

/-- Go `entity.FailedTxEvent`. -/
structure FailedTxEvent where
  EventID : String
  UploadID : String
  Tx : Transaction
  deriving DecidableEq, Repr

/-! ## package pkgerror -/

/-- Go `pkgerror.Type` (`iota` constants). -/
inductive ErrType where
  | TypeServer
  | TypeBusiness
  | TypeValidation
  deriving DecidableEq, Repr

/-- Go `pkgerror.Code`: an `int`; the eight constants are `0 .. 7`. -/
abbrev Code := Int

def CodeInternal : Code := 0
def CodeInvalidFormat : Code := 1
def CodeInvalidInput : Code := 2
def CodeNotFound : Code := 3
def CodeConflict : Code := 4
def CodeUnauthorized : Code := 5
def CodeForbidden : Code := 6
def CodeTimeout : Code := 7

/-- A non-nil Go `error` value.  The package-level sentinels are constructors of
their own (they are compared by identity), `pkgError` is a `*pkgerror.Error`
with its four fields, `wrapError` is the result of `fmt.Errorf` with a `%w`
verb, and `errorString` is any other error identified by its message
(`errors.New`, `fmt.Errorf` without `%w`, errors of `encoding/csv`). -/
inductive GoError where
  | ErrNotFound
  | ErrBusClosed
  | errorString (msg : String)
  | wrapError (msg : String) (inner : GoError)
  | pkgError (err : Option GoError) (msg : String) (errType : ErrType) (code : Code)
  deriving Repr

/-- Go `pkgerror.new`. -/
def pkgerrorNew (err : Option GoError) (msg : String) (et : ErrType) (code : Code) : GoError :=
  GoError.pkgError err msg et code

/-- Go `pkgerror.NewServer`. -/
def NewServer (err : GoError) : GoError :=
  pkgerrorNew (some err) "Internal server error" ErrType.TypeServer CodeInternal

/-- Go `pkgerror.NewBusiness`. -/
def NewBusiness (msg : String) (code : Code) : GoError :=
  pkgerrorNew none msg ErrType.TypeBusiness code

/-- Go `pkgerror.NewInvalidInput`. -/
def NewInvalidInput (err : GoError) : GoError :=
  pkgerrorNew (some err) "validation error" ErrType.TypeValidation CodeInvalidInput

/-- Go `(*Error).Error` of `pkgerror`, and `Error()` of the other error values. -/
def GoError.Error : GoError → String
  | GoError.ErrNotFound => "resource not found"
  | GoError.ErrBusClosed => "event bus is closed"
  | GoError.errorString msg => msg
  | GoError.wrapError msg _ => msg
  | GoError.pkgError (some err) _ _ _ => err.Error
  | GoError.pkgError none msg errType _ =>
    if msg ≠ "" then msg
    else if errType = ErrType.TypeValidation then "Validation violation"
    else if errType = ErrType.TypeBusiness then "Logical business not meet with requirement"
    else "Internal error"

/-! ## Go standard library functions used by the parser

Strings are sequences of Unicode code points (valid UTF-8). -/

/-- Go `unicode.IsSpace`: the Latin-1 spaces and the code points with the
`White_Space` property. -/
def isSpace (c : Char) : Bool :=
  let n := c.toNat
  (9 ≤ n && n ≤ 13) || n = 32 || n = 0x85 || n = 0xA0 || n = 0x1680 ||
    (0x2000 ≤ n && n ≤ 0x200a) || n = 0x2028 || n = 0x2029 || n = 0x202f || n = 0x205f ||
    n = 0x3000

/-- Go `strings.TrimSpace`. -/
def TrimSpace (s : String) : String :=
  String.mk ((s.data.dropWhile isSpace).reverse.dropWhile isSpace).reverse

/-- Go `unicode.ToUpper` as far as the parser can observe it: the ASCII
letters, and the only two other code points whose upper case is an ASCII
letter, U+0131 (dotless i, upper case `I`) and U+017F (long s, upper case `S`).
Every other code point is mapped by Go to a non-ASCII code point and is left in
place here; the results are only ever compared with ASCII constants. -/
def toUpperRune (c : Char) : Char :=
  let n := c.toNat
  if 97 ≤ n ∧ n ≤ 122 then Char.ofNat (n - 32)
  else if n = 0x131 then Char.ofNat 73
  else if n = 0x17F then Char.ofNat 83
  else c

/-- Go `strings.ToUpper`. -/
def ToUpper (s : String) : String := String.mk (s.data.map toUpperRune)

/-- Decimal digit test of `strconv.ParseUint` in base 10. -/
def isDecimalDigit (c : Char) : Bool := 48 ≤ c.toNat && c.toNat ≤ 57

/-- Value of a sequence of decimal digits. -/
def digitsValue (ds : List Char) : Nat := ds.foldl (fun acc d => acc * 10 + (d.toNat - 48)) 0

/-- Go `strconv.ParseInt(s, 10, 64)`: an optional sign, then a non-empty
sequence of decimal digits whose value fits `int64`.  The text of the
`*strconv.NumError` is shortened; it only ever reaches the log. -/
def ParseInt (s : String) : Except GoError Int :=
  match s.data with
  | [] => Except.error (GoError.errorString "strconv.ParseInt: invalid syntax")
  | c :: rest =>
    let neg : Bool := c.toNat = 45
    let digits := if c.toNat = 43 ∨ c.toNat = 45 then rest else c :: rest
    if digits.isEmpty || !(digits.all isDecimalDigit) then
      Except.error (GoError.errorString "strconv.ParseInt: invalid syntax")
    else
      let un := digitsValue digits
      if !neg && un ≥ 9223372036854775808 then
        Except.error (GoError.errorString "strconv.ParseInt: value out of range")
      else if neg && un > 9223372036854775808 then
        Except.error (GoError.errorString "strconv.ParseInt: value out of range")
      else Except.ok (if neg then -(un : Int) else (un : Int))

/-! ## package usecase: models -/

/-- Go `usecase.IssueFilter`. -/
structure IssueFilter where
  Statuses : List TxStatus := []
  Types : List TxType := []
  deriving DecidableEq, Repr

/-- Go `IssueFilter.Matches`: `slices.Contains` on the statuses, the explicit
loop with `break` on the types. -/
def IssueFilter.Matches (f : IssueFilter) (tx : Transaction) : Bool :=
  if f.Statuses.length > 0 && !(f.Statuses.contains tx.Status) then false
  else if f.Types.length > 0 && !(f.Types.any (fun typ => tx.Type_ == typ)) then false
  else true

/-! ## package usecase: CSV parsing -/

/-- Go `parseTxType`. -/
def parseTxType (value : String) : Except GoError TxType :=
  if ToUpper value = TxTypeCredit then Except.ok TxTypeCredit
  else if ToUpper value = TxTypeDebit then Except.ok TxTypeDebit
  else Except.error (GoError.errorString ("invalid tx type: " ++ value))

/-- Go `parseTxStatus`. -/
def parseTxStatus (value : String) : Except GoError TxStatus :=
  if ToUpper value = TxStatusSuccess then Except.ok TxStatusSuccess
  else if ToUpper value = TxStatusFailed then Except.ok TxStatusFailed
  else if ToUpper value = TxStatusPending then Except.ok TxStatusPending
  else Except.error (GoError.errorString ("invalid tx status: " ++ value))

/-- Go `parseRecord`. -/
def parseRecord (record : List String) : Except GoError Transaction :=
  match record.map TrimSpace with
  | [f0, f1, f2, f3, f4, f5] =>
    match ParseInt f0 with
    | Except.error err => Except.error (GoError.wrapError ("invalid timestamp: " ++ err.Error) err)
    | Except.ok timestamp =>
      match parseTxType f2 with
      | Except.error err => Except.error err
      | Except.ok txType =>
        match ParseInt f3 with
        | Except.error err => Except.error (GoError.wrapError ("invalid amount: " ++ err.Error) err)
        | Except.ok amount =>
          match parseTxStatus f4 with
          | Except.error err => Except.error err
          | Except.ok status =>
            Except.ok
              { Timestamp := timestamp, Counterparty := f1, Type_ := txType, Amount := amount,
                Status := status, Description := f5 }
  | _ =>
    Except.error
      (GoError.errorString ("expected 6 fields, got " ++ toString record.length))

/-- What the successive calls of `reader.Read()` of `encoding/csv` return
before `io.EOF`: a record, or a reader error. -/
abbrev csvReads := List (Except GoError (List String))

/-- Results of `parseCSV`: the three counters, the error, and the state the
callback `onTx` has left in the variables it captures. -/
structure parseResult (σ : Type) where
  totalLines : Int
  parsedOK : Int
  parseErr : Int
  err : Option GoError
  acc : σ

/-- The `for` loop of `parseCSV`; the counters are `int64`. -/
def parseCSVLoop {σ : Type} (onTx : σ → Transaction → σ) :
    csvReads → Int → Int → Int → σ → parseResult σ
  | [], totalLines, parsedOK, parseErr, acc =>
    { totalLines := totalLines, parsedOK := parsedOK, parseErr := parseErr, err := none,
      acc := acc }
  | Except.error err :: _, totalLines, parsedOK, parseErr, acc =>
    { totalLines := totalLines, parsedOK := parsedOK, parseErr := wrapInt64 (parseErr + 1),
      err := some err, acc := acc }
  | Except.ok record :: rest, totalLines, parsedOK, parseErr, acc =>
    match parseRecord record with
    | Except.error _ =>
      parseCSVLoop onTx rest (wrapInt64 (totalLines + 1)) parsedOK (wrapInt64 (parseErr + 1)) acc
    | Except.ok tx =>
      parseCSVLoop onTx rest (wrapInt64 (totalLines + 1)) (wrapInt64 (parsedOK + 1)) parseErr
        (onTx acc tx)

/-- Go `parseCSV`; `acc` is the initial value of the variables captured by `onTx`. -/
def parseCSV {σ : Type} (reads : csvReads) (onTx : σ → Transaction → σ) (acc : σ) :
    parseResult σ :=
  parseCSVLoop onTx reads 0 0 0 acc

/-- The transactions `parseCSV` hands to its callback, in order: `parseCSV` run
with a callback that records its argument. -/
def handedTransactions (reads : csvReads) : List Transaction :=
  (parseCSV reads (fun (l : List Transaction) tx => l ++ [tx]) []).acc

/-- Whether `parseRecord` succeeds on a record. -/
def parses (record : List String) : Bool :=
  match parseRecord record with
  | Except.ok _ => true
  | Except.error _ => false

/-- The transactions of the records on which `parseRecord` succeeds, in order. -/
def parsedTransactions (records : List (List String)) : List Transaction :=
  records.filterMap (fun record =>
    match parseRecord record with
    | Except.ok tx => some tx
    | Except.error _ => none)

/-! ## package usecase: processing an upload -/

/-- The collaborators of Go `usecase.Usecase` that `processUpload` calls, as
functions on the state `ω` of the world outside the store: the optional event
publisher (`none` is a nil `u.events`; it returns the error of `Publish`), the
identity generator and the clock (`Now().Unix()`). -/
structure Usecase (ω : Type) where
  events : Option (FailedTxEvent → ω → Option GoError × ω)
  id : ω → String × ω
  clock : ω → Int × ω

/-- The variables captured by the callback of `processUpload`. -/
structure uploadAcc (ω : Type) where
  balance : Int
  issues : List Transaction
  world : ω

/-- The callback `processUpload` passes to `parseCSV`. -/
def Usecase.onTx {ω : Type} (u : Usecase ω) (uploadID : String) (acc : uploadAcc ω)
    (tx : Transaction) : uploadAcc ω :=
  if tx.Status = TxStatusSuccess then
    if tx.Type_ = TxTypeCredit then { acc with balance := wrapInt64 (acc.balance + tx.Amount) }
    else if tx.Type_ = TxTypeDebit then { acc with balance := wrapInt64 (acc.balance - tx.Amount) }
    else acc
  else
    let acc1 := { acc with issues := acc.issues ++ [tx] }
    if tx.Status = TxStatusFailed then
      match u.events with
      | some publish =>
        let g := u.id acc1.world
        let event : FailedTxEvent := { EventID := g.1, UploadID := uploadID, Tx := tx }
        { acc1 with world := (publish event g.2).2 }
      | none => acc1
    else acc1

/-- The call of `parseCSV` in `processUpload`: its result holds everything
`processUpload` passes to `SaveResults`. -/
def Usecase.parseUpload {ω : Type} (u : Usecase ω) (uploadID : String) (reads : csvReads)
    (w : ω) : parseResult (uploadAcc ω) :=
  parseCSV reads (u.onTx uploadID) { balance := 0, issues := [], world := w }


/-- Go `store.uploadRecord` (without its lock). -/
structure uploadRecord where
  meta : UploadMeta
  balance : Int := 0
  issues : List Transaction := []
  deriving DecidableEq, Repr

/-- Go `store.InMemoryStore` (without its lock): the `uploads` map. -/
structure InMemoryStore where
  uploads : String → Option uploadRecord

/-- Go `NewInMemoryStore`. -/
def NewInMemoryStore : InMemoryStore := ⟨fun _ => none⟩

/-- Map update `m[k] = v`. -/
def InMemoryStore.put (s : InMemoryStore) (k : String) (v : uploadRecord) : InMemoryStore :=
  ⟨fun k' => if k' = k then some v else s.uploads k'⟩

/-- Go `InMemoryStore.get`. -/
def InMemoryStore.get (s : InMemoryStore) (uploadID : String) : Except GoError uploadRecord :=
  match s.uploads uploadID with
  | none => Except.error GoError.ErrNotFound
  | some rec => Except.ok rec

/-- Go `InMemoryStore.CreateUpload`: the store it leaves and the error it returns. -/
def InMemoryStore.CreateUpload (s : InMemoryStore) (meta : UploadMeta) :
    InMemoryStore × Option GoError :=
  if (s.uploads meta.ID).isSome then
    (s, some (NewBusiness "upload already exists" CodeConflict))
  else
    (s.put meta.ID { meta := meta }, none)

/-- Go `InMemoryStore.UpdateMeta`; the mutator `fn` receives the record's meta
and its result is stored back (the Go closure writes through the pointer). -/
def InMemoryStore.UpdateMeta (s : InMemoryStore) (uploadID : String)
    (fn : UploadMeta → UploadMeta) : InMemoryStore × Option GoError :=
  match s.get uploadID with
  | Except.error err => (s, some err)
  | Except.ok rec => (s.put uploadID { rec with meta := fn rec.meta }, none)

/-- Go `InMemoryStore.SaveResults`. -/
def InMemoryStore.SaveResults (s : InMemoryStore) (uploadID : String) (balance : Int)
    (issues : List Transaction) (totalLines parsedOK parseErr : Int) :
    InMemoryStore × Option GoError :=
  match s.get uploadID with
  | Except.error err => (s, some err)
  | Except.ok rec =>
    (s.put uploadID
      { rec with
        balance := balance
        issues := issues
        meta := { rec.meta with TotalLines := totalLines, ParsedOK := parsedOK, ParseErr := parseErr } },
     none)

/-- Go `InMemoryStore.GetBalance`. -/
def InMemoryStore.GetBalance (s : InMemoryStore) (uploadID : String) :
    Except GoError (Int × UploadMeta) :=
  match s.get uploadID with
  | Except.error err => Except.error err
  | Except.ok rec => Except.ok (rec.balance, rec.meta)

/-- One iteration of the `for _, tx := range rec.issues` loop of `ListIssues`;
the loop state is `(items, total)`, and `total++` is an `int` increment. -/
def listIssuesStep (filter : IssueFilter) (start stop : Int)
    (acc : List Transaction × Int) (tx : Transaction) : List Transaction × Int :=
  if !filter.Matches tx then acc
  else
    (if acc.2 ≥ start ∧ acc.2 < stop then acc.1 ++ [tx] else acc.1, wrapInt64 (acc.2 + 1))

/-- Go `InMemoryStore.ListIssues`.  `page` and `pageSize` are Go `int`s, so
`start := (page - 1) * pageSize` and `end := start + pageSize` wrap around.
The capacity hint of `make` has no effect on the result and is not modelled. -/
def InMemoryStore.ListIssues (s : InMemoryStore) (uploadID : String) (filter : IssueFilter)
    (page pageSize : Int) : Except GoError (List Transaction × Int × UploadMeta) :=
  match s.get uploadID with
  | Except.error err => Except.error err
  | Except.ok rec =>
    let start := wrapInt64 (wrapInt64 (page - 1) * pageSize)
    let stop := wrapInt64 (start + pageSize)
    let r := rec.issues.foldl (listIssuesStep filter start stop) ([], 0)
    Except.ok (r.1, r.2, rec.meta)

/-! ## package usecase: `processUpload` on the in-memory store -/

/-- Go `Usecase.processUpload` with `u.store` the in-memory store `s`: the
error it returns, the store and the outside world it leaves.  The store and the
identity generator are non-nil (`Upload` checks both before it submits the
task). -/
def Usecase.processUpload {ω : Type} (u : Usecase ω) (s : InMemoryStore) (uploadID : String)
    (reads : csvReads) (w : ω) : Option GoError × InMemoryStore × ω :=
  let t0 := u.clock w
  match s.UpdateMeta uploadID
      (fun meta => { meta with Status := UploadStatusProcessing, StartedAt := t0.1 }) with
  | (s1, some err) => (some err, s1, t0.2)
  | (s1, none) =>
    let r := u.parseUpload uploadID reads t0.2
    let t1 := u.clock r.acc.world
    let status := if r.err.isSome then UploadStatusFailed else UploadStatusDone
    let errMsg := match r.err with
      | some err => err.Error
      | none => ""
    match s1.SaveResults uploadID r.acc.balance r.acc.issues r.totalLines r.parsedOK
        r.parseErr with
    | (s2, some saveErr) => (some saveErr, s2, t1.2)
    | (s2, none) =>
      match s2.UpdateMeta uploadID
          (fun meta =>
            { meta with
              Status := status, Err := errMsg, EndedAt := t1.1, TotalLines := r.totalLines,
              ParsedOK := r.parsedOK, ParseErr := r.parseErr }) with
      | (s3, some metaErr) => (some metaErr, s3, t1.2)
      | (s3, none) => (r.err, s3, t1.2)

/-- The stores `processUpload` leaves after each of its store operations, in
order (`UpdateMeta`, `SaveResults`, `UpdateMeta`): the same code as
`Usecase.processUpload`, keeping the intermediate stores a concurrent reader
can observe. -/
def Usecase.processUploadStores {ω : Type} (u : Usecase ω) (s : InMemoryStore)
    (uploadID : String) (reads : csvReads) (w : ω) : List InMemoryStore :=
  let t0 := u.clock w
  match s.UpdateMeta uploadID
      (fun meta => { meta with Status := UploadStatusProcessing, StartedAt := t0.1 }) with
  | (s1, some _) => [s1]
  | (s1, none) =>
    let r := u.parseUpload uploadID reads t0.2
    let t1 := u.clock r.acc.world
    let status := if r.err.isSome then UploadStatusFailed else UploadStatusDone
    let errMsg := match r.err with
      | some err => err.Error
      | none => ""
    match s1.SaveResults uploadID r.acc.balance r.acc.issues r.totalLines r.parsedOK
        r.parseErr with
    | (s2, some _) => [s1, s2]
    | (s2, none) =>
      [s1, s2,
        (s2.UpdateMeta uploadID
          (fun meta =>
            { meta with
              Status := status, Err := errMsg, EndedAt := t1.1, TotalLines := r.totalLines,
              ParsedOK := r.parsedOK, ParseErr := r.parseErr })).1]

/-- Go `errors.Is(err, pkgerror.ErrNotFound)`: the sentinel itself, or an error
whose `Unwrap` chain reaches it. -/
def errorsIsNotFound : GoError → Bool
  | GoError.ErrNotFound => true
  | GoError.ErrBusClosed => false
  | GoError.errorString _ => false
  | GoError.wrapError _ inner => errorsIsNotFound inner
  | GoError.pkgError (some err) _ _ _ => errorsIsNotFound err
  | GoError.pkgError none _ _ _ => false

/-- Go `errors.As(err, &perr)` for `perr *pkgerror.Error`: the first
`*pkgerror.Error` of the `Unwrap` chain. -/
def errorsAsPkgError : GoError → Option GoError
  | GoError.ErrNotFound => none
  | GoError.ErrBusClosed => none
  | GoError.errorString _ => none
  | GoError.wrapError _ inner => errorsAsPkgError inner
  | GoError.pkgError err msg errType code => some (GoError.pkgError err msg errType code)

/-- Go `usecase.normalizeErr`. -/
def normalizeErr (err : GoError) : GoError :=
  match errorsAsPkgError err with
  | some perr => perr
  | none => NewServer err

/-- Go `InMemoryStore.UpdateMeta` for a mutator that also acts on a state `ω`
outside the store (a Go closure may do so); `InMemoryStore.UpdateMeta` is the
case of a mutator without such effects. -/
def InMemoryStore.UpdateMetaEff {ω : Type} (s : InMemoryStore) (uploadID : String)
    (fn : UploadMeta → ω → UploadMeta × ω) (w : ω) : InMemoryStore × Option GoError × ω :=
  match s.get uploadID with
  | Except.error err => (s, some err, w)
  | Except.ok rec =>
    (s.put uploadID { rec with meta := (fn rec.meta w).1 }, none, (fn rec.meta w).2)

/-- The closure `Upload` hands to the runner: it captures the upload identity
and the reader. -/
structure uploadTask where
  uploadID : String
  reads : csvReads

/-- What `Usecase.Upload` returns and leaves: the identity or the error, the
store, the tasks handed to the runner so far, and the outside world. -/
structure uploadOutcome (ω : Type) where
  result : Except GoError String
  store : Option InMemoryStore
  runner : Option (List uploadTask)
  world : ω

/-- Go `Usecase.Upload`.  `store`, `id` and `runner` are the fields `u.store`,
`u.id` and `u.runner` (`none` is nil); the runner is the list of tasks
submitted to it with `Go`, which it runs later. -/
def Upload {ω : Type} (store : Option InMemoryStore) (id : Option (ω → String × ω))
    (runner : Option (List uploadTask)) (reads : csvReads) (w : ω) : uploadOutcome ω :=
  match store, id, runner with
  | some s, some gen, some tasks =>
    let g := gen w
    match s.CreateUpload { ID := g.1, Status := UploadStatusQueued } with
    | (s1, some err) =>
      { result := Except.error (normalizeErr err), store := some s1, runner := some tasks,
        world := g.2 }
    | (s1, none) =>
      { result := Except.ok g.1, store := some s1,
        runner := some (tasks ++ [{ uploadID := g.1, reads := reads }]), world := g.2 }
  | _, _, _ =>
    { result := Except.error (NewServer (GoError.errorString "missing dependency")),
      store := store, runner := runner, world := w }

/-- The body of the closure of `Upload`, run by the runner: `processUpload`
for the captured identity and reader (the error is logged and returned). -/
def Usecase.runTask {ω : Type} (u : Usecase ω) (s : InMemoryStore) (task : uploadTask)
    (w : ω) : Option GoError × InMemoryStore × ω :=
  u.processUpload s task.uploadID task.reads w

/-- A usecase whose collaborators behave as those of `u` and whose publisher
also appends every event passed to `Publish` to a log (the `testPublisher` of
the usecase tests around any publisher). -/
def Usecase.logged {ω : Type} (u : Usecase ω) : Usecase (ω × List FailedTxEvent) :=
  { events :=
      match u.events with
      | some publish =>
        some (fun event wl => ((publish event wl.1).1, ((publish event wl.1).2, wl.2 ++ [event])))
      | none => none
    id := fun wl => ((u.id wl.1).1, ((u.id wl.1).2, wl.2))
    clock := fun wl => ((u.clock wl.1).1, ((u.clock wl.1).2, wl.2)) }

/-- The status of the record of `uploadID`, if there is one. -/
def statusOf (s : InMemoryStore) (uploadID : String) : Option UploadStatus :=
  (s.uploads uploadID).map (fun rec => rec.meta.Status)

/-- The three counters stored on the meta of `uploadID`, if there is a record. -/
def countersOf (s : InMemoryStore) (uploadID : String) : Option (Int × Int × Int) :=
  (s.uploads uploadID).map
    (fun rec => (rec.meta.TotalLines, rec.meta.ParsedOK, rec.meta.ParseErr))

/-- Go `Code.String`: the `switch` of the source, case by case. -/
def CodeString (c : Code) : String :=
  if c = CodeInvalidFormat then "ERROR_CODE_INVALID_FORMAT"
  else if c = CodeInvalidInput then "ERROR_CODE_INVALID_INPUT"
  else if c = CodeNotFound then "ERROR_CODE_NOT_FOUND"
  else if c = CodeConflict then "ERROR_CODE_CONFLICT"
  else if c = CodeUnauthorized then "ERROR_CODE_UNAUTHORIZED"
  else if c = CodeForbidden then "ERROR_CODE_FORBIDDEN"
  else if c = CodeInternal then "ERROR_CODE_INTERNAL"
  else "ERROR_CODE_INTERNAL"

/-- Go `usecase.mapStoreErr`. -/
def mapStoreErr (err : GoError) : GoError :=
  if errorsIsNotFound err then NewBusiness "upload not found" CodeNotFound
  else normalizeErr err

/-- Whether an error value is a `*pkgerror.Error`. -/
def isPkgError : GoError → Bool
  | GoError.pkgError _ _ _ _ => true
  | _ => false

/-- Go `usecase.BalanceResult`. -/
structure BalanceResult where
  UploadID : String
  Status : UploadStatus
  Balance : Int
  deriving DecidableEq, Repr

/-- Go `usecase.IssuesResult`. -/
structure IssuesResult where
  UploadID : String
  Status : UploadStatus
  Transactions : List Transaction
  Page : Int
  PageSize : Int
  Total : Int
  deriving DecidableEq, Repr

/-- The two methods of the Go interface `usecase.Store` that `Balance` and
`Issues` call.  A call may read and change a state `ω` of the implementation,
so that a call that was made can be told from one that was not. -/
structure Store (ω : Type) where
  GetBalance : String → ω → Except GoError (Int × UploadMeta) × ω
  ListIssues : String → IssueFilter → Int → Int → ω →
    Except GoError (List Transaction × Int × UploadMeta) × ω

/-- The in-memory store as a `Store`; its state is the store itself, which the
two reads leave as it is. -/
def InMemoryStore.asStore : Store InMemoryStore :=
  { GetBalance := fun uploadID s => (s.GetBalance uploadID, s)
    ListIssues := fun uploadID filter page pageSize s =>
      (s.ListIssues uploadID filter page pageSize, s) }

/-- Go `Usecase.Balance` (with a non-nil `u.store`). -/
def Balance {ω : Type} (store : Store ω) (uploadID : String) (w : ω) :
    Except GoError BalanceResult × ω :=
  if uploadID = "" then
    (Except.error (NewInvalidInput (GoError.errorString "upload_id is required")), w)
  else
    match store.GetBalance uploadID w with
    | (Except.error err, w1) => (Except.error (mapStoreErr err), w1)
    | (Except.ok (balance, meta), w1) =>
      (Except.ok { UploadID := uploadID, Status := meta.Status, Balance := balance }, w1)

/-- Go `Usecase.Issues` (with a non-nil `u.store`). -/
def Issues {ω : Type} (store : Store ω) (uploadID : String) (filter : IssueFilter)
    (page pageSize : Int) (w : ω) : Except GoError IssuesResult × ω :=
  if uploadID = "" then
    (Except.error (NewInvalidInput (GoError.errorString "upload_id is required")), w)
  else if page < 1 ∨ pageSize < 1 then
    (Except.error (NewInvalidInput (GoError.errorString "invalid pagination")), w)
  else
    match store.ListIssues uploadID filter page pageSize w with
    | (Except.error err, w1) => (Except.error (mapStoreErr err), w1)
    | (Except.ok (issues, total, meta), w1) =>
      (Except.ok
        { UploadID := uploadID, Status := meta.Status, Transactions := issues, Page := page,
          PageSize := pageSize, Total := total }, w1)

/-- Equality of two strings ignoring case: equality of their upper-case forms,
as `strings.ToUpper` computes them. -/
def equalsIgnoringCase (a b : String) : Bool := ToUpper a = ToUpper b

/-! ## package event: the reconciliation consumer -/

/-- Go `event.Handler`: `Handle` may read and change a state `σ` of its own and
returns an error or `nil`. -/
abbrev Handler (σ : Type) := FailedTxEvent → σ → Option GoError × σ

/-- Go `event.ConsumerConfig`; `BaseBackoff` is a `time.Duration`, a number of
nanoseconds. -/
structure ConsumerConfig where
  Workers : Int
  MaxRetries : Int
  BaseBackoff : Int

/-- The immutable fields of Go `event.ReconciliationConsumer` that
`processEvent` reads (`none` is a nil handler). -/
structure ReconciliationConsumer (σ : Type) where
  handler : Option (Handler σ)
  workers : Int
  maxRetries : Int
  baseBackoff : Int

/-- Go `NewReconciliationConsumer`; `100 * time.Millisecond` is `100000000` ns. -/
def NewReconciliationConsumer {σ : Type} (handler : Option (Handler σ)) (cfg : ConsumerConfig) :
    ReconciliationConsumer σ :=
  { handler := handler
    workers := if cfg.Workers < 1 then 4 else cfg.Workers
    maxRetries := if cfg.MaxRetries < 0 then 0 else cfg.MaxRetries
    baseBackoff := if cfg.BaseBackoff ≤ 0 then 100000000 else cfg.BaseBackoff }

/-- What a consumer does that can be observed from outside: a call of the
handler (with the attempt index and whether it returned `nil`), or a sleep of
`d` nanoseconds. -/
inductive ConsumerStep where
  | handle (event : FailedTxEvent) (attempt : Int) (ok : Bool)
  | sleep (d : Int)
  deriving DecidableEq, Repr

/-- The mutable state around `processEvent`: the keys of the `seen` map, the
state of the handler, and the steps taken so far (a log kept for the
statements, the code has no such field). -/
structure ConsumerState (σ : Type) where
  seen : List String
  handlerState : σ
  trace : List ConsumerStep

/-- State of a freshly built consumer. -/
def ConsumerState.init {σ : Type} (hs : σ) : ConsumerState σ :=
  { seen := [], handlerState := hs, trace := [] }

/-- Go `sleepBackoff`: `false` without sleeping when `d <= 0`, otherwise it
sleeps `d` (logged) and returns `true`. -/
def sleepBackoff (d : Int) (trace : List ConsumerStep) : Bool × List ConsumerStep :=
  if d ≤ 0 then (false, trace) else (true, trace ++ [ConsumerStep.sleep d])

/-- The `for attempt := 0; attempt <= c.maxRetries; attempt++` loop of
`processEvent`, entered at `attempt` with the current `backoff`.  `backoff *= 2`
is a `time.Duration` product and wraps; `attempt++` is only reached below
`maxRetries` and cannot overflow. -/
def retryLoop {σ : Type} (h : Handler σ) (maxRetries : Int) (event : FailedTxEvent)
    (attempt backoff : Int) (st : ConsumerState σ) : ConsumerState σ :=
  if attempt ≤ maxRetries then
    let r := h event st.handlerState
    let st1 : ConsumerState σ :=
      { st with
        handlerState := r.2
        trace := st.trace ++ [ConsumerStep.handle event attempt r.1.isNone] }
    if r.1.isNone then st1
    else if attempt = maxRetries then st1
    else
      let sl := sleepBackoff backoff st1.trace
      if !sl.1 then st1
      else
        retryLoop h maxRetries event (attempt + 1) (wrapInt64 (backoff * 2))
          { st1 with trace := sl.2 }
  else st
termination_by (maxRetries - attempt).toNat
decreasing_by omega

/-- Go `ReconciliationConsumer.processEvent`; `LoadOrStore` on the `seen` map
reports a key already present and stores it otherwise. -/
def ReconciliationConsumer.processEvent {σ : Type} (c : ReconciliationConsumer σ)
    (st : ConsumerState σ) (event : FailedTxEvent) : ConsumerState σ :=
  match c.handler with
  | none => st
  | some h =>
    if event.EventID ≠ "" then
      if st.seen.contains event.EventID then st
      else
        retryLoop h c.maxRetries event 0 c.baseBackoff
          { st with seen := event.EventID :: st.seen }
    else retryLoop h c.maxRetries event 0 c.baseBackoff st

/-- Number of handler invocations in a log. -/
def handleCount (trace : List ConsumerStep) : Nat :=
  trace.countP (fun step =>
    match step with
    | ConsumerStep.handle _ _ _ => true
    | ConsumerStep.sleep _ => false)

/-- The durations slept in a log, in order. -/
def sleeps (trace : List ConsumerStep) : List Int :=
  trace.filterMap (fun step =>
    match step with
    | ConsumerStep.handle _ _ _ => none
    | ConsumerStep.sleep d => some d)

/-- The log of `j` failed attempts numbered from `a`, each followed by its
sleep, the first sleep being `b` and every next one twice the previous. -/
def failedAttempts (event : FailedTxEvent) (a b : Int) (j : Nat) : List ConsumerStep :=
  (List.range j).flatMap (fun (k : Nat) =>
    [ConsumerStep.handle event (a + k) false, ConsumerStep.sleep (b * 2 ^ k)])

/-! ## package event: the bus -/

/-- Go `event.Bus`: the flag `closed` and the buffered channel `ch`, given by
the events it holds (oldest first) and its capacity. -/
structure Bus where
  closed : Bool
  ch : List FailedTxEvent
  chCap : Int

/-- Go `event.NewBus`. -/
def NewBus (buffer : Int) : Bus :=
  let buffer := if buffer < 1 then 1 else buffer
  { closed := false, ch := [], chCap := buffer }

/-- Go `(*Bus).Publish`.  `ctxErr` is `ctx.Err()` at the time of the `select`
(`none` while `ctx.Done()` is not ready); `pick` is the choice the runtime makes
when both cases of the `select` are ready (`true`: the send).  The result is
`none` while neither case is ready, that is while the call has not returned. -/
def Bus.Publish (b : Bus) (ctxErr : Option GoError) (pick : Bool) (event : FailedTxEvent) :
    Option (Bus × Option GoError) :=
  if b.closed then some (b, some GoError.ErrBusClosed)
  else
    match decide ((b.ch.length : Int) < b.chCap), ctxErr with
    | true, none => some ({ b with ch := b.ch ++ [event] }, none)
    | true, some e =>
      if pick then some ({ b with ch := b.ch ++ [event] }, none) else some (b, some e)
    | false, some e => some (b, some e)
    | false, none => none

/-- Go `(*Bus).Close`; closing the channel leaves its buffered events in place. -/
def Bus.Close (b : Bus) : Bus :=
  if b.closed then b else { b with closed := true }

/-- A receive `<-b.Subscribe()` that yields an event. -/
def Bus.Receive (b : Bus) : Option (FailedTxEvent × Bus) :=
  match b.ch with
  | [] => none
  | e :: rest => some (e, { b with ch := rest })

/-- The operations on a bus. -/
inductive BusOp where
  | publish (ctxErr : Option GoError) (pick : Bool) (event : FailedTxEvent)
  | close
  | receive

/-- The bus after an operation; an operation that cannot proceed leaves it as
it is. -/
def Bus.apply (b : Bus) : BusOp → Bus
  | BusOp.publish ctxErr pick event =>
    match b.Publish ctxErr pick event with
    | some (b1, _) => b1
    | none => b
  | BusOp.close => b.Close
  | BusOp.receive =>
    match b.Receive with
    | some (_, b1) => b1
    | none => b

/-! ## package inbound: the issue filter of the endpoint -/

/-- Go `strings.Split(s, ",")` on the characters of `s`. -/
def splitComma : List Char → List (List Char)
  | [] => [[]]
  | c :: cs =>
    if c = ',' then [] :: splitComma cs
    else
      match splitComma cs with
      | h :: t => (c :: h) :: t
      | [] => [[c]]

/-- Go `strings.Split(s, ",")`. -/
def Split (s : String) : List String := (splitComma s.data).map String.mk

/-- Go `parseStatus` of the endpoint. -/
def parseStatus (value : String) : Except GoError TxStatus :=
  if ToUpper value = TxStatusFailed then Except.ok TxStatusFailed
  else if ToUpper value = TxStatusPending then Except.ok TxStatusPending
  else Except.error (NewInvalidInput (GoError.errorString "invalid status filter"))

/-- Go `parseType` of the endpoint. -/
def parseType (value : String) : Except GoError TxType :=
  if ToUpper value = TxTypeCredit then Except.ok TxTypeCredit
  else if ToUpper value = TxTypeDebit then Except.ok TxTypeDebit
  else Except.error (NewInvalidInput (GoError.errorString "invalid type filter"))

/-- The first `for` loop of `parseIssueFilter`: the statuses appended so far
and the error the loop returns with. -/
def parseStatuses : List String → List TxStatus → List TxStatus × Option GoError
  | [], acc => (acc, none)
  | v :: vs, acc =>
    let value := TrimSpace v
    if value = "" then parseStatuses vs acc
    else
      match parseStatus value with
      | Except.error err => (acc, some err)
      | Except.ok status => parseStatuses vs (acc ++ [status])

/-- The second `for` loop of `parseIssueFilter`. -/
def parseTypes : List String → List TxType → List TxType × Option GoError
  | [], acc => (acc, none)
  | v :: vs, acc =>
    let value := TrimSpace v
    if value = "" then parseTypes vs acc
    else
      match parseType value with
      | Except.error err => (acc, some err)
      | Except.ok typ => parseTypes vs (acc ++ [typ])

/-- Go `parseIssueFilter`: the filter and the error it returns. -/
def parseIssueFilter (statusRaw typeRaw : String) : IssueFilter × Option GoError :=
  let statuses := if statusRaw ≠ "" then parseStatuses (Split statusRaw) [] else ([], none)
  match statuses with
  | (sts, some err) => ({ Statuses := sts, Types := [] }, some err)
  | (sts, none) =>
    let types := if typeRaw ≠ "" then parseTypes (Split typeRaw) [] else ([], none)
    match types with
    | (tys, some err) => ({ Statuses := sts, Types := tys }, some err)
    | (tys, none) =>
      let sts := if sts.length = 0 then [TxStatusFailed, TxStatusPending] else sts
      ({ Statuses := sts, Types := tys }, none)

/-! ## Go `errors.Is` and `errors.Join` -/

/-- Go `==` on two error values.  Every error value of this development is a
pointer; two values are taken to be the same pointer when they are built the
same way. -/
def GoError.beq : GoError → GoError → Bool
  | GoError.ErrNotFound, GoError.ErrNotFound => true
  | GoError.ErrBusClosed, GoError.ErrBusClosed => true
  | GoError.errorString a, GoError.errorString b => a == b
  | GoError.wrapError a x, GoError.wrapError b y => a == b && GoError.beq x y
  | GoError.pkgError none m t c, GoError.pkgError none m2 t2 c2 =>
    m == m2 && t == t2 && c == c2
  | GoError.pkgError (some x) m t c, GoError.pkgError (some y) m2 t2 c2 =>
    GoError.beq x y && m == m2 && t == t2 && c == c2
  | _, _ => false

/-- Go `errors.Is(err, target)`: `err == target`, or the same for what `Unwrap`
returns. -/
def errorsIs : GoError → GoError → Bool
  | GoError.wrapError msg inner, target =>
    GoError.beq (GoError.wrapError msg inner) target || errorsIs inner target
  | GoError.pkgError (some err) msg errType code, target =>
    GoError.beq (GoError.pkgError (some err) msg errType code) target || errorsIs err target
  | err, target => GoError.beq err target

/-- Go `*errors.joinError`: the errors that `Unwrap() []error` returns. -/
structure joinError where
  errs : List GoError

/-- Go `errors.Join`: nil when every argument is nil, else a `*joinError` of the
non-nil arguments. -/
def errorsJoin (errs : List (Option GoError)) : Option joinError :=
  let es := errs.filterMap id
  if es.isEmpty then none else some { errs := es }

/-- Go `errors.Is(e, target)` for a `*joinError` `e` and a target that is not a
`*joinError`: some error of `e.Unwrap()` is the target. -/
def joinError.Is (e : joinError) (target : GoError) : Bool :=
  e.errs.any (fun err => errorsIs err target)

/-! ## package pkgroutine -/

/-- Go `pkgroutine.DefaultMaxGoroutine`. -/
def DefaultMaxGoroutine : Int := 10

/-- What a call `f(pCtx)` of a submitted function does: it returns an error,
possibly nil, or it panics. -/
inductive TaskOutcome where
  | returns (err : Option GoError)
  | panics (value : String)

/-- The error that the call appends to `errs`. -/
def TaskOutcome.err : TaskOutcome → Option GoError
  | TaskOutcome.returns err => err
  | TaskOutcome.panics _ => none

/-- The panic that the call raises. -/
def TaskOutcome.panic : TaskOutcome → Option String
  | TaskOutcome.returns _ => none
  | TaskOutcome.panics value => some value

/-- Go `pkgroutine.Manager`: the slice `errs`, the counter of the WaitGroup
`wg`, and the channel `sema` given by the number of elements it holds and its
capacity. -/
structure Manager where
  errs : List GoError
  wg : Int
  sema : Nat
  semaCap : Int

/-- Go `pkgroutine.NewManager`. -/
def NewManager (maxGoroutine : Int) : Manager :=
  let maxGoroutine := if maxGoroutine < 1 then DefaultMaxGoroutine else maxGoroutine
  { errs := [], wg := 0, sema := 0, semaCap := maxGoroutine }

/-- A manager with the goroutines that `Go` has started and that have not
finished, each given by what its function does.  Three history variables record
the run: `submitted` lists the functions passed to `Go`, `called` lists the
functions whose call has taken place, both in order, and `crashed` says that a
panic has left a goroutine. -/
structure ManagerState where
  g : Manager
  goroutines : List TaskOutcome
  submitted : List TaskOutcome
  called : List TaskOutcome
  crashed : Bool

/-- The state in which a new manager starts. -/
def initManager (maxGoroutine : Int) : ManagerState :=
  { g := NewManager maxGoroutine, goroutines := [], submitted := [], called := [],
    crashed := false }

/-- Go `recover()` in a deferred function: it returns the value of the panic
under way and stops the panic.  The result is that value and the panic that is
still under way. -/
def recover (panicking : Option String) : Option String × Option String := (panicking, none)

/-- Go `(*Manager).Go`.  `ctxDone` says whether `pCtx.Done()` is ready at the
`select`, `pick` is the choice of the runtime when both cases are ready
(`true`: the send on `sema`).  The result is `none` while neither case is
ready, that is while the call has not returned. -/
def ManagerState.Go (s : ManagerState) (ctxDone pick : Bool) (f : TaskOutcome) :
    Option ManagerState :=
  let admitted : ManagerState :=
    { s with
      g := { s.g with sema := s.g.sema + 1, wg := s.g.wg + 1 }
      goroutines := s.goroutines ++ [f]
      submitted := s.submitted ++ [f] }
  let dropped : ManagerState := { s with submitted := s.submitted ++ [f] }
  match decide ((s.g.sema : Int) < s.g.semaCap), ctxDone with
  | true, false => some admitted
  | true, true => if pick then some admitted else some dropped
  | false, true => some dropped
  | false, false => none

/-- The goroutine that `Go` starts, run from its first statement to its last:
goroutine number `i` of those that have not finished, with `ctxDone` saying
whether `pCtx.Done()` is ready at its `select`.  The result is `none` when there
is no such goroutine or when the receive from `sema` cannot proceed. -/
def ManagerState.runGoroutine (s : ManagerState) (i : Nat) (ctxDone : Bool) :
    Option ManagerState :=
  match s.goroutines[i]? with
  | none => none
  | some f =>
    -- the select: the function is called only when the context is not done
    let errs :=
      if ctxDone then s.g.errs
      else
        match f.err with
        | some err => s.g.errs ++ [err]
        | none => s.g.errs
    let called := if ctxDone then s.called else s.called ++ [f]
    let panicking : Option String := if ctxDone then none else f.panic
    -- deferred: <-g.sema, then recover()
    if s.g.sema = 0 then none
    else
      let panicking := (recover panicking).2
      -- deferred: g.wg.Done()
      let wg := s.g.wg - 1
      some
        { g := { s.g with errs := errs, sema := s.g.sema - 1, wg := wg }
          goroutines := s.goroutines.eraseIdx i
          submitted := s.submitted
          called := called
          crashed := s.crashed || panicking.isSome || decide (wg < 0) }

/-- Go `(*Manager).Wait`: `none` while the counter of `wg` is not zero. -/
def ManagerState.Wait (s : ManagerState) : Option (Option joinError) :=
  if s.g.wg = 0 then some (errorsJoin (s.g.errs.map some)) else none

/-- What can happen next: a call of `Go` returns, or a goroutine runs. -/
inductive ManagerStep where
  | go (ctxDone pick : Bool) (f : TaskOutcome)
  | run (i : Nat) (ctxDone : Bool)

/-- The step is taken under a context that is not cancelled. -/
def ManagerStep.uncancelled : ManagerStep → Bool
  | ManagerStep.go ctxDone _ _ => !ctxDone
  | ManagerStep.run _ ctxDone => !ctxDone

/-- The state after a step; `none` when the step cannot be taken. -/
def ManagerState.step (s : ManagerState) : ManagerStep → Option ManagerState
  | ManagerStep.go ctxDone pick f => s.Go ctxDone pick f
  | ManagerStep.run i ctxDone => s.runGoroutine i ctxDone

/-- The state after a sequence of steps. -/
def ManagerState.exec : List ManagerStep → ManagerState → Option ManagerState
  | [], s => some s
  | st :: rest, s =>
    match s.step st with
    | none => none
    | some s1 => ManagerState.exec rest s1

/-- The functions passed to `Go` by a sequence of steps, in order. -/
def tasksOf : List ManagerStep → List TaskOutcome
  | [] => []
  | ManagerStep.go _ _ f :: rest => f :: tasksOf rest
  | ManagerStep.run _ _ :: rest => tasksOf rest

/-- What holds of every state that a manager reaches: `sema` holds one element
and `wg` counts one for each goroutine that has not finished, their number is
at most the capacity of `sema`, no panic has left a goroutine, and `errs` holds
the non-nil errors of the calls that have taken place, in order. -/
def ManagerState.consistent (s : ManagerState) : Prop :=
  s.g.sema = s.goroutines.length ∧ s.g.wg = (s.goroutines.length : Int) ∧
    (s.goroutines.length : Int) ≤ s.g.semaCap ∧ s.crashed = false ∧
    s.g.errs = s.called.filterMap TaskOutcome.err

/-! ## Specification-side sums -/

/-- Sum of `Amount` over the transactions with Status Success and Type Credit. -/
def creditSum (txs : List Transaction) : Int :=
  ((txs.filter (fun tx => tx.Status = TxStatusSuccess ∧ tx.Type_ = TxTypeCredit)).map
    (fun tx => tx.Amount)).sum

/-- Sum of `Amount` over the transactions with Status Success and Type Debit. -/
def debitSum (txs : List Transaction) : Int :=
  ((txs.filter (fun tx => tx.Status = TxStatusSuccess ∧ tx.Type_ = TxTypeDebit)).map
    (fun tx => tx.Amount)).sum

/-- Items of the page `ListIssues` returns (`[]` when it fails). -/
def pageItems (s : InMemoryStore) (uploadID : String) (filter : IssueFilter)
    (page pageSize : Int) : List Transaction :=
  match s.ListIssues uploadID filter page pageSize with
  | Except.ok r => r.1
  | Except.error _ => []

/-- Number of pages needed for `total` items: the ceiling of `total / pageSize`. -/
def pageCount (total pageSize : Nat) : Nat := (total + pageSize - 1) / pageSize

/-! ## Concrete inputs used to instantiate the theorems -/

/-- A failed debit, as in the scenario of the usecase tests. -/
def txFailedDebit : Transaction :=
  { Timestamp := 1674507885, Counterparty := "JOHN DOE", Type_ := TxTypeDebit, Amount := 20,
    Status := TxStatusFailed, Description := "restaurant" }

/-- A pending credit, as in the scenario of the usecase tests. -/
def txPendingCredit : Transaction :=
  { Timestamp := 1674507886, Counterparty := "JOHN DOE", Type_ := TxTypeCredit, Amount := 10,
    Status := TxStatusPending, Description := "transfer" }

/-- A second failed transaction. -/
def txFailedCredit : Transaction :=
  { Timestamp := 1674507887, Counterparty := "JANE DOE", Type_ := TxTypeCredit, Amount := 7,
    Status := TxStatusFailed, Description := "refund" }

/-- A record with three issues. -/
def sampleRecord : uploadRecord :=
  { meta := { ID := "upload-1", Status := UploadStatusDone, TotalLines := 3, ParsedOK := 3 },
    balance := 50,
    issues := [txFailedDebit, txPendingCredit, txFailedCredit] }

/-- A store holding `sampleRecord` only. -/
def sampleStore : InMemoryStore := NewInMemoryStore.put "upload-1" sampleRecord

/-- The filter `status = FAILED`. -/
def failedOnly : IssueFilter := { Statuses := [TxStatusFailed] }

/-- A usecase without event publisher, with a constant identity generator and
a clock stopped at 123; there is no outside state. -/
def plainUsecase : Usecase Unit :=
  { events := none, id := fun w => ("id-1", w), clock := fun w => (123, w) }

/-- A store holding a freshly queued upload. -/
def queuedStore : InMemoryStore :=
  (NewInMemoryStore.CreateUpload { ID := "upload-1", Status := UploadStatusQueued }).1

/-- The four lines of the scenario of the usecase tests, as the records the
CSV reader yields (`TrimLeadingSpace` has removed the blank after each comma). -/
def scenarioReads : csvReads :=
  [Except.ok ["1674507883", "JOHN DOE", "CREDIT", "100", "SUCCESS", "salary"],
   Except.ok ["1674507884", "JOHN DOE", "DEBIT", "50", "SUCCESS", "grocery"],
   Except.ok ["1674507885", "JOHN DOE", "DEBIT", "20", "FAILED", "restaurant"],
   Except.ok ["1674507886", "JOHN DOE", "CREDIT", "10", "PENDING", "transfer"]]

/-- Two successful credits whose sum exceeds the largest `int64`. -/
def overflowReads : csvReads :=
  [Except.ok ["1", "A", "CREDIT", "9223372036854775807", "SUCCESS", "x"],
   Except.ok ["2", "A", "CREDIT", "1", "SUCCESS", "y"]]

/-- The stream whose only line is `a"b`: the first `Read` fails with the
`bare quote` parse error of `encoding/csv`. -/
def bareQuoteReads : csvReads :=
  [Except.error
    (GoError.errorString "parse error on line 1, column 2: bare \x22 in non-quoted-field")]

/-- A usecase as in the usecase tests: the identity generator counts up
(`id-1`, `id-2`, ...), the publisher accepts every event, the clock is stopped
at 123; the outside state is the counter of the generator. -/
def countingUsecase : Usecase Nat :=
  { events := some (fun _ n => (none, n))
    id := fun n => ("id-" ++ toString (n + 1), n + 1)
    clock := fun n => (123, n) }

/-- As `countingUsecase`, with a publisher that fails on every event. -/
def failingPublishUsecase : Usecase Nat :=
  { events := some (fun _ n => (some GoError.ErrBusClosed, n))
    id := fun n => ("id-" ++ toString (n + 1), n + 1)
    clock := fun n => (123, n) }

/-- Two good lines followed by a reader error (an unterminated quoted field). -/
def truncatedReads : csvReads :=
  [Except.ok ["1674507883", "JOHN DOE", "CREDIT", "100", "SUCCESS", "salary"],
   Except.ok ["1674507885", "JOHN DOE", "DEBIT", "20", "FAILED", "restaurant"],
   Except.error
     (GoError.errorString
       "parse error on line 3, column 9: extraneous or missing \x22 in quoted-field")]

/-- A record whose amount field is `-5`. -/
def negativeAmountRecord : List String :=
  ["1674507890", "JOHN DOE", "DEBIT", "-5", "SUCCESS", "reversal"]

/-- What `parseRecord` makes of `negativeAmountRecord`. -/
def negativeAmountTx : Transaction :=
  { Timestamp := 1674507890, Counterparty := "JOHN DOE", Type_ := TxTypeDebit, Amount := -5,
    Status := TxStatusSuccess, Description := "reversal" }

/-- An error of a store that wraps a `*pkgerror.Error` with `fmt.Errorf` and
`%w`. -/
def wrappedConflict : GoError :=
  GoError.wrapError "store: upload already exists"
    (NewBusiness "upload already exists" CodeConflict)

/-- A store that counts its calls and knows no upload. -/
def countingStore : Store Nat :=
  { GetBalance := fun _ n => (Except.error GoError.ErrNotFound, n + 1)
    ListIssues := fun _ _ _ _ n => (Except.error GoError.ErrNotFound, n + 1) }

/-- The record the scenario of the usecase tests ends with. -/
def scenarioFinalRecord : uploadRecord :=
  { meta :=
      { ID := "upload-1", Status := UploadStatusDone, Err := "", StartedAt := 123,
        EndedAt := 123, TotalLines := 4, ParsedOK := 4, ParseErr := 0 },
    balance := 50,
    issues := [txFailedDebit, txPendingCredit] }

/-- A handler that fails on every call. -/
def failingHandler : Handler Unit := fun _ s => (some (GoError.errorString "temporary failure"), s)

/-- The event of the consumer test. -/
def sampleEvent : FailedTxEvent :=
  { EventID := "evt-1", UploadID := "upload-1", Tx := txFailedDebit }

/-- The configuration of the consumer test: one worker, two retries, 1 ms. -/
def testConfig : ConsumerConfig := { Workers := 1, MaxRetries := 2, BaseBackoff := 1000000 }

/-- Two retries with a base backoff of `2^62` ns: the second doubling leaves
the range of `time.Duration`. -/
def hugeBackoffConfig : ConsumerConfig :=
  { Workers := 1, MaxRetries := 2, BaseBackoff := 4611686018427387904 }

/-- Five retries with a base backoff of `2^61` ns. -/
def longBackoffConfig : ConsumerConfig :=
  { Workers := 1, MaxRetries := 5, BaseBackoff := 2305843009213693952 }

/-- A function that returns the error `one`. -/
def taskOne : TaskOutcome := TaskOutcome.returns (some (GoError.errorString "one"))

/-- A function that returns the error `two`. -/
def taskTwo : TaskOutcome := TaskOutcome.returns (some (GoError.errorString "two"))

/-- A function that returns nil. -/
def taskNil : TaskOutcome := TaskOutcome.returns none

/-- A function that panics. -/
def taskBoom : TaskOutcome := TaskOutcome.panics "boom"

/-- A run of a manager of capacity two under a context that is never
cancelled: three submissions, the third admitted once a slot is free. -/
def sampleSchedule : List ManagerStep :=
  [ManagerStep.go false true taskOne, ManagerStep.go false true taskBoom,
    ManagerStep.run 1 false, ManagerStep.go false true taskTwo,
    ManagerStep.run 1 false, ManagerStep.run 0 false]

/-- A run of a manager of capacity one under a context that is cancelled
before the two submissions: the first is dropped by `Go`, the second is
admitted and its goroutine finds the context done. -/
def cancelledSchedule : List ManagerStep :=
  [ManagerStep.go true false taskNil, ManagerStep.go true true taskNil,
    ManagerStep.run 0 true]

/-- The state at the end of `sampleSchedule` on a manager of capacity two. -/
def sampleFinalState : ManagerState :=
  { g := { errs := [GoError.errorString "two", GoError.errorString "one"], wg := 0, sema := 0,
           semaCap := 2 }
    goroutines := []
    submitted := [taskOne, taskBoom, taskTwo]
    called := [taskBoom, taskTwo, taskOne]
    crashed := false }

/-- The state at the end of `cancelledSchedule` on a manager of capacity one. -/
def cancelledFinalState : ManagerState :=
  { g := { errs := [], wg := 0, sema := 0, semaCap := 1 }
    goroutines := []
    submitted := [taskNil, taskNil]
    called := []
    crashed := false }

/-! ## Properties -/

/-! ### `wrapInt64` -/

theorem wrapInt64_of_inRange (x : Int) (h1 : -9223372036854775808 ≤ x)
    (h2 : x ≤ 9223372036854775807) : wrapInt64 x = x := by
  unfold wrapInt64; omega

theorem wrapInt64_inRange (x : Int) :
    -9223372036854775808 ≤ wrapInt64 x ∧ wrapInt64 x ≤ 9223372036854775807 := by
  unfold wrapInt64; omega

/-! ### The paging loop of `ListIssues` -/

/-- The loop of `ListIssues`, started at a count `t` that cannot overflow:
it appends the matches whose running index lies in `[start, stop)` and adds
the number of matches to the count. -/
theorem listIssues_foldl (filter : IssueFilter) (start stop : Int) (l : List Transaction) :
    ∀ (items : List Transaction) (t : Int), 0 ≤ t → t + l.length ≤ 9223372036854775807 →
      l.foldl (listIssuesStep filter start stop) (items, t) =
        (items ++ ((l.filter filter.Matches).drop (start - t).toNat).take
            ((stop - t).toNat - (start - t).toNat),
         t + ((l.filter filter.Matches).length : Int)) := by
  induction l with
  | nil => intro items t _ _; simp
  | cons tx rest ih =>
    intro items t ht hb
    simp only [List.length_cons, Nat.cast_add, Nat.cast_one] at hb
    rw [List.foldl_cons]
    by_cases hm : filter.Matches tx = true
    · have hw : wrapInt64 (t + 1) = t + 1 := wrapInt64_of_inRange _ (by omega) (by omega)
      have hstep : listIssuesStep filter start stop (items, t) tx =
          (if t ≥ start ∧ t < stop then items ++ [tx] else items, t + 1) := by
        simp [listIssuesStep, hm, hw]
      rw [hstep, ih _ (t + 1) (by omega) (by omega), List.filter_cons_of_pos hm]
      by_cases hin : t ≥ start ∧ t < stop
      · have e1 : (start - t).toNat = 0 := by omega
        have e2 : (start - (t + 1)).toNat = 0 := by omega
        have e3 : (stop - t).toNat = (stop - (t + 1)).toNat + 1 := by omega
        simp [hin, e1, e2, e3, add_assoc, add_comm]
      · by_cases hlt : t < start
        · have e1 : (start - t).toNat = (start - (t + 1)).toNat + 1 := by omega
          have e3 : (stop - t).toNat - ((start - (t + 1)).toNat + 1) =
              (stop - (t + 1)).toNat - (start - (t + 1)).toNat := by omega
          have hin' : ¬ (start ≤ t ∧ t < stop) := by omega
          simp [hin', e1, e3, add_assoc, add_comm]
        · have e1 : (start - t).toNat = 0 := by omega
          have e2 : (start - (t + 1)).toNat = 0 := by omega
          have e3 : (stop - t).toNat = 0 := by omega
          have e4 : (stop - (t + 1)).toNat = 0 := by omega
          have hin' : ¬ (start ≤ t ∧ t < stop) := by omega
          simp [hin', e1, e2, e3, e4, add_assoc, add_comm]
    · have hstep : listIssuesStep filter start stop (items, t) tx = (items, t) := by
        simp [listIssuesStep, hm]
      rw [hstep, ih _ t ht (by omega), List.filter_cons_of_neg hm]

/-- The value of `ListIssues` on an existing record for any `start`/`stop` the
wrapped arithmetic produces. -/
theorem listIssues_eq (s : InMemoryStore) (uploadID : String) (rec : uploadRecord)
    (filter : IssueFilter) (page pageSize : Int) (hrec : s.uploads uploadID = some rec)
    (hlen : (rec.issues.length : Int) ≤ 9223372036854775807) :
    s.ListIssues uploadID filter page pageSize =
      Except.ok
        (((rec.issues.filter filter.Matches).drop
            (wrapInt64 (wrapInt64 (page - 1) * pageSize)).toNat).take
          ((wrapInt64 (wrapInt64 (wrapInt64 (page - 1) * pageSize) + pageSize)).toNat -
            (wrapInt64 (wrapInt64 (page - 1) * pageSize)).toNat),
         ((rec.issues.filter filter.Matches).length : Int), rec.meta) := by
  unfold InMemoryStore.ListIssues InMemoryStore.get
  simp only [hrec]
  rw [listIssues_foldl filter _ _ rec.issues [] 0 (le_refl 0) (by omega)]
  simp


/-- The value of `ListIssues` when neither `start` nor `end` overflows: the
matches from `start` on, at most `pageSize` of them. -/
theorem listIssues_noOverflow (s : InMemoryStore) (uploadID : String) (rec : uploadRecord)
    (filter : IssueFilter) (page pageSize : Int) (hrec : s.uploads uploadID = some rec)
    (hlen : rec.issues.length < 2 ^ 62)
    (hpage : 1 ≤ page) (hpageMax : page ≤ maxInt64)
    (hsize : 1 ≤ pageSize) (hsizeMax : pageSize ≤ maxInt64)
    (hin : (page - 1) * pageSize < ((rec.issues.filter filter.Matches).length : Int)) :
    s.ListIssues uploadID filter page pageSize =
      Except.ok
        (((rec.issues.filter filter.Matches).drop ((page - 1) * pageSize).toNat).take
            pageSize.toNat,
         ((rec.issues.filter filter.Matches).length : Int), rec.meta) := by
  have hfl : (rec.issues.filter filter.Matches).length ≤ rec.issues.length :=
    List.length_filter_le _ _
  have hlen' : (rec.issues.length : Int) < 4611686018427387904 := by
    have : ((rec.issues.length : Nat) : Int) < ((2 ^ 62 : Nat) : Int) := by exact_mod_cast hlen
    simpa using this
  have hfl' : ((rec.issues.filter filter.Matches).length : Int) ≤ rec.issues.length := by
    exact_mod_cast hfl
  unfold maxInt64 at hpageMax hsizeMax
  have hw1 : wrapInt64 (page - 1) = page - 1 := wrapInt64_of_inRange _ (by omega) (by omega)
  have h0 : 0 ≤ (page - 1) * pageSize := mul_nonneg (by omega) (by omega)
  have hstop : (page - 1) * pageSize + pageSize ≤ 9223372036854775807 := by
    by_cases hp1 : page = 1
    · subst hp1; simpa using hsizeMax
    · have h2 : 0 ≤ (page - 2) * pageSize := mul_nonneg (by omega) (by omega)
      have h3 : (page - 2) * pageSize = (page - 1) * pageSize - pageSize := by ring
      linarith
  rw [listIssues_eq s uploadID rec filter page pageSize hrec (by omega), hw1]
  generalize (page - 1) * pageSize = st at *
  have hw2 : wrapInt64 st = st := wrapInt64_of_inRange _ (by omega) (by omega)
  have hw3 : wrapInt64 (st + pageSize) = st + pageSize :=
    wrapInt64_of_inRange _ (by omega) (by omega)
  rw [hw2, hw3]
  have : (st + pageSize).toNat - st.toNat = pageSize.toNat := by omega
  rw [this]

/-- C5: on an existing record, for a page that starts inside the matches,
`ListIssues` returns the matches at positions `(page-1)*pageSize` up to but
excluding `min (page*pageSize) total`, in storage order, and as total the
number of matches (whatever `page` and `pageSize`).  The issues slice is a Go
slice of 80-byte values, hence far shorter than `2^62`. -/
theorem ListIssues_returns_requested_page (s : InMemoryStore) (uploadID : String)
    (rec : uploadRecord) (filter : IssueFilter) (page pageSize : Int)
    (hrec : s.uploads uploadID = some rec)
    (hlen : rec.issues.length < 2 ^ 62)
    (hpage : 1 ≤ page) (hpageMax : page ≤ maxInt64)
    (hsize : 1 ≤ pageSize) (hsizeMax : pageSize ≤ maxInt64)
    (hin : (page - 1) * pageSize < ((rec.issues.filter filter.Matches).length : Int)) :
    s.ListIssues uploadID filter page pageSize =
      Except.ok
        (((rec.issues.filter filter.Matches).take
            (min (page * pageSize) ((rec.issues.filter filter.Matches).length : Int)).toNat).drop
            ((page - 1) * pageSize).toNat,
         ((rec.issues.filter filter.Matches).length : Int), rec.meta) := by
  rw [listIssues_noOverflow s uploadID rec filter page pageSize hrec hlen hpage hpageMax
    hsize hsizeMax hin]
  have h0 : 0 ≤ (page - 1) * pageSize := mul_nonneg (by omega) (by omega)
  have hpp : page * pageSize = (page - 1) * pageSize + pageSize := by ring
  rw [hpp, List.drop_take]
  generalize (page - 1) * pageSize = st at *
  generalize rec.issues.filter filter.Matches = m at *
  congr 2
  rw [List.take_eq_take, List.length_drop]
  omega

/-- Pages before `pageCount` start inside the list. -/
theorem lt_pageCount_iff (total ps i : Nat) (hps : 0 < ps) :
    i < pageCount total ps ↔ i * ps < total := by
  unfold pageCount
  rw [Nat.lt_iff_add_one_le, Nat.le_div_iff_mul_le hps, Nat.add_mul]
  omega

/-- The pages up to `pageCount` cover the list. -/
theorem le_pageCount_mul (total ps : Nat) (hps : 0 < ps) :
    total ≤ pageCount total ps * ps := by
  by_contra h
  have h1 : pageCount total ps * ps < total := Nat.lt_of_not_le h
  have h2 := (lt_pageCount_iff total ps (pageCount total ps) hps).mpr h1
  exact Nat.lt_irrefl _ h2

/-- Consecutive chunks of length `ps` rebuild a prefix. -/
theorem flatMap_chunks_eq_take {α : Type} (m : List α) (ps : Nat) (f : Nat → List α) :
    ∀ k : Nat, (∀ i, i < k → f i = (m.drop (i * ps)).take ps) →
      (List.range k).flatMap f = m.take (k * ps) := by
  intro k
  induction k with
  | zero => intro _; simp
  | succ k ih =>
    intro hf
    rw [List.range_succ, List.flatMap_append, ih (fun i hi => hf i (Nat.lt_succ_of_lt hi)),
      List.flatMap_singleton, hf k (Nat.lt_succ_self k), Nat.succ_mul, List.take_add]

/-- The items of page `i + 1` are the `i`-th chunk of the matches. -/
theorem pageItems_eq_chunk (s : InMemoryStore) (uploadID : String) (rec : uploadRecord)
    (filter : IssueFilter) (pageSize : Int) (i : Nat) (hrec : s.uploads uploadID = some rec)
    (hlen : rec.issues.length < 2 ^ 62)
    (hsize : 1 ≤ pageSize) (hsizeMax : pageSize ≤ maxInt64)
    (hi : i < pageCount (rec.issues.filter filter.Matches).length pageSize.toNat) :
    s.ListIssues uploadID filter ((i : Int) + 1) pageSize =
        Except.ok (((rec.issues.filter filter.Matches).drop (i * pageSize.toNat)).take
            pageSize.toNat,
          ((rec.issues.filter filter.Matches).length : Int), rec.meta) := by
  have hps : 0 < pageSize.toNat := by omega
  have hi' := (lt_pageCount_iff _ _ i hps).mp hi
  have hfl : (rec.issues.filter filter.Matches).length ≤ rec.issues.length :=
    List.length_filter_le _ _
  have hile : i ≤ i * pageSize.toNat := Nat.le_mul_of_pos_right i hps
  have hlen' : (rec.issues.length : Int) < 4611686018427387904 := by
    have : ((rec.issues.length : Nat) : Int) < ((2 ^ 62 : Nat) : Int) := by exact_mod_cast hlen
    simpa using this
  have hcast : (((i : Int) + 1 - 1) * pageSize) = ((i * pageSize.toNat : Nat) : Int) := by
    have : ((pageSize.toNat : Nat) : Int) = pageSize := Int.toNat_of_nonneg (by omega)
    push_cast
    rw [this]; ring
  have hin : ((i : Int) + 1 - 1) * pageSize <
      ((rec.issues.filter filter.Matches).length : Int) := by
    rw [hcast]; exact_mod_cast hi'
  rw [listIssues_noOverflow s uploadID rec filter ((i : Int) + 1) pageSize hrec hlen
    (by omega) (by unfold maxInt64; omega) hsize hsizeMax hin, hcast, Int.toNat_ofNat]

/-- C3: for `pageSize ≥ 1`, the pages `1 .. ceil(total/pageSize)` returned by
`ListIssues` concatenate to exactly the filter-matching issues in storage
order; each of these calls returns the same total, the page lengths sum to it,
and every page but the last has exactly `pageSize` items.  The issues slice is
a Go slice of 80-byte values, hence far shorter than `2^62`. -/
theorem ListIssues_pages_partition (s : InMemoryStore) (uploadID : String)
    (rec : uploadRecord) (filter : IssueFilter) (pageSize : Int)
    (hrec : s.uploads uploadID = some rec)
    (hlen : rec.issues.length < 2 ^ 62)
    (hsize : 1 ≤ pageSize) (hsizeMax : pageSize ≤ maxInt64) :
    (List.range (pageCount (rec.issues.filter filter.Matches).length pageSize.toNat)).flatMap
        (fun (i : Nat) => pageItems s uploadID filter ((i : Int) + 1) pageSize) =
      rec.issues.filter filter.Matches ∧
    (∀ i : Nat, i < pageCount (rec.issues.filter filter.Matches).length pageSize.toNat →
      s.ListIssues uploadID filter ((i : Int) + 1) pageSize =
        Except.ok (pageItems s uploadID filter ((i : Int) + 1) pageSize,
          ((rec.issues.filter filter.Matches).length : Int), rec.meta)) ∧
    ((List.range (pageCount (rec.issues.filter filter.Matches).length pageSize.toNat)).map
        (fun (i : Nat) => (pageItems s uploadID filter ((i : Int) + 1) pageSize).length)).sum =
      (rec.issues.filter filter.Matches).length ∧
    (∀ i : Nat, i + 1 < pageCount (rec.issues.filter filter.Matches).length pageSize.toNat →
      (pageItems s uploadID filter ((i : Int) + 1) pageSize).length = pageSize.toNat) := by
  have hps : 0 < pageSize.toNat := by omega
  have hitems : ∀ i,
      i < pageCount (rec.issues.filter filter.Matches).length pageSize.toNat →
      pageItems s uploadID filter ((i : Int) + 1) pageSize =
        ((rec.issues.filter filter.Matches).drop (i * pageSize.toNat)).take pageSize.toNat := by
    intro i hi
    unfold pageItems
    rw [pageItems_eq_chunk s uploadID rec filter pageSize i hrec hlen hsize hsizeMax hi]
  have hconcat :
      (List.range (pageCount (rec.issues.filter filter.Matches).length pageSize.toNat)).flatMap
        (fun (i : Nat) => pageItems s uploadID filter ((i : Int) + 1) pageSize) =
      rec.issues.filter filter.Matches := by
    rw [flatMap_chunks_eq_take (rec.issues.filter filter.Matches) pageSize.toNat _ _ hitems]
    exact List.take_of_length_le (le_pageCount_mul _ _ hps)
  refine ⟨hconcat, ?_, ?_, ?_⟩
  · intro i hi
    rw [hitems i hi]
    exact pageItems_eq_chunk s uploadID rec filter pageSize i hrec hlen hsize hsizeMax hi
  · have := congrArg List.length hconcat
    rw [List.length_flatMap] at this
    simpa [Function.comp_def] using this
  · intro i hi
    rw [hitems i (Nat.lt_of_succ_lt hi), List.length_take, List.length_drop]
    have := (lt_pageCount_iff _ _ (i + 1) hps).mp hi
    rw [Nat.add_mul] at this
    omega

/-- Witness of C5: page 2 of size 1 of the failed issues of `sampleRecord`. -/
theorem ListIssues_returns_requested_page_witness :
    sampleStore.ListIssues "upload-1" failedOnly 2 1 =
      Except.ok ([txFailedCredit], 2, sampleRecord.meta) := by
  have h := ListIssues_returns_requested_page sampleStore "upload-1" sampleRecord failedOnly 2 1
    rfl (by decide) (by decide) (by decide) (by decide) (by decide) (by decide)
  rw [h]; rfl

/-- Witness of C3: the failed issues of `sampleRecord` in pages of size 1. -/
theorem ListIssues_pages_partition_witness :
    pageItems sampleStore "upload-1" failedOnly 1 1 ++
        pageItems sampleStore "upload-1" failedOnly 2 1 =
      [txFailedDebit, txFailedCredit] := by
  have h := (ListIssues_pages_partition sampleStore "upload-1" sampleRecord failedOnly 1
    rfl (by decide) (by decide) (by decide)).1
  have e : pageCount (sampleRecord.issues.filter failedOnly.Matches).length (1 : Int).toNat = 2 := by
    decide
  rw [e] at h
  simpa [List.range_succ] using h

/-- Beyond the last page, as long as `(page - 1) * pageSize` itself is an
`int`: `ListIssues` returns no items and the number of matches. -/
theorem listIssues_beyond_last_page (s : InMemoryStore) (uploadID : String)
    (rec : uploadRecord) (filter : IssueFilter) (page pageSize : Int)
    (hrec : s.uploads uploadID = some rec)
    (hlen : (rec.issues.length : Int) ≤ maxInt64)
    (hpage : 1 ≤ page) (hpageMax : page ≤ maxInt64)
    (hfit : (page - 1) * pageSize ≤ maxInt64)
    (hout : ((rec.issues.filter filter.Matches).length : Int) ≤ (page - 1) * pageSize) :
    s.ListIssues uploadID filter page pageSize =
      Except.ok ([], ((rec.issues.filter filter.Matches).length : Int), rec.meta) := by
  unfold maxInt64 at *
  have hw1 : wrapInt64 (page - 1) = page - 1 := wrapInt64_of_inRange _ (by omega) (by omega)
  rw [listIssues_eq s uploadID rec filter page pageSize hrec hlen, hw1]
  generalize (page - 1) * pageSize = st at *
  have hw2 : wrapInt64 st = st := wrapInt64_of_inRange _ (by omega) (by omega)
  rw [hw2]
  have hd : (rec.issues.filter filter.Matches).drop st.toNat = [] :=
    List.drop_eq_nil_of_le (by omega)
  rw [hd]
  simp

/-- C4, the code at an overflowing page: with `page = 2^58 + 1` and
`pageSize = 64` the product `(page - 1) * pageSize` is `2^64`, far beyond the
three matches, yet `start` wraps to `0` and `ListIssues` returns the first page
instead of an empty list (the total is still the number of matches). -/
theorem ListIssues_overflowing_page_not_empty :
    (1 : Int) ≤ 288230376151711745 ∧ (288230376151711745 : Int) ≤ maxInt64 ∧
    ((288230376151711745 : Int) - 1) * 64 ≥
      ((sampleRecord.issues.filter ({} : IssueFilter).Matches).length : Int) ∧
    sampleStore.ListIssues "upload-1" {} 288230376151711745 64 =
      Except.ok ([txFailedDebit, txPendingCredit, txFailedCredit], 3, sampleRecord.meta) := by
  refine ⟨by decide, by decide, by decide, ?_⟩
  rfl

/-- C6: `IssueFilter.Matches` holds exactly when the status constraint is empty
or contains the transaction's status, and the type constraint is empty or
contains the transaction's type. -/
theorem IssueFilter_Matches_iff (f : IssueFilter) (tx : Transaction) :
    f.Matches tx = true ↔
      (f.Statuses = [] ∨ tx.Status ∈ f.Statuses) ∧ (f.Types = [] ∨ tx.Type_ ∈ f.Types) := by
  have hany : ∀ l : List TxType, (l.any fun typ => tx.Type_ == typ) = true ↔ tx.Type_ ∈ l := by
    intro l; simp
  unfold IssueFilter.Matches
  by_cases h1 : f.Statuses = [] <;> by_cases h2 : f.Types = [] <;>
    by_cases h3 : tx.Status ∈ f.Statuses <;> by_cases h4 : tx.Type_ ∈ f.Types <;>
    simp [h1, h2, h3, h4, List.length_pos, -List.any_eq_true, hany]

/-- C10: `CreateUpload` on an identity that already has a record returns a
Business error with code Conflict and the store unchanged; on a fresh identity
it returns no error and a store that maps the identity to a record holding
exactly `meta`, balance 0 and no issues, every other key unchanged.  Hence a
second `CreateUpload` with the same identity, right after a successful one,
fails with Conflict and changes nothing. -/
theorem CreateUpload_conflict_or_insert (s : InMemoryStore) (meta : UploadMeta) :
    ((s.uploads meta.ID).isSome = true →
      s.CreateUpload meta =
        (s, some (GoError.pkgError none "upload already exists" ErrType.TypeBusiness
          CodeConflict))) ∧
    (s.uploads meta.ID = none →
      (s.CreateUpload meta).2 = none ∧
      (s.CreateUpload meta).1.uploads meta.ID =
        some { meta := meta, balance := 0, issues := [] } ∧
      (∀ k, k ≠ meta.ID → (s.CreateUpload meta).1.uploads k = s.uploads k) ∧
      (∀ meta2 : UploadMeta, meta2.ID = meta.ID →
        (s.CreateUpload meta).1.CreateUpload meta2 =
          ((s.CreateUpload meta).1,
            some (GoError.pkgError none "upload already exists" ErrType.TypeBusiness
              CodeConflict)))) := by
  constructor
  · intro h
    simp [InMemoryStore.CreateUpload, h, NewBusiness, pkgerrorNew]
  · intro h
    have hc : s.CreateUpload meta = (s.put meta.ID { meta := meta }, none) := by
      simp [InMemoryStore.CreateUpload, h]
    rw [hc]
    refine ⟨rfl, by simp [InMemoryStore.put], ?_, ?_⟩
    · intro k hk
      simp [InMemoryStore.put, hk]
    · intro meta2 h2
      simp [InMemoryStore.CreateUpload, InMemoryStore.put, h2, NewBusiness, pkgerrorNew]

/-! ### `parseCSV` and `processUpload` -/

/-- The recording callback only appends to what it was started with. -/
theorem parseCSVLoop_recorder (reads : csvReads) :
    ∀ (t p e t' p' e' : Int) (l : List Transaction),
      (parseCSVLoop (fun (l : List Transaction) tx => l ++ [tx]) reads t p e l).acc =
        l ++ (parseCSVLoop (fun (l : List Transaction) tx => l ++ [tx]) reads t' p' e' []).acc := by
  induction reads with
  | nil => intro t p e t' p' e' l; simp [parseCSVLoop]
  | cons r rest ih =>
    intro t p e t' p' e' l
    cases r with
    | error err => simp [parseCSVLoop]
    | ok record =>
      cases hp : parseRecord record with
      | error err =>
        simp only [parseCSVLoop, hp]
        exact ih _ _ _ _ _ _ l
      | ok tx =>
        simp only [parseCSVLoop, hp]
        rw [ih _ _ _ (wrapInt64 (t' + 1)) (wrapInt64 (p' + 1)) e' (l ++ [tx]),
          ih (wrapInt64 (t' + 1)) (wrapInt64 (p' + 1)) e' (wrapInt64 (t' + 1))
            (wrapInt64 (p' + 1)) e' ([] ++ [tx])]
        simp

/-- What the callback of `parseCSV` leaves: the fold of the callback over the
transactions handed to it. -/
theorem parseCSVLoop_acc {σ : Type} (onTx : σ → Transaction → σ) (reads : csvReads) :
    ∀ (t p e : Int) (acc : σ),
      (parseCSVLoop onTx reads t p e acc).acc = (handedTransactions reads).foldl onTx acc := by
  unfold handedTransactions parseCSV
  induction reads with
  | nil => intro t p e acc; simp [parseCSVLoop]
  | cons r rest ih =>
    intro t p e acc
    cases r with
    | error err => simp [parseCSVLoop]
    | ok record =>
      cases hp : parseRecord record with
      | error err =>
        simp only [parseCSVLoop, hp]
        rw [ih]
        congr 1
        exact ((parseCSVLoop_recorder rest _ _ _ 0 0 0 []).trans (List.nil_append _)).symm
      | ok tx =>
        simp only [parseCSVLoop, hp]
        rw [ih]
        have h := parseCSVLoop_recorder rest (wrapInt64 (0 + 1)) (wrapInt64 (0 + 1)) 0 0 0 0
          ([] ++ [tx])
        rw [h]
        simp

/-- The counters of `parseCSV` on a stream of fewer than `2^63` reads: they add
up when the stream ends at EOF, and are off by one when it stops on a reader
error (`parseErr` is incremented there, `totalLines` is not). -/
theorem parseCSVLoop_counters {σ : Type} (onTx : σ → Transaction → σ) (reads : csvReads) :
    ∀ (t p e : Int) (acc : σ), 0 ≤ p → 0 ≤ e → t = p + e →
      t + reads.length ≤ 9223372036854775807 →
      ((parseCSVLoop onTx reads t p e acc).err = none →
        (parseCSVLoop onTx reads t p e acc).totalLines =
          (parseCSVLoop onTx reads t p e acc).parsedOK +
            (parseCSVLoop onTx reads t p e acc).parseErr) ∧
      ((parseCSVLoop onTx reads t p e acc).err ≠ none →
        (parseCSVLoop onTx reads t p e acc).totalLines + 1 =
          (parseCSVLoop onTx reads t p e acc).parsedOK +
            (parseCSVLoop onTx reads t p e acc).parseErr) := by
  induction reads with
  | nil => intro t p e acc _ _ h _; simp [parseCSVLoop, h]
  | cons r rest ih =>
    intro t p e acc hp he h hb
    simp only [List.length_cons, Nat.cast_add, Nat.cast_one] at hb
    cases r with
    | error err =>
      have hw : wrapInt64 (e + 1) = e + 1 := wrapInt64_of_inRange _ (by omega) (by omega)
      simp only [parseCSVLoop, hw]
      constructor
      · intro hn; simp at hn
      · intro _; omega
    | ok record =>
      have hwt : wrapInt64 (t + 1) = t + 1 := wrapInt64_of_inRange _ (by omega) (by omega)
      have hwp : wrapInt64 (p + 1) = p + 1 := wrapInt64_of_inRange _ (by omega) (by omega)
      have hwe : wrapInt64 (e + 1) = e + 1 := wrapInt64_of_inRange _ (by omega) (by omega)
      cases hpr : parseRecord record with
      | error err =>
        simp only [parseCSVLoop, hpr, hwt, hwe]
        exact ih (t + 1) p (e + 1) acc hp (by omega) (by omega) (by omega)
      | ok tx =>
        simp only [parseCSVLoop, hpr, hwt, hwp]
        exact ih (t + 1) (p + 1) e (onTx acc tx) (by omega) he (by omega) (by omega)

/-- Wrapping is compatible with addition. -/
theorem wrapInt64_add_congr (a b k : Int) (h : wrapInt64 a = wrapInt64 b) :
    wrapInt64 (a + k) = wrapInt64 (b + k) := by
  unfold wrapInt64 at *; omega

theorem creditSum_cons (tx : Transaction) (txs : List Transaction) :
    creditSum (tx :: txs) = creditSum [tx] + creditSum txs := by
  unfold creditSum
  by_cases h : tx.Status = TxStatusSuccess ∧ tx.Type_ = TxTypeCredit <;>
    simp [List.filter_cons, h]

theorem debitSum_cons (tx : Transaction) (txs : List Transaction) :
    debitSum (tx :: txs) = debitSum [tx] + debitSum txs := by
  unfold debitSum
  by_cases h : tx.Status = TxStatusSuccess ∧ tx.Type_ = TxTypeDebit <;>
    simp [List.filter_cons, h]

/-- One call of the callback: the balance moves by the transaction's
contribution, modulo `2^64`, and stays an `int64`. -/
theorem onTx_balance {ω : Type} (u : Usecase ω) (uploadID : String) (acc : uploadAcc ω)
    (tx : Transaction) :
    wrapInt64 (u.onTx uploadID acc tx).balance =
        wrapInt64 (acc.balance + (creditSum [tx] - debitSum [tx])) ∧
      (inInt64 acc.balance → inInt64 (u.onTx uploadID acc tx).balance) := by
  have hne : TxTypeCredit ≠ TxTypeDebit := by decide
  unfold Usecase.onTx
  by_cases hs : tx.Status = TxStatusSuccess
  · by_cases hc : tx.Type_ = TxTypeCredit
    · have hd : tx.Type_ ≠ TxTypeDebit := by rw [hc]; exact hne
      simp only [hs, hc, if_true, creditSum, debitSum]
      have hr := wrapInt64_inRange (acc.balance + tx.Amount)
      refine ⟨?_, fun _ => ?_⟩
      · simp [hs, hc, hne]
        unfold wrapInt64; omega
      · unfold inInt64 minInt64 maxInt64; exact hr
    · by_cases hd : tx.Type_ = TxTypeDebit
      · have hr := wrapInt64_inRange (acc.balance - tx.Amount)
        refine ⟨?_, fun _ => ?_⟩
        · simp [hs, hc, hd, creditSum, debitSum, hne.symm]
          unfold wrapInt64; omega
        · simp only [hs, hc, hd, if_true, if_false]
          unfold inInt64 minInt64 maxInt64; exact hr
      · simp [hs, hc, hd, creditSum, debitSum]
  · have hz : creditSum [tx] - debitSum [tx] = 0 := by simp [creditSum, debitSum, hs]
    rw [if_neg hs, hz, add_zero]
    dsimp only
    split
    · split <;> exact ⟨rfl, id⟩
    · exact ⟨rfl, id⟩

/-- The balance after the callback has run over `txs`. -/
theorem foldl_onTx_balance {ω : Type} (u : Usecase ω) (uploadID : String)
    (txs : List Transaction) :
    ∀ acc : uploadAcc ω,
      wrapInt64 (txs.foldl (u.onTx uploadID) acc).balance =
          wrapInt64 (acc.balance + (creditSum txs - debitSum txs)) ∧
        (inInt64 acc.balance → inInt64 (txs.foldl (u.onTx uploadID) acc).balance) := by
  induction txs with
  | nil => intro acc; simp [creditSum, debitSum]
  | cons tx rest ih =>
    intro acc
    obtain ⟨h1, h2⟩ := onTx_balance u uploadID acc tx
    obtain ⟨h3, h4⟩ := ih (u.onTx uploadID acc tx)
    rw [List.foldl_cons]
    refine ⟨?_, fun h => h4 (h2 h)⟩
    rw [h3, creditSum_cons, debitSum_cons,
      wrapInt64_add_congr _ _ (creditSum rest - debitSum rest) h1]
    congr 1; ring

/-- The balance `processUpload` computes, in terms of the handed transactions. -/
theorem parseUpload_balance {ω : Type} (u : Usecase ω) (uploadID : String) (reads : csvReads)
    (w : ω) :
    (u.parseUpload uploadID reads w).acc.balance =
      wrapInt64 (creditSum (handedTransactions reads) - debitSum (handedTransactions reads)) := by
  unfold Usecase.parseUpload parseCSV
  rw [parseCSVLoop_acc]
  obtain ⟨h1, h2⟩ := foldl_onTx_balance u uploadID (handedTransactions reads)
    { balance := 0, issues := [], world := w }
  have hr := h2 (by unfold inInt64 minInt64 maxInt64; constructor <;> simp)
  unfold inInt64 minInt64 maxInt64 at hr
  rw [← wrapInt64_of_inRange _ hr.1 hr.2, h1]
  simp

/-- The record `processUpload` leaves for an existing upload. -/
theorem processUpload_record {ω : Type} (u : Usecase ω) (s : InMemoryStore)
    (uploadID : String) (reads : csvReads) (w : ω) (rec : uploadRecord)
    (hrec : s.uploads uploadID = some rec) :
    (u.processUpload s uploadID reads w).2.1.uploads uploadID =
      some
        { meta :=
            { rec.meta with
              Status :=
                if (u.parseUpload uploadID reads (u.clock w).2).err.isSome then UploadStatusFailed
                else UploadStatusDone
              Err :=
                match (u.parseUpload uploadID reads (u.clock w).2).err with
                | some err => err.Error
                | none => ""
              StartedAt := (u.clock w).1
              EndedAt := (u.clock (u.parseUpload uploadID reads (u.clock w).2).acc.world).1
              TotalLines := (u.parseUpload uploadID reads (u.clock w).2).totalLines
              ParsedOK := (u.parseUpload uploadID reads (u.clock w).2).parsedOK
              ParseErr := (u.parseUpload uploadID reads (u.clock w).2).parseErr }
          balance := (u.parseUpload uploadID reads (u.clock w).2).acc.balance
          issues := (u.parseUpload uploadID reads (u.clock w).2).acc.issues } := by
  simp [Usecase.processUpload, InMemoryStore.UpdateMeta, InMemoryStore.SaveResults,
    InMemoryStore.get, InMemoryStore.put, hrec]

theorem creditSum_perm (l1 l2 : List Transaction) (h : l1.Perm l2) :
    creditSum l1 = creditSum l2 := by
  unfold creditSum
  exact ((h.filter _).map _).sum_eq

theorem debitSum_perm (l1 l2 : List Transaction) (h : l1.Perm l2) :
    debitSum l1 = debitSum l2 := by
  unfold debitSum
  exact ((h.filter _).map _).sum_eq

/-- C1 (amended): the balance `processUpload` accumulates and passes to
`SaveResults` is the sum of `Amount` over the handed Success Credit
transactions minus the sum over the Success Debit ones, reduced to `int64` by
two's-complement wrap-around; it is exactly that difference whenever the
difference is an `int64`.  Transactions that are not Success do not occur in
either sum, a permutation of the handed transactions leaves the balance
unchanged, and the balance is the one stored in the upload's record. -/
theorem processUpload_balance_wrapped_sum {ω : Type} (u : Usecase ω) (uploadID : String)
    (reads : csvReads) (w : ω) :
    (u.parseUpload uploadID reads w).acc.balance =
        wrapInt64
          (creditSum (handedTransactions reads) - debitSum (handedTransactions reads)) ∧
    (inInt64 (creditSum (handedTransactions reads) - debitSum (handedTransactions reads)) →
      (u.parseUpload uploadID reads w).acc.balance =
        creditSum (handedTransactions reads) - debitSum (handedTransactions reads)) ∧
    (∀ (reads' : csvReads) (w' : ω),
      (handedTransactions reads').Perm (handedTransactions reads) →
      (u.parseUpload uploadID reads' w').acc.balance =
        (u.parseUpload uploadID reads w).acc.balance) ∧
    (∀ (s : InMemoryStore) (rec : uploadRecord), s.uploads uploadID = some rec →
      ∃ rec' : uploadRecord,
        (u.processUpload s uploadID reads w).2.1.uploads uploadID = some rec' ∧
        rec'.balance =
          wrapInt64
            (creditSum (handedTransactions reads) - debitSum (handedTransactions reads))) := by
  refine ⟨parseUpload_balance u uploadID reads w, ?_, ?_, ?_⟩
  · intro h
    unfold inInt64 minInt64 maxInt64 at h
    rw [parseUpload_balance, wrapInt64_of_inRange _ h.1 h.2]
  · intro reads' w' hperm
    rw [parseUpload_balance, parseUpload_balance, creditSum_perm _ _ hperm,
      debitSum_perm _ _ hperm]
  · intro s rec hrec
    exact ⟨_, processUpload_record u s uploadID reads w rec hrec,
      parseUpload_balance u uploadID reads _⟩

/-- C1, counterexample to the exact sum: two successful credits of
`9223372036854775807` and `1` are handed to the callback; their sum is `2^63`,
the balance passed to `SaveResults` is `-2^63`. -/
theorem processUpload_balance_not_exact_sum :
    (plainUsecase.parseUpload "upload-1" overflowReads ()).acc.balance =
        -9223372036854775808 ∧
    creditSum (handedTransactions overflowReads) - debitSum (handedTransactions overflowReads) =
        9223372036854775808 ∧
    (plainUsecase.parseUpload "upload-1" overflowReads ()).acc.balance ≠
      creditSum (handedTransactions overflowReads) -
        debitSum (handedTransactions overflowReads) := by
  decide

/-- C2, the code on a stream that stops on a reader error: `parseCSV` returns
`totalLines = 0`, `parsedOK = 0`, `parseErr = 1`, so `totalLines` differs from
`parsedOK + parseErr`, and `processUpload` stores these counters on the meta of
the upload. -/
theorem parseCSV_reader_error_counters :
    (plainUsecase.parseUpload "upload-1" bareQuoteReads ()).totalLines = 0 ∧
    (plainUsecase.parseUpload "upload-1" bareQuoteReads ()).parsedOK = 0 ∧
    (plainUsecase.parseUpload "upload-1" bareQuoteReads ()).parseErr = 1 ∧
    (plainUsecase.parseUpload "upload-1" bareQuoteReads ()).totalLines ≠
      (plainUsecase.parseUpload "upload-1" bareQuoteReads ()).parsedOK +
        (plainUsecase.parseUpload "upload-1" bareQuoteReads ()).parseErr ∧
    ((plainUsecase.processUpload queuedStore "upload-1" bareQuoteReads ()).2.1.uploads
        "upload-1").map (fun r => (r.meta.Status, r.meta.TotalLines, r.meta.ParsedOK,
          r.meta.ParseErr)) =
      some (UploadStatusFailed, 0, 0, 1) := by
  decide

/-- The scenario of the usecase tests: balance 50, two issues, four lines. -/
theorem processUpload_scenario :
    ((plainUsecase.processUpload queuedStore "upload-1" scenarioReads ()).2.1.uploads
        "upload-1") =
      some
        { meta :=
            { ID := "upload-1", Status := UploadStatusDone, Err := "", StartedAt := 123,
              EndedAt := 123, TotalLines := 4, ParsedOK := 4, ParseErr := 0 },
          balance := 50,
          issues := [txFailedDebit, txPendingCredit] } := by
  decide

/-! ### The reconciliation consumer -/

theorem failedAttempts_zero (event : FailedTxEvent) (a b : Int) :
    failedAttempts event a b 0 = [] := by
  simp [failedAttempts]

/-- Peeling the first failed attempt off the log. -/
theorem failedAttempts_succ (event : FailedTxEvent) (a b : Int) (j : Nat) :
    failedAttempts event a b (j + 1) =
      [ConsumerStep.handle event a false, ConsumerStep.sleep b] ++
        failedAttempts event (a + 1) (b * 2) j := by
  unfold failedAttempts
  rw [List.range_succ_eq_map, List.flatMap_cons, List.flatMap_map]
  simp only [Nat.cast_zero, add_zero, pow_zero, mul_one, List.cons_append, List.nil_append,
    List.singleton_append]
  congr 2
  apply List.flatMap_congr
  intro k _
  simp only [Nat.succ_eq_add_one, Nat.cast_add, Nat.cast_one, pow_succ]
  congr 2
  · omega
  · rw [mul_assoc, mul_comm (2 : Int) (2 ^ k)]

theorem handleCount_append (l1 l2 : List ConsumerStep) :
    handleCount (l1 ++ l2) = handleCount l1 + handleCount l2 := by
  simp [handleCount]

theorem handleCount_failedAttempts (event : FailedTxEvent) (a b : Int) (j : Nat) :
    handleCount (failedAttempts event a b j) = j := by
  induction j generalizing a b with
  | zero => simp [failedAttempts, handleCount]
  | succ j ih =>
    rw [failedAttempts_succ, handleCount_append, ih]
    simp [handleCount, Nat.add_comm]

/-- The retry loop entered at `attempt = a` with `backoff = b`: it logs `j`
failed attempts, each followed by a sleep of `b * 2^k` that did not overflow,
then one last attempt `a + j`; it stops there because that attempt succeeded,
or was attempt `maxRetries`, or the backoff it would sleep is not positive
(which after the first doubling means `b * 2^j` has left the `int64` range).
It leaves the `seen` keys alone. -/
theorem retryLoop_shape {σ : Type} (h : Handler σ) (M : Int) (event : FailedTxEvent) :
    ∀ (n : Nat) (a b : Int) (st : ConsumerState σ), (M - a).toNat = n → a ≤ M →
      b ≤ 9223372036854775807 →
      ∃ (j : Nat) (ok : Bool),
        (retryLoop h M event a b st).trace =
          st.trace ++ failedAttempts event a b j ++ [ConsumerStep.handle event (a + j) ok] ∧
        a + j ≤ M ∧
        (∀ k : Nat, k < j → 0 < b * 2 ^ k ∧ b * 2 ^ k ≤ 9223372036854775807) ∧
        (ok = true ∨ a + j = M ∨ b * 2 ^ j ≤ 0 ∨ 9223372036854775807 < b * 2 ^ j) ∧
        ((∀ s : σ, (h event s).1.isSome = true) → ok = false) ∧
        (retryLoop h M event a b st).seen = st.seen := by
  intro n
  induction n with
  | zero =>
    intro a b st hn ha hb
    have haM : a = M := by omega
    rw [retryLoop]
    refine ⟨0, (h event st.handlerState).1.isNone, ?_, by simpa using ha, ?_, ?_, ?_, ?_⟩
    · by_cases hok : (h event st.handlerState).1.isNone = true <;>
        simp [ha, haM, hok, failedAttempts_zero]
    · intro k hk; omega
    · right; left; simpa using haM
    · intro hf
      have := hf st.handlerState
      cases hr : (h event st.handlerState).1 <;> simp [hr] at this ⊢
    · by_cases hok : (h event st.handlerState).1.isNone = true <;> simp [ha, haM, hok]
  | succ n ih =>
    intro a b st hn ha hb
    have haM : a ≠ M := by omega
    rw [retryLoop]
    by_cases hok : (h event st.handlerState).1.isNone = true
    · refine ⟨0, true, ?_, by simpa using ha, ?_, Or.inl rfl, ?_, ?_⟩
      · simp [ha, hok, failedAttempts_zero]
      · intro k hk; omega
      · intro hf
        have := hf st.handlerState
        cases hr : (h event st.handlerState).1 <;> simp [hr] at this hok
      · simp [ha, hok]
    · by_cases hb0 : b ≤ 0
      · refine ⟨0, false, ?_, by simpa using ha, ?_, ?_, fun _ => rfl, ?_⟩
        · simp [ha, hok, haM, sleepBackoff, hb0, failedAttempts_zero]
        · intro k hk; omega
        · right; right; left; simpa using hb0
        · simp [ha, hok, haM, sleepBackoff, hb0]
      · have hwr := wrapInt64_inRange (b * 2)
        obtain ⟨j, ok, h1, h2, h3, h4, h5, h6⟩ :=
          ih (a + 1) (wrapInt64 (b * 2))
            { seen := st.seen, handlerState := (h event st.handlerState).2,
              trace := st.trace ++ [ConsumerStep.handle event a false] ++
                [ConsumerStep.sleep b] }
            (by omega) (by omega) hwr.2
        have hstep : (if a ≤ M then
              let r := h event st.handlerState
              let st1 : ConsumerState σ :=
                { st with
                  handlerState := r.2
                  trace := st.trace ++ [ConsumerStep.handle event a r.1.isNone] }
              if r.1.isNone then st1
              else if a = M then st1
              else
                let sl := sleepBackoff b st1.trace
                if !sl.1 then st1
                else
                  retryLoop h M event (a + 1) (wrapInt64 (b * 2))
                    { st1 with trace := sl.2 }
            else st) =
            retryLoop h M event (a + 1) (wrapInt64 (b * 2))
              { seen := st.seen, handlerState := (h event st.handlerState).2,
                trace := st.trace ++ [ConsumerStep.handle event a false] ++
                  [ConsumerStep.sleep b] } := by
          simp [ha, hok, haM, sleepBackoff, hb0]
        rw [hstep]
        by_cases hov : b * 2 ≤ 9223372036854775807
        · have hw : wrapInt64 (b * 2) = b * 2 := wrapInt64_of_inRange _ (by omega) hov
          rw [hw] at h1 h3 h4 h6 ⊢
          refine ⟨j + 1, ok, ?_, by push_cast; omega, ?_, ?_, h5, h6⟩
          · rw [h1, failedAttempts_succ]
            have e2 : a + ((j + 1 : Nat) : Int) = a + 1 + (j : Int) := by push_cast; ring
            rw [e2]
            simp
          · intro k hk
            cases k with
            | zero => simp; omega
            | succ k =>
              have := h3 k (by omega)
              rw [pow_succ]
              rw [show b * (2 ^ k * 2) = b * 2 * 2 ^ k by ring]
              exact this
          · have e : b * 2 ^ (j + 1) = b * 2 * 2 ^ j := by rw [pow_succ]; ring
            have e2 : a + ((j + 1 : Nat) : Int) = a + 1 + (j : Int) := by push_cast; ring
            rw [e, e2]
            exact h4
        · have hneg : wrapInt64 (b * 2) < 0 := by unfold wrapInt64; omega
          have hj : j = 0 := by
            by_contra hne
            have := (h3 0 (Nat.pos_of_ne_zero hne)).1
            simp at this
            omega
          subst hj
          refine ⟨1, ok, ?_, by push_cast; simpa using h2, ?_, ?_, h5, h6⟩
          · rw [h1, failedAttempts_zero, failedAttempts_succ, failedAttempts_zero]
            simp
          · intro k hk
            have hk0 : k = 0 := by omega
            subst hk0
            simp; omega
          · rcases h4 with h4 | h4 | h4 | h4
            · exact Or.inl h4
            · right; left; push_cast; simpa using h4
            · right; right; right; simp; omega
            · right; right; right; simp; omega

/-- The steps `processEvent` logs for an event that is not dropped as a
duplicate, on a consumer built by `NewReconciliationConsumer` from a
`BaseBackoff` that is a `time.Duration`. -/
theorem processEvent_shape {σ : Type} (h : Handler σ) (cfg : ConsumerConfig)
    (st : ConsumerState σ) (event : FailedTxEvent)
    (hbase : cfg.BaseBackoff ≤ maxInt64)
    (hfresh : event.EventID = "" ∨ event.EventID ∉ st.seen) :
    ∃ (j : Nat) (ok : Bool),
      ((NewReconciliationConsumer (some h) cfg).processEvent st event).trace =
        st.trace ++
          failedAttempts event 0 (NewReconciliationConsumer (some h) cfg).baseBackoff j ++
          [ConsumerStep.handle event j ok] ∧
      (j : Int) ≤ (NewReconciliationConsumer (some h) cfg).maxRetries ∧
      (∀ k : Nat, k < j →
        (NewReconciliationConsumer (some h) cfg).baseBackoff * 2 ^ k ≤ maxInt64) ∧
      (ok = true ∨ (j : Int) = (NewReconciliationConsumer (some h) cfg).maxRetries ∨
        maxInt64 < (NewReconciliationConsumer (some h) cfg).baseBackoff * 2 ^ j) ∧
      ((∀ s : σ, (h event s).1.isSome = true) → ok = false) := by
  unfold maxInt64 at *
  have hM : 0 ≤ (NewReconciliationConsumer (some h) cfg).maxRetries := by
    simp only [NewReconciliationConsumer]; split <;> omega
  have hB : 0 < (NewReconciliationConsumer (some h) cfg).baseBackoff ∧
      (NewReconciliationConsumer (some h) cfg).baseBackoff ≤ 9223372036854775807 := by
    simp only [NewReconciliationConsumer]; split <;> omega
  have key : ∀ st' : ConsumerState σ, st'.trace = st.trace →
      (NewReconciliationConsumer (some h) cfg).processEvent st event =
        retryLoop h (NewReconciliationConsumer (some h) cfg).maxRetries event 0
          (NewReconciliationConsumer (some h) cfg).baseBackoff st' →
      ∃ (j : Nat) (ok : Bool),
        ((NewReconciliationConsumer (some h) cfg).processEvent st event).trace =
          st.trace ++
            failedAttempts event 0 (NewReconciliationConsumer (some h) cfg).baseBackoff j ++
            [ConsumerStep.handle event j ok] ∧
        (j : Int) ≤ (NewReconciliationConsumer (some h) cfg).maxRetries ∧
        (∀ k : Nat, k < j →
          (NewReconciliationConsumer (some h) cfg).baseBackoff * 2 ^ k ≤ 9223372036854775807) ∧
        (ok = true ∨ (j : Int) = (NewReconciliationConsumer (some h) cfg).maxRetries ∨
          9223372036854775807 < (NewReconciliationConsumer (some h) cfg).baseBackoff * 2 ^ j) ∧
        ((∀ s : σ, (h event s).1.isSome = true) → ok = false) := by
    intro st' htr heq
    obtain ⟨j, ok, h1, h2, h3, h4, h5, _⟩ :=
      retryLoop_shape h (NewReconciliationConsumer (some h) cfg).maxRetries event _ 0
        (NewReconciliationConsumer (some h) cfg).baseBackoff st' rfl hM hB.2
    refine ⟨j, ok, ?_, by simpa using h2, fun k hk => (h3 k hk).2, ?_, h5⟩
    · rw [heq, h1, htr]; simp
    · rcases h4 with h4 | h4 | h4 | h4
      · exact Or.inl h4
      · right; left; simpa using h4
      · exfalso
        have : 0 < (NewReconciliationConsumer (some h) cfg).baseBackoff * 2 ^ j :=
          mul_pos hB.1 (by positivity)
        omega
      · exact Or.inr (Or.inr h4)
  by_cases hid : event.EventID = ""
  · exact key st rfl (by simp [ReconciliationConsumer.processEvent, NewReconciliationConsumer, hid])
  · have hns : event.EventID ∉ st.seen := by
      rcases hfresh with h' | h'
      · exact absurd h' hid
      · exact h'
    exact key { st with seen := event.EventID :: st.seen } rfl
      (by simp [ReconciliationConsumer.processEvent, NewReconciliationConsumer, hid, hns])

/-- C9 (amended): for an event that is not dropped as a duplicate, the steps of
`processEvent` are `j` failed attempts `0 .. j-1`, each followed by a sleep of
exactly `baseBackoff * 2^k` (a duration that fits `int64`), and then the last
attempt `j`, after which nothing is slept.  Attempt `j` is the last one because
it succeeded, or because `j = maxRetries`, or because `baseBackoff * 2^j` has
left the range of `time.Duration` (the wrapped backoff is then not positive and
`sleepBackoff` refuses it). -/
theorem processEvent_backoff_schedule {σ : Type} (h : Handler σ) (cfg : ConsumerConfig)
    (st : ConsumerState σ) (event : FailedTxEvent)
    (hbase : cfg.BaseBackoff ≤ maxInt64)
    (hfresh : event.EventID = "" ∨ event.EventID ∉ st.seen) :
    ∃ (j : Nat) (ok : Bool),
      ((NewReconciliationConsumer (some h) cfg).processEvent st event).trace =
        st.trace ++
          failedAttempts event 0 (NewReconciliationConsumer (some h) cfg).baseBackoff j ++
          [ConsumerStep.handle event j ok] ∧
      (j : Int) ≤ (NewReconciliationConsumer (some h) cfg).maxRetries ∧
      (∀ k : Nat, k < j →
        (NewReconciliationConsumer (some h) cfg).baseBackoff * 2 ^ k ≤ maxInt64) ∧
      (ok = true ∨ (j : Int) = (NewReconciliationConsumer (some h) cfg).maxRetries ∨
        maxInt64 < (NewReconciliationConsumer (some h) cfg).baseBackoff * 2 ^ j) := by
  obtain ⟨j, ok, h1, h2, h3, h4, _⟩ := processEvent_shape h cfg st event hbase hfresh
  exact ⟨j, ok, h1, h2, h3, h4⟩

/-- Witness of C9: the configuration of the consumer test and a handler that
always fails. -/
theorem processEvent_backoff_schedule_witness :
    ∃ (j : Nat) (ok : Bool),
      ((NewReconciliationConsumer (some failingHandler) testConfig).processEvent
          (ConsumerState.init ()) sampleEvent).trace =
        (ConsumerState.init ()).trace ++
          failedAttempts sampleEvent 0
            (NewReconciliationConsumer (some failingHandler) testConfig).baseBackoff j ++
          [ConsumerStep.handle sampleEvent j ok] ∧
      (j : Int) ≤ (NewReconciliationConsumer (some failingHandler) testConfig).maxRetries ∧
      (∀ k : Nat, k < j →
        (NewReconciliationConsumer (some failingHandler) testConfig).baseBackoff * 2 ^ k ≤
          maxInt64) ∧
      (ok = true ∨
        (j : Int) = (NewReconciliationConsumer (some failingHandler) testConfig).maxRetries ∨
        maxInt64 <
          (NewReconciliationConsumer (some failingHandler) testConfig).baseBackoff * 2 ^ j) :=
  processEvent_backoff_schedule failingHandler testConfig (ConsumerState.init ()) sampleEvent
    (by decide) (Or.inr (by simp [ConsumerState.init]))

/-- C9, counterexample: with `BaseBackoff = 2^61` ns and `MaxRetries = 5` the
handler fails at attempt 2, which is below `maxRetries`, but `processEvent`
does not sleep `baseBackoff * 2^2` after it (that is `2^63`, not a
`time.Duration`): it returns, and attempt 3 never happens. -/
theorem processEvent_no_sleep_after_overflow :
    ((NewReconciliationConsumer (some failingHandler) longBackoffConfig).processEvent
        (ConsumerState.init ()) sampleEvent).trace =
      [ConsumerStep.handle sampleEvent 0 false, ConsumerStep.sleep 2305843009213693952,
        ConsumerStep.handle sampleEvent 1 false, ConsumerStep.sleep 4611686018427387904,
        ConsumerStep.handle sampleEvent 2 false] ∧
    (2 : Int) < (NewReconciliationConsumer (some failingHandler) longBackoffConfig).maxRetries ∧
    (NewReconciliationConsumer (some failingHandler) longBackoffConfig).baseBackoff * 2 ^ 2 ∉
      sleeps ((NewReconciliationConsumer (some failingHandler) longBackoffConfig).processEvent
        (ConsumerState.init ()) sampleEvent).trace := by
  have htr : ((NewReconciliationConsumer (some failingHandler) longBackoffConfig).processEvent
        (ConsumerState.init ()) sampleEvent).trace =
      [ConsumerStep.handle sampleEvent 0 false, ConsumerStep.sleep 2305843009213693952,
        ConsumerStep.handle sampleEvent 1 false, ConsumerStep.sleep 4611686018427387904,
        ConsumerStep.handle sampleEvent 2 false] := by
    simp [ReconciliationConsumer.processEvent, NewReconciliationConsumer, ConsumerState.init,
      sampleEvent, failingHandler, longBackoffConfig, retryLoop, sleepBackoff, wrapInt64]
  refine ⟨htr, by decide, ?_⟩
  rw [htr]
  decide

/-- C7 (amended): on a consumer built by `NewReconciliationConsumer`, for an
event whose identity has not been seen and a handler that fails on every call,
`processEvent` returns after exactly `maxRetries + 1` handler invocations
(`maxRetries` being `0` when the configured value is negative), provided the
largest backoff it has to sleep, `baseBackoff * 2^(maxRetries - 1)`, fits
`time.Duration`. -/
theorem processEvent_always_failing_attempts {σ : Type} (h : Handler σ) (cfg : ConsumerConfig)
    (st : ConsumerState σ) (event : FailedTxEvent)
    (hfresh : event.EventID = "" ∨ event.EventID ∉ st.seen)
    (hfail : ∀ (e : FailedTxEvent) (s : σ), (h e s).1.isSome = true)
    (hfit : (NewReconciliationConsumer (some h) cfg).baseBackoff *
        2 ^ ((NewReconciliationConsumer (some h) cfg).maxRetries.toNat - 1) ≤ maxInt64) :
    handleCount ((NewReconciliationConsumer (some h) cfg).processEvent st event).trace =
        handleCount st.trace + ((NewReconciliationConsumer (some h) cfg).maxRetries.toNat + 1) ∧
      (NewReconciliationConsumer (some h) cfg).maxRetries = max cfg.MaxRetries 0 := by
  have hM : 0 ≤ (NewReconciliationConsumer (some h) cfg).maxRetries := by
    simp only [NewReconciliationConsumer]; split <;> omega
  have hB : 0 < (NewReconciliationConsumer (some h) cfg).baseBackoff := by
    simp only [NewReconciliationConsumer]; split <;> omega
  have hmax : (NewReconciliationConsumer (some h) cfg).maxRetries = max cfg.MaxRetries 0 := by
    simp only [NewReconciliationConsumer]; split <;> omega
  have hbase : cfg.BaseBackoff ≤ maxInt64 := by
    have h1 : (1 : Int) ≤ 2 ^ ((NewReconciliationConsumer (some h) cfg).maxRetries.toNat - 1) :=
      one_le_pow₀ (by norm_num)
    have h2 : (NewReconciliationConsumer (some h) cfg).baseBackoff ≤
        (NewReconciliationConsumer (some h) cfg).baseBackoff *
          2 ^ ((NewReconciliationConsumer (some h) cfg).maxRetries.toNat - 1) :=
      le_mul_of_one_le_right (le_of_lt hB) h1
    have h3 : (NewReconciliationConsumer (some h) cfg).baseBackoff ≤ maxInt64 :=
      le_trans h2 hfit
    simp only [NewReconciliationConsumer] at h3
    unfold maxInt64 at *
    split at h3 <;> omega
  obtain ⟨j, ok, h1, h2, h3, h4, h5⟩ := processEvent_shape h cfg st event hbase hfresh
  have hok : ok = false := h5 (fun s => hfail event s)
  have hj : (j : Int) = (NewReconciliationConsumer (some h) cfg).maxRetries := by
    rcases h4 with h4 | h4 | h4
    · rw [hok] at h4; exact absurd h4 (by decide)
    · exact h4
    · by_cases hjm : (j : Int) = (NewReconciliationConsumer (some h) cfg).maxRetries
      · exact hjm
      · exfalso
        have hle : j ≤ (NewReconciliationConsumer (some h) cfg).maxRetries.toNat - 1 := by omega
        have hpow : (2 : Int) ^ j ≤
            2 ^ ((NewReconciliationConsumer (some h) cfg).maxRetries.toNat - 1) :=
          pow_le_pow_right₀ (by norm_num) hle
        have := mul_le_mul_of_nonneg_left hpow (le_of_lt hB)
        exact absurd (lt_of_lt_of_le h4 (le_trans this hfit)) (lt_irrefl _)
  refine ⟨?_, hmax⟩
  rw [h1, handleCount_append, handleCount_append, handleCount_failedAttempts]
  have : j = (NewReconciliationConsumer (some h) cfg).maxRetries.toNat := by omega
  rw [this]
  simp [handleCount, Nat.add_assoc]

/-- Witness of C7: the configuration of the consumer test (two retries) and a
handler that always fails: three invocations. -/
theorem processEvent_always_failing_attempts_witness :
    handleCount ((NewReconciliationConsumer (some failingHandler) testConfig).processEvent
      (ConsumerState.init ()) sampleEvent).trace = 3 :=
  (processEvent_always_failing_attempts failingHandler testConfig (ConsumerState.init ())
    sampleEvent (Or.inr (by simp [ConsumerState.init])) (fun _ _ => rfl) (by decide)).1.trans
    (by decide)

/-- C7, counterexample: with `MaxRetries = 2` and `BaseBackoff = 2^62` ns a
handler that always fails is invoked twice, not `maxRetries + 1 = 3` times: the
doubled backoff `2^63` wraps to a negative duration, `sleepBackoff` returns
`false` and `processEvent` returns. -/
theorem processEvent_overflow_fewer_attempts :
    handleCount ((NewReconciliationConsumer (some failingHandler) hugeBackoffConfig).processEvent
      (ConsumerState.init ()) sampleEvent).trace = 2 ∧
    (NewReconciliationConsumer (some failingHandler) hugeBackoffConfig).maxRetries + 1 = 3 ∧
    sampleEvent.EventID ∉ (ConsumerState.init ()).seen ∧
    (∀ (e : FailedTxEvent) (s : Unit), (failingHandler e s).1.isSome = true) := by
  have htr : ((NewReconciliationConsumer (some failingHandler) hugeBackoffConfig).processEvent
        (ConsumerState.init ()) sampleEvent).trace =
      [ConsumerStep.handle sampleEvent 0 false, ConsumerStep.sleep 4611686018427387904,
        ConsumerStep.handle sampleEvent 1 false] := by
    simp [ReconciliationConsumer.processEvent, NewReconciliationConsumer, ConsumerState.init,
      sampleEvent, failingHandler, hugeBackoffConfig, retryLoop, sleepBackoff, wrapInt64]
  refine ⟨?_, by decide, by simp [ConsumerState.init], fun _ _ => rfl⟩
  rw [htr]
  decide

/-- The retry loop never touches the `seen` keys. -/
theorem retryLoop_seen {σ : Type} (h : Handler σ) (M : Int) (event : FailedTxEvent) :
    ∀ (n : Nat) (a b : Int) (st : ConsumerState σ), (M - a).toNat = n →
      (retryLoop h M event a b st).seen = st.seen := by
  intro n
  induction n with
  | zero =>
    intro a b st hn
    rw [retryLoop]
    by_cases ha : a ≤ M
    · have haM : a = M := by omega
      by_cases hok : (h event st.handlerState).1.isNone = true <;> simp [ha, haM, hok]
    · simp [ha]
  | succ n ih =>
    intro a b st hn
    have ha : a ≤ M := by omega
    rw [retryLoop]
    simp only [ha, if_true]
    split
    · rfl
    · split
      · rfl
      · split
        · rfl
        · rw [ih _ _ _ (by omega)]

/-- `processEvent` only adds keys to `seen`. -/
theorem processEvent_seen_mono {σ : Type} (c : ReconciliationConsumer σ)
    (st : ConsumerState σ) (event : FailedTxEvent) (x : String) (hx : x ∈ st.seen) :
    x ∈ (c.processEvent st event).seen := by
  unfold ReconciliationConsumer.processEvent
  cases c.handler with
  | none => exact hx
  | some h =>
    simp only
    split
    · split
      · exact hx
      · rw [retryLoop_seen h c.maxRetries event _ 0 c.baseBackoff _ rfl]
        exact List.mem_cons_of_mem _ hx
    · rw [retryLoop_seen h c.maxRetries event _ 0 c.baseBackoff _ rfl]
      exact hx

/-- With a handler, `processEvent` leaves a non-empty identity in `seen`. -/
theorem processEvent_seen_self {σ : Type} (c : ReconciliationConsumer σ) (h : Handler σ)
    (hc : c.handler = some h) (st : ConsumerState σ) (event : FailedTxEvent)
    (hid : event.EventID ≠ "") : event.EventID ∈ (c.processEvent st event).seen := by
  unfold ReconciliationConsumer.processEvent
  rw [hc]
  simp only [hid, ne_eq, not_false_eq_true, if_true]
  split
  · rename_i hs
    simpa using hs
  · rw [retryLoop_seen h c.maxRetries event _ 0 c.baseBackoff _ rfl]
    exact List.mem_cons_self _ _

/-- After a sequence of events, every key seen before and every non-empty
identity of the sequence is in `seen`. -/
theorem processEvents_seen {σ : Type} (c : ReconciliationConsumer σ) (h : Handler σ)
    (hc : c.handler = some h) (events : List FailedTxEvent) :
    ∀ st : ConsumerState σ,
      (∀ x ∈ st.seen, x ∈ (events.foldl c.processEvent st).seen) ∧
      (∀ e ∈ events, e.EventID ≠ "" → e.EventID ∈ (events.foldl c.processEvent st).seen) := by
  induction events with
  | nil => intro st; simp
  | cons e rest ih =>
    intro st
    obtain ⟨h1, h2⟩ := ih (c.processEvent st e)
    rw [List.foldl_cons]
    refine ⟨fun x hx => h1 x (processEvent_seen_mono c st e x hx), ?_⟩
    intro e' he' hid
    rcases List.mem_cons.mp he' with heq | hmem
    · subst heq
      exact h1 _ (processEvent_seen_self c h hc st e' hid)
    · exact h2 e' hmem hid

/-- An event whose non-empty identity is in `seen` changes nothing. -/
theorem processEvent_seen_drop {σ : Type} (c : ReconciliationConsumer σ)
    (st : ConsumerState σ) (event : FailedTxEvent) (hid : event.EventID ≠ "")
    (hseen : event.EventID ∈ st.seen) : c.processEvent st event = st := by
  unfold ReconciliationConsumer.processEvent
  cases c.handler with
  | none => rfl
  | some h => simp [hid, hseen]

/-- C8: on a consumer with a handler, started from the fresh state and fed the
events `pre` one after the other, an event whose non-empty identity was
carried by an earlier event changes nothing (no handler invocation, whatever
happened to the earlier one); so an event for which the handler is invoked has
an empty identity or an identity no earlier event carried.  Delivering the
same non-empty identity twice to a handler that succeeds on its first call
gives exactly one invocation. -/
theorem processEvent_deduplicates {σ : Type} (h : Handler σ) (cfg : ConsumerConfig) (hs : σ)
    (pre : List FailedTxEvent) (event : FailedTxEvent) :
    (event.EventID ≠ "" → (∃ e ∈ pre, e.EventID = event.EventID) →
      (NewReconciliationConsumer (some h) cfg).processEvent
          (pre.foldl (NewReconciliationConsumer (some h) cfg).processEvent
            (ConsumerState.init hs)) event =
        pre.foldl (NewReconciliationConsumer (some h) cfg).processEvent
          (ConsumerState.init hs)) ∧
    (handleCount ((NewReconciliationConsumer (some h) cfg).processEvent
          (pre.foldl (NewReconciliationConsumer (some h) cfg).processEvent
            (ConsumerState.init hs)) event).trace ≠
        handleCount (pre.foldl (NewReconciliationConsumer (some h) cfg).processEvent
          (ConsumerState.init hs)).trace →
      event.EventID = "" ∨ ∀ e ∈ pre, e.EventID ≠ event.EventID) ∧
    (event.EventID ≠ "" → (h event hs).1 = none →
      handleCount ([event, event].foldl (NewReconciliationConsumer (some h) cfg).processEvent
        (ConsumerState.init hs)).trace = 1) := by
  have hdrop : event.EventID ≠ "" → (∃ e ∈ pre, e.EventID = event.EventID) →
      (NewReconciliationConsumer (some h) cfg).processEvent
          (pre.foldl (NewReconciliationConsumer (some h) cfg).processEvent
            (ConsumerState.init hs)) event =
        pre.foldl (NewReconciliationConsumer (some h) cfg).processEvent
          (ConsumerState.init hs) := by
    intro hid ⟨e, he, heq⟩
    have hseen := (processEvents_seen (NewReconciliationConsumer (some h) cfg) h rfl pre
      (ConsumerState.init hs)).2 e he (by rw [heq]; exact hid)
    rw [heq] at hseen
    exact processEvent_seen_drop _ _ event hid hseen
  refine ⟨hdrop, ?_, ?_⟩
  · intro hne
    by_contra hcon
    push_neg at hcon
    obtain ⟨hid, e, he, heq⟩ := hcon
    rw [hdrop hid ⟨e, he, heq⟩] at hne
    exact hne rfl
  · intro hid hok
    have hM : (0 : Int) ≤ if cfg.MaxRetries < 0 then 0 else cfg.MaxRetries := by
      split <;> omega
    simp [ReconciliationConsumer.processEvent, NewReconciliationConsumer, ConsumerState.init,
      hid]
    rw [retryLoop]
    simp [hM, hok, handleCount]

/-! ### The store: missing records and frame properties -/

/-- `UpdateMeta` is `UpdateMetaEff` for a mutator without outside effects. -/
theorem UpdateMetaEff_pure (s : InMemoryStore) (uploadID : String)
    (fn : UploadMeta → UploadMeta) :
    s.UpdateMetaEff uploadID (fun meta (w : Unit) => (fn meta, w)) () =
      ((s.UpdateMeta uploadID fn).1, (s.UpdateMeta uploadID fn).2, ()) := by
  unfold InMemoryStore.UpdateMetaEff InMemoryStore.UpdateMeta
  cases s.get uploadID <;> rfl

/-- C11: for an upload id without record, `UpdateMeta`, `SaveResults`,
`GetBalance` and `ListIssues` each fail with `pkgerror.ErrNotFound` (for which
`errors.Is(err, ErrNotFound)` holds) and leave the store unchanged; the mutator
of `UpdateMeta` is not invoked: whatever it would do to the store or to the
state outside the store, both are returned as they were. -/
theorem missing_record_NotFound {ω : Type} (s : InMemoryStore) (uploadID : String)
    (hnone : s.uploads uploadID = none) :
    (∀ (fn : UploadMeta → ω → UploadMeta × ω) (w : ω),
      s.UpdateMetaEff uploadID fn w = (s, some GoError.ErrNotFound, w)) ∧
    (∀ fn : UploadMeta → UploadMeta,
      s.UpdateMeta uploadID fn = (s, some GoError.ErrNotFound)) ∧
    (∀ (balance : Int) (issues : List Transaction) (totalLines parsedOK parseErr : Int),
      s.SaveResults uploadID balance issues totalLines parsedOK parseErr =
        (s, some GoError.ErrNotFound)) ∧
    s.GetBalance uploadID = Except.error GoError.ErrNotFound ∧
    (∀ (filter : IssueFilter) (page pageSize : Int),
      s.ListIssues uploadID filter page pageSize = Except.error GoError.ErrNotFound) ∧
    errorsIsNotFound GoError.ErrNotFound = true := by
  have hget : s.get uploadID = Except.error GoError.ErrNotFound := by
    simp [InMemoryStore.get, hnone]
  refine ⟨?_, ?_, ?_, ?_, ?_, rfl⟩
  · intro fn w; simp [InMemoryStore.UpdateMetaEff, hget]
  · intro fn; simp [InMemoryStore.UpdateMeta, hget]
  · intro balance issues totalLines parsedOK parseErr
    simp [InMemoryStore.SaveResults, hget]
  · simp [InMemoryStore.GetBalance, hget]
  · intro filter page pageSize
    simp [InMemoryStore.ListIssues, hget]

/-- Witness of C11: the store holding `sampleRecord` has no record `upload-9`;
a mutator that counts its calls in the outside state leaves the count at 0. -/
theorem missing_record_NotFound_witness :
    sampleStore.UpdateMetaEff "upload-9"
        (fun meta (calls : Nat) => ({ meta with Status := UploadStatusDone }, calls + 1)) 0 =
      (sampleStore, some GoError.ErrNotFound, 0) :=
  (missing_record_NotFound sampleStore "upload-9" (by decide)).1 _ 0

/-- C12: on an existing record a `SaveResults` succeeds and makes balance,
issues, `TotalLines`, `ParsedOK` and `ParseErr` equal to its arguments, so
that `GetBalance` returns that balance and those counters; `ID`, `Status`,
`Err`, `StartedAt` and `EndedAt` of the meta keep their values, and every
other record is unchanged. -/
theorem SaveResults_frame (s : InMemoryStore) (uploadID : String) (rec : uploadRecord)
    (balance : Int) (issues : List Transaction) (totalLines parsedOK parseErr : Int)
    (hrec : s.uploads uploadID = some rec) :
    (s.SaveResults uploadID balance issues totalLines parsedOK parseErr).2 = none ∧
    (s.SaveResults uploadID balance issues totalLines parsedOK parseErr).1.uploads uploadID =
      some
        { meta :=
            { ID := rec.meta.ID, Status := rec.meta.Status, Err := rec.meta.Err,
              StartedAt := rec.meta.StartedAt, EndedAt := rec.meta.EndedAt,
              TotalLines := totalLines, ParsedOK := parsedOK, ParseErr := parseErr },
          balance := balance,
          issues := issues } ∧
    (s.SaveResults uploadID balance issues totalLines parsedOK parseErr).1.GetBalance uploadID =
      Except.ok
        (balance,
          { ID := rec.meta.ID, Status := rec.meta.Status, Err := rec.meta.Err,
            StartedAt := rec.meta.StartedAt, EndedAt := rec.meta.EndedAt,
            TotalLines := totalLines, ParsedOK := parsedOK, ParseErr := parseErr }) ∧
    (∀ k, k ≠ uploadID →
      (s.SaveResults uploadID balance issues totalLines parsedOK parseErr).1.uploads k =
        s.uploads k) := by
  have hget : s.get uploadID = Except.ok rec := by simp [InMemoryStore.get, hrec]
  have hs : s.SaveResults uploadID balance issues totalLines parsedOK parseErr =
      (s.put uploadID
        { meta :=
            { ID := rec.meta.ID, Status := rec.meta.Status, Err := rec.meta.Err,
              StartedAt := rec.meta.StartedAt, EndedAt := rec.meta.EndedAt,
              TotalLines := totalLines, ParsedOK := parsedOK, ParseErr := parseErr },
          balance := balance,
          issues := issues }, none) := by
    simp [InMemoryStore.SaveResults, hget]
  rw [hs]
  refine ⟨rfl, by simp [InMemoryStore.put], ?_, ?_⟩
  · simp [InMemoryStore.GetBalance, InMemoryStore.get, InMemoryStore.put]
  · intro k hk
    simp [InMemoryStore.put, hk]

/-- Witness of C12: the arguments of the store test on `sampleStore`. -/
theorem SaveResults_frame_witness :
    (sampleStore.SaveResults "upload-1" 500 [txFailedDebit] 4 3 1).1.GetBalance "upload-1" =
      Except.ok
        (500,
          { ID := "upload-1", Status := UploadStatusDone, Err := "", StartedAt := 0,
            EndedAt := 0, TotalLines := 4, ParsedOK := 3, ParseErr := 1 }) :=
  (SaveResults_frame sampleStore "upload-1" sampleRecord 500 [txFailedDebit] 4 3 1 rfl).2.2.1

/-- C13: on an existing record an `UpdateMeta` succeeds and replaces the meta
by the result of the mutator on the previous meta, so that `GetBalance`
returns the mutated meta; balance and issues keep their values, and every
other record is unchanged. -/
theorem UpdateMeta_frame (s : InMemoryStore) (uploadID : String) (rec : uploadRecord)
    (fn : UploadMeta → UploadMeta) (hrec : s.uploads uploadID = some rec) :
    (s.UpdateMeta uploadID fn).2 = none ∧
    (s.UpdateMeta uploadID fn).1.uploads uploadID =
      some { meta := fn rec.meta, balance := rec.balance, issues := rec.issues } ∧
    (s.UpdateMeta uploadID fn).1.GetBalance uploadID = Except.ok (rec.balance, fn rec.meta) ∧
    (∀ k, k ≠ uploadID → (s.UpdateMeta uploadID fn).1.uploads k = s.uploads k) := by
  have hget : s.get uploadID = Except.ok rec := by simp [InMemoryStore.get, hrec]
  have hs : s.UpdateMeta uploadID fn =
      (s.put uploadID { meta := fn rec.meta, balance := rec.balance, issues := rec.issues },
        none) := by
    simp [InMemoryStore.UpdateMeta, hget]
  rw [hs]
  refine ⟨rfl, by simp [InMemoryStore.put], ?_, ?_⟩
  · simp [InMemoryStore.GetBalance, InMemoryStore.get, InMemoryStore.put]
  · intro k hk
    simp [InMemoryStore.put, hk]

/-- Witness of C13: the mutator of the store test on `sampleStore`. -/
theorem UpdateMeta_frame_witness :
    (sampleStore.UpdateMeta "upload-1"
        (fun meta => { meta with Status := UploadStatusDone, Err := "none", EndedAt := 456 })).1.GetBalance
        "upload-1" =
      Except.ok
        (50,
          { ID := "upload-1", Status := UploadStatusDone, Err := "none", StartedAt := 0,
            EndedAt := 456, TotalLines := 3, ParsedOK := 3, ParseErr := 0 }) :=
  (UpdateMeta_frame sampleStore "upload-1" sampleRecord
    (fun meta => { meta with Status := UploadStatusDone, Err := "none", EndedAt := 456 })
    rfl).2.2.1

/-! ### What the callback of `processUpload` collects and publishes -/

/-- One call of the callback: a transaction that is not Success is appended to
the issues, whatever the publisher does. -/
theorem onTx_issues {ω : Type} (u : Usecase ω) (uploadID : String) (acc : uploadAcc ω)
    (tx : Transaction) :
    (u.onTx uploadID acc tx).issues =
      if tx.Status = TxStatusSuccess then acc.issues else acc.issues ++ [tx] := by
  unfold Usecase.onTx
  by_cases hs : tx.Status = TxStatusSuccess
  · rw [if_pos hs, if_pos hs]
    split
    · rfl
    · split <;> rfl
  · rw [if_neg hs, if_neg hs]
    dsimp only
    split
    · split <;> rfl
    · rfl

/-- The issues after the callback has run over `txs`. -/
theorem foldl_onTx_issues {ω : Type} (u : Usecase ω) (uploadID : String)
    (txs : List Transaction) :
    ∀ acc : uploadAcc ω,
      (txs.foldl (u.onTx uploadID) acc).issues =
        acc.issues ++ txs.filter (fun tx => tx.Status ≠ TxStatusSuccess) := by
  induction txs with
  | nil => intro acc; simp
  | cons tx rest ih =>
    intro acc
    rw [List.foldl_cons, ih, onTx_issues]
    by_cases hs : tx.Status = TxStatusSuccess <;> simp [hs, List.filter_cons]

/-- The issues `processUpload` collects, in terms of the handed transactions. -/
theorem parseUpload_issues {ω : Type} (u : Usecase ω) (uploadID : String) (reads : csvReads)
    (w : ω) :
    (u.parseUpload uploadID reads w).acc.issues =
      (handedTransactions reads).filter (fun tx => tx.Status ≠ TxStatusSuccess) := by
  unfold Usecase.parseUpload parseCSV
  rw [parseCSVLoop_acc, foldl_onTx_issues]
  simp

/-- One call of the callback of a logged usecase with a publisher: the log
grows by one event, carrying the transaction and the upload identity, exactly
when the transaction is Failed. -/
theorem logged_onTx_log {ω : Type} (u : Usecase ω)
    (publish : FailedTxEvent → ω → Option GoError × ω) (hu : u.events = some publish)
    (uploadID : String) (acc : uploadAcc (ω × List FailedTxEvent)) (tx : Transaction) :
    (u.logged.onTx uploadID acc tx).world.2 =
      if tx.Status = TxStatusFailed then
        acc.world.2 ++ [{ EventID := (u.id acc.world.1).1, UploadID := uploadID, Tx := tx }]
      else acc.world.2 := by
  have hne : TxStatusFailed ≠ TxStatusSuccess := by decide
  unfold Usecase.onTx Usecase.logged
  rw [hu]
  by_cases hs : tx.Status = TxStatusSuccess
  · have hf : tx.Status ≠ TxStatusFailed := by rw [hs]; exact hne.symm
    rw [if_pos hs, if_neg hf]
    split
    · rfl
    · split <;> rfl
  · rw [if_neg hs]
    by_cases hf : tx.Status = TxStatusFailed
    · simp [hf]
    · simp [hf]

/-- The log after the callback of a logged usecase has run over `txs`. -/
theorem foldl_logged_onTx_log {ω : Type} (u : Usecase ω)
    (publish : FailedTxEvent → ω → Option GoError × ω) (hu : u.events = some publish)
    (uploadID : String) (txs : List Transaction) :
    ∀ acc : uploadAcc (ω × List FailedTxEvent),
      ((txs.foldl (u.logged.onTx uploadID) acc).world.2).map (fun e => (e.UploadID, e.Tx)) =
        acc.world.2.map (fun e => (e.UploadID, e.Tx)) ++
          (txs.filter (fun tx => tx.Status = TxStatusFailed)).map (fun tx => (uploadID, tx)) := by
  induction txs with
  | nil => intro acc; simp
  | cons tx rest ih =>
    intro acc
    rw [List.foldl_cons, ih, logged_onTx_log u publish hu]
    by_cases hf : tx.Status = TxStatusFailed <;> simp [hf, List.filter_cons]

/-- Logging is transparent: the logged usecase computes the same balance and
issues and leaves the same outside world as the usecase itself. -/
theorem logged_onTx_same {ω : Type} (u : Usecase ω) (uploadID : String)
    (acc : uploadAcc (ω × List FailedTxEvent)) (tx : Transaction) :
    (u.logged.onTx uploadID acc tx).balance =
        (u.onTx uploadID
          { balance := acc.balance, issues := acc.issues, world := acc.world.1 } tx).balance ∧
    (u.logged.onTx uploadID acc tx).issues =
        (u.onTx uploadID
          { balance := acc.balance, issues := acc.issues, world := acc.world.1 } tx).issues ∧
    (u.logged.onTx uploadID acc tx).world.1 =
        (u.onTx uploadID
          { balance := acc.balance, issues := acc.issues, world := acc.world.1 } tx).world := by
  unfold Usecase.onTx Usecase.logged
  by_cases hs : tx.Status = TxStatusSuccess
  · simp only [if_pos hs]
    split
    · exact ⟨rfl, rfl, rfl⟩
    · split <;> exact ⟨rfl, rfl, rfl⟩
  · simp only [if_neg hs]
    by_cases hf : tx.Status = TxStatusFailed
    · simp only [if_pos hf]
      cases u.events <;> exact ⟨rfl, rfl, rfl⟩
    · simp only [if_neg hf]
      refine ⟨?_, ?_, ?_⟩ <;> first | rfl | trivial

theorem foldl_logged_onTx_same {ω : Type} (u : Usecase ω) (uploadID : String)
    (txs : List Transaction) :
    ∀ acc : uploadAcc (ω × List FailedTxEvent),
      (txs.foldl (u.logged.onTx uploadID) acc).balance =
          (txs.foldl (u.onTx uploadID)
            { balance := acc.balance, issues := acc.issues, world := acc.world.1 }).balance ∧
      (txs.foldl (u.logged.onTx uploadID) acc).issues =
          (txs.foldl (u.onTx uploadID)
            { balance := acc.balance, issues := acc.issues, world := acc.world.1 }).issues ∧
      (txs.foldl (u.logged.onTx uploadID) acc).world.1 =
          (txs.foldl (u.onTx uploadID)
            { balance := acc.balance, issues := acc.issues, world := acc.world.1 }).world := by
  induction txs with
  | nil => intro acc; exact ⟨rfl, rfl, rfl⟩
  | cons tx rest ih =>
    intro acc
    obtain ⟨h1, h2, h3⟩ := logged_onTx_same u uploadID acc tx
    rw [List.foldl_cons, List.foldl_cons]
    have := ih (u.logged.onTx uploadID acc tx)
    rw [h1, h2, h3] at this
    exact this

/-! ### What `parseRecord` returns -/

/-- A successful `ParseInt` returns an `int64`. -/
theorem ParseInt_inRange (str : String) (n : Int) (h : ParseInt str = Except.ok n) :
    inInt64 n := by
  unfold ParseInt at h
  split at h
  · cases h
  · rename_i c rest _
    dsimp only at h
    generalize (if c.toNat = 43 ∨ c.toNat = 45 then rest else c :: rest) = digits at h
    generalize decide (c.toNat = 45) = neg at h
    generalize digitsValue digits = un at h
    split at h
    · cases h
    · split at h
      · cases h
      · split at h
        · cases h
        · rename_i h1 h2
          injection h with h
          subst h
          unfold inInt64 minInt64 maxInt64
          cases neg
          · simp at h1 h2 ⊢
            omega
          · simp at h1 h2 ⊢
            omega

/-- A successful `parseTxType` returns Credit or Debit. -/
theorem parseTxType_ok (value : String) (t : TxType) (h : parseTxType value = Except.ok t) :
    t = TxTypeCredit ∨ t = TxTypeDebit := by
  unfold parseTxType at h
  split at h
  · injection h with h; exact Or.inl h.symm
  · split at h
    · injection h with h; exact Or.inr h.symm
    · cases h

/-- A successful `parseTxStatus` returns Success, Failed or Pending. -/
theorem parseTxStatus_ok (value : String) (st : TxStatus)
    (h : parseTxStatus value = Except.ok st) :
    st = TxStatusSuccess ∨ st = TxStatusFailed ∨ st = TxStatusPending := by
  unfold parseTxStatus at h
  split at h
  · injection h with h; exact Or.inl h.symm
  · split at h
    · injection h with h; exact Or.inr (Or.inl h.symm)
    · split at h
      · injection h with h; exact Or.inr (Or.inr h.symm)
      · cases h

/-- The transaction of a successful `parseRecord`: its timestamp and amount
are `int64` values, its type and status are canonical constants. -/
theorem parseRecord_ok (record : List String) (tx : Transaction)
    (h : parseRecord record = Except.ok tx) :
    inInt64 tx.Timestamp ∧ inInt64 tx.Amount ∧
      (tx.Type_ = TxTypeCredit ∨ tx.Type_ = TxTypeDebit) ∧
      (tx.Status = TxStatusSuccess ∨ tx.Status = TxStatusFailed ∨
        tx.Status = TxStatusPending) := by
  unfold parseRecord at h
  split at h
  · rename_i f0 f1 f2 f3 f4 f5 _
    split at h
    · cases h
    · rename_i timestamp hts
      split at h
      · cases h
      · rename_i txType hty
        split at h
        · cases h
        · rename_i amount ham
          split at h
          · cases h
          · rename_i status hst
            injection h with h
            subst h
            exact ⟨ParseInt_inRange _ _ hts, ParseInt_inRange _ _ ham,
              parseTxType_ok _ _ hty, parseTxStatus_ok _ _ hst⟩
  · cases h

/-! ### The transactions handed to the callback -/

theorem handedTransactions_nil : handedTransactions [] = [] := rfl

theorem handedTransactions_error (err : GoError) (rest : csvReads) :
    handedTransactions (Except.error err :: rest) = [] := rfl

theorem handedTransactions_ok (record : List String) (rest : csvReads) :
    handedTransactions (Except.ok record :: rest) =
      match parseRecord record with
      | Except.ok tx => tx :: handedTransactions rest
      | Except.error _ => handedTransactions rest := by
  unfold handedTransactions parseCSV
  cases hp : parseRecord record with
  | error err =>
    simp only [parseCSVLoop, hp]
    exact (parseCSVLoop_recorder rest _ _ _ 0 0 0 []).trans (List.nil_append _)
  | ok tx =>
    simp only [parseCSVLoop, hp]
    exact (parseCSVLoop_recorder rest _ _ _ 0 0 0 ([] ++ [tx])).trans (by simp)

/-- Every handed transaction is the result of a successful `parseRecord`. -/
theorem handedTransactions_mem (reads : csvReads) :
    ∀ tx ∈ handedTransactions reads, ∃ record, parseRecord record = Except.ok tx := by
  induction reads with
  | nil => intro tx h; simp [handedTransactions_nil] at h
  | cons r rest ih =>
    intro tx h
    cases r with
    | error err => simp [handedTransactions_error] at h
    | ok record =>
      rw [handedTransactions_ok] at h
      cases hp : parseRecord record with
      | error err =>
        rw [hp] at h
        exact ih tx h
      | ok tx0 =>
        rw [hp] at h
        rcases List.mem_cons.mp h with heq | hmem
        · exact ⟨record, by rw [hp, heq]⟩
        · exact ih tx hmem

/-! ### `processUpload`: issues, published events, outcome -/

/-- What `processUpload` returns and the world it leaves, for an existing
upload: the error of `parseCSV`, and the world after the second clock reading. -/
theorem processUpload_result {ω : Type} (u : Usecase ω) (s : InMemoryStore)
    (uploadID : String) (reads : csvReads) (w : ω) (rec : uploadRecord)
    (hrec : s.uploads uploadID = some rec) :
    (u.processUpload s uploadID reads w).1 =
        (u.parseUpload uploadID reads (u.clock w).2).err ∧
    (u.processUpload s uploadID reads w).2.2 =
        (u.clock (u.parseUpload uploadID reads (u.clock w).2).acc.world).2 := by
  simp [Usecase.processUpload, InMemoryStore.UpdateMeta, InMemoryStore.SaveResults,
    InMemoryStore.get, InMemoryStore.put, hrec]

/-- C15: the issues list `processUpload` passes to `SaveResults` (and that
ends up in the record) is exactly the sub-sequence of the handed transactions
whose Status is not Success, in input order, each of them Failed or Pending;
this holds for every usecase, with or without publisher and whatever `Publish`
returns. -/
theorem processUpload_issues_non_success {ω : Type} (u : Usecase ω) (uploadID : String)
    (reads : csvReads) (w : ω) :
    (u.parseUpload uploadID reads w).acc.issues =
        (handedTransactions reads).filter (fun tx => tx.Status ≠ TxStatusSuccess) ∧
    (∀ tx ∈ (u.parseUpload uploadID reads w).acc.issues,
      tx.Status = TxStatusFailed ∨ tx.Status = TxStatusPending) ∧
    (∀ (s : InMemoryStore) (rec : uploadRecord), s.uploads uploadID = some rec →
      ∃ rec' : uploadRecord,
        (u.processUpload s uploadID reads w).2.1.uploads uploadID = some rec' ∧
        rec'.issues =
          (handedTransactions reads).filter (fun tx => tx.Status ≠ TxStatusSuccess)) := by
  refine ⟨parseUpload_issues u uploadID reads w, ?_, ?_⟩
  · intro tx htx
    rw [parseUpload_issues] at htx
    obtain ⟨hmem, hns⟩ := List.mem_filter.mp htx
    obtain ⟨record, hrecord⟩ := handedTransactions_mem reads tx hmem
    have hst := (parseRecord_ok record tx hrecord).2.2.2
    have hns' : tx.Status ≠ TxStatusSuccess := by simpa using hns
    rcases hst with h | h | h
    · exact absurd h hns'
    · exact Or.inl h
    · exact Or.inr h
  · intro s rec hrec
    exact ⟨_, processUpload_record u s uploadID reads w rec hrec,
      parseUpload_issues u uploadID reads _⟩

/-- C14: with a publisher, the events passed to `Publish` during
`processUpload`, as logged by the logged usecase, are in input order exactly
one event per handed transaction with Status Failed, each carrying that
transaction and the upload identity; nothing is published for a Pending or a
Success transaction.  Logging does not change what the usecase computes. -/
theorem processUpload_publishes_failed {ω : Type} (u : Usecase ω)
    (publish : FailedTxEvent → ω → Option GoError × ω) (uploadID : String)
    (reads : csvReads) (w : ω) (hu : u.events = some publish) :
    ((u.logged.parseUpload uploadID reads (w, [])).acc.world.2).map
        (fun e => (e.UploadID, e.Tx)) =
      ((handedTransactions reads).filter (fun tx => tx.Status = TxStatusFailed)).map
        (fun tx => (uploadID, tx)) ∧
    (u.logged.parseUpload uploadID reads (w, [])).acc.world.1 =
      (u.parseUpload uploadID reads w).acc.world ∧
    (∀ (s : InMemoryStore) (rec : uploadRecord), s.uploads uploadID = some rec →
      ((u.logged.processUpload s uploadID reads (w, [])).2.2.2).map
          (fun e => (e.UploadID, e.Tx)) =
        ((handedTransactions reads).filter (fun tx => tx.Status = TxStatusFailed)).map
          (fun tx => (uploadID, tx))) := by
  have hlog : ∀ w0 : ω,
      ((u.logged.parseUpload uploadID reads (w0, [])).acc.world.2).map
          (fun e => (e.UploadID, e.Tx)) =
        ((handedTransactions reads).filter (fun tx => tx.Status = TxStatusFailed)).map
          (fun tx => (uploadID, tx)) := by
    intro w0
    unfold Usecase.parseUpload parseCSV
    rw [parseCSVLoop_acc, foldl_logged_onTx_log u publish hu]
    simp
  refine ⟨hlog w, ?_, ?_⟩
  · unfold Usecase.parseUpload parseCSV
    rw [parseCSVLoop_acc, parseCSVLoop_acc]
    exact (foldl_logged_onTx_same u uploadID (handedTransactions reads)
      { balance := 0, issues := [], world := (w, []) }).2.2
  · intro s rec hrec
    rw [(processUpload_result u.logged s uploadID reads (w, []) rec hrec).2]
    exact hlog (u.clock w).2

/-- Witness of C14: the scenario of the usecase tests publishes exactly one
event, for the failed debit. -/
theorem processUpload_publishes_failed_witness :
    ((countingUsecase.logged.parseUpload "upload-1" scenarioReads (0, [])).acc.world.2).map
        (fun e => (e.UploadID, e.Tx)) =
      [("upload-1", txFailedDebit)] :=
  (processUpload_publishes_failed countingUsecase (fun _ n => (none, n)) "upload-1"
    scenarioReads 0 rfl).1.trans (by decide)

/-! ### `parseCSV` on streams without and with a reader error -/

/-- The loop of `parseCSV` over records read without reader error, from
counters that cannot overflow: no error, every record counted once, the
callback folded over the successfully parsed ones. -/
theorem parseCSVLoop_records {σ : Type} (onTx : σ → Transaction → σ)
    (records : List (List String)) :
    ∀ (t p e : Int) (acc : σ), 0 ≤ t → 0 ≤ p → 0 ≤ e →
      t + records.length ≤ 9223372036854775807 →
      p + records.length ≤ 9223372036854775807 →
      e + records.length ≤ 9223372036854775807 →
      (parseCSVLoop onTx (records.map Except.ok) t p e acc).err = none ∧
      (parseCSVLoop onTx (records.map Except.ok) t p e acc).totalLines =
        t + records.length ∧
      (parseCSVLoop onTx (records.map Except.ok) t p e acc).parsedOK =
        p + (records.filter parses).length ∧
      (parseCSVLoop onTx (records.map Except.ok) t p e acc).parseErr =
        e + (records.filter (fun record => !parses record)).length ∧
      (parseCSVLoop onTx (records.map Except.ok) t p e acc).acc =
        (parsedTransactions records).foldl onTx acc := by
  induction records with
  | nil => intro t p e acc _ _ _ _ _ _; simp [parseCSVLoop, parsedTransactions]
  | cons record rest ih =>
    intro t p e acc ht hp he hbt hbp hbe
    simp only [List.length_cons, Nat.cast_add, Nat.cast_one] at hbt hbp hbe
    have hwt : wrapInt64 (t + 1) = t + 1 := wrapInt64_of_inRange _ (by omega) (by omega)
    have hwp : wrapInt64 (p + 1) = p + 1 := wrapInt64_of_inRange _ (by omega) (by omega)
    have hwe : wrapInt64 (e + 1) = e + 1 := wrapInt64_of_inRange _ (by omega) (by omega)
    cases hpr : parseRecord record with
    | error err =>
      have hps : parses record = false := by simp [parses, hpr]
      obtain ⟨h1, h2, h3, h4, h5⟩ := ih (t + 1) p (e + 1) acc (by omega) hp (by omega)
        (by omega) (by omega) (by omega)
      simp only [List.map_cons, parseCSVLoop, hpr, hwt, hwe]
      refine ⟨h1, ?_, ?_, ?_, ?_⟩
      · rw [h2]; simp only [List.length_cons, Nat.cast_add, Nat.cast_one]; omega
      · rw [h3]; simp [List.filter_cons, hps]
      · rw [h4]; simp [List.filter_cons, hps]; omega
      · rw [h5]; simp [parsedTransactions, List.filterMap_cons, hpr]
    | ok tx =>
      have hps : parses record = true := by simp [parses, hpr]
      obtain ⟨h1, h2, h3, h4, h5⟩ := ih (t + 1) (p + 1) e (onTx acc tx) (by omega) (by omega)
        he (by omega) (by omega) (by omega)
      simp only [List.map_cons, parseCSVLoop, hpr, hwt, hwp]
      refine ⟨h1, ?_, ?_, ?_, ?_⟩
      · rw [h2]; simp only [List.length_cons, Nat.cast_add, Nat.cast_one]; omega
      · rw [h3]; simp [List.filter_cons, hps]; omega
      · rw [h4]; simp [List.filter_cons, hps]
      · rw [h5]; simp [parsedTransactions, List.filterMap_cons, hpr]

/-- The loop of `parseCSV` over records followed by a reader error: what the
loop has computed over the records, with `parseErr` incremented and the reader
error returned; the reads after the error are never looked at. -/
theorem parseCSVLoop_reader_error {σ : Type} (onTx : σ → Transaction → σ)
    (records : List (List String)) (err : GoError) (post : csvReads) :
    ∀ (t p e : Int) (acc : σ),
      (parseCSVLoop onTx (records.map Except.ok ++ Except.error err :: post) t p e acc).err =
        some err ∧
      (parseCSVLoop onTx (records.map Except.ok ++ Except.error err :: post) t p e
          acc).totalLines =
        (parseCSVLoop onTx (records.map Except.ok) t p e acc).totalLines ∧
      (parseCSVLoop onTx (records.map Except.ok ++ Except.error err :: post) t p e
          acc).parsedOK =
        (parseCSVLoop onTx (records.map Except.ok) t p e acc).parsedOK ∧
      (parseCSVLoop onTx (records.map Except.ok ++ Except.error err :: post) t p e
          acc).parseErr =
        wrapInt64 ((parseCSVLoop onTx (records.map Except.ok) t p e acc).parseErr + 1) ∧
      (parseCSVLoop onTx (records.map Except.ok ++ Except.error err :: post) t p e acc).acc =
        (parseCSVLoop onTx (records.map Except.ok) t p e acc).acc := by
  induction records with
  | nil => intro t p e acc; simp [parseCSVLoop]
  | cons record rest ih =>
    intro t p e acc
    cases hpr : parseRecord record with
    | error e0 =>
      simp only [List.map_cons, List.cons_append, parseCSVLoop, hpr]
      exact ih _ _ _ _
    | ok tx =>
      simp only [List.map_cons, List.cons_append, parseCSVLoop, hpr]
      exact ih _ _ _ _

/-- A stream without reader error ends with no error. -/
theorem parseCSVLoop_records_err {σ : Type} (onTx : σ → Transaction → σ)
    (records : List (List String)) :
    ∀ (t p e : Int) (acc : σ),
      (parseCSVLoop onTx (records.map Except.ok) t p e acc).err = none := by
  induction records with
  | nil => intro t p e acc; simp [parseCSVLoop]
  | cons record rest ih =>
    intro t p e acc
    cases hpr : parseRecord record with
    | error e0 =>
      simp only [List.map_cons, parseCSVLoop, hpr]
      exact ih _ _ _ _
    | ok tx =>
      simp only [List.map_cons, parseCSVLoop, hpr]
      exact ih _ _ _ _

/-- C17: on records read without reader error (fewer than `2^63` of them, so
that the `int64` counters do not wrap), `parseCSV` returns a nil error,
`totalLines` the number of records, `parsedOK` the number of records on which
`parseRecord` succeeds and `parseErr` the number on which it fails, and it has
invoked the callback exactly once for each successfully parsed record, in
input order; a record that fails `parseRecord` does not stop the records after
it from being processed. -/
theorem parseCSV_counts_records {σ : Type} (onTx : σ → Transaction → σ)
    (records : List (List String)) (acc : σ)
    (hlen : (records.length : Int) ≤ maxInt64) :
    (parseCSV (records.map Except.ok) onTx acc).err = none ∧
    (parseCSV (records.map Except.ok) onTx acc).totalLines = records.length ∧
    (parseCSV (records.map Except.ok) onTx acc).parsedOK = (records.filter parses).length ∧
    (parseCSV (records.map Except.ok) onTx acc).parseErr =
      (records.filter (fun record => !parses record)).length ∧
    (parseCSV (records.map Except.ok) onTx acc).acc =
      (parsedTransactions records).foldl onTx acc := by
  unfold maxInt64 at hlen
  unfold parseCSV
  obtain ⟨h1, h2, h3, h4, h5⟩ := parseCSVLoop_records onTx records 0 0 0 acc (le_refl 0)
    (le_refl 0) (le_refl 0) (by omega) (by omega) (by omega)
  refine ⟨h1, ?_, ?_, ?_, h5⟩
  · rw [h2]; simp
  · rw [h3]; simp
  · rw [h4]; simp

/-- Witness of C17: the three lines of the parse-error test, the second of
which has two fields: counters 3, 2, 1 and the two good lines handed on. -/
theorem parseCSV_counts_records_witness :
    (parseCSV
        ([["1674507883", "JOHN DOE", "CREDIT", "100", "SUCCESS", "salary"],
          ["invalid", "line"],
          ["1674507884", "JOHN DOE", "DEBIT", "50", "SUCCESS", "grocery"]].map Except.ok)
        (fun (l : List Int) tx => l ++ [tx.Amount]) []).acc = [100, 50] :=
  (parseCSV_counts_records (fun (l : List Int) tx => l ++ [tx.Amount])
    [["1674507883", "JOHN DOE", "CREDIT", "100", "SUCCESS", "salary"],
      ["invalid", "line"],
      ["1674507884", "JOHN DOE", "DEBIT", "50", "SUCCESS", "grocery"]] [] (by decide)).2.2.2.2.trans
    (by decide)

/-- C16 (amended): `processUpload` on an existing upload.  If the reader yields
its records without error, the record ends with Status Done and an empty `Err`
and `processUpload` returns nil.  If the reader fails with `err` after some
records, the record ends with Status Failed and `Err` the message of `err`,
`processUpload` returns `err`, and the record holds the balance, the issues,
`totalLines` and `parsedOK` accumulated from the records before the error; the
`parseErr` it holds is the one `parseCSV` returned. -/
theorem processUpload_outcome {ω : Type} (u : Usecase ω) (s : InMemoryStore)
    (uploadID : String) (rec : uploadRecord) (w : ω)
    (hrec : s.uploads uploadID = some rec) :
    (∀ records : List (List String),
      (u.processUpload s uploadID (records.map Except.ok) w).1 = none ∧
      ∃ rec' : uploadRecord,
        (u.processUpload s uploadID (records.map Except.ok) w).2.1.uploads uploadID =
          some rec' ∧
        rec'.meta.Status = UploadStatusDone ∧ rec'.meta.Err = "") ∧
    (∀ (records : List (List String)) (err : GoError) (post : csvReads),
      (u.processUpload s uploadID (records.map Except.ok ++ Except.error err :: post) w).1 =
        some err ∧
      ∃ rec' : uploadRecord,
        (u.processUpload s uploadID (records.map Except.ok ++ Except.error err :: post)
          w).2.1.uploads uploadID = some rec' ∧
        rec'.meta.Status = UploadStatusFailed ∧ rec'.meta.Err = err.Error ∧
        rec'.balance =
          (u.parseUpload uploadID (records.map Except.ok) (u.clock w).2).acc.balance ∧
        rec'.issues =
          (u.parseUpload uploadID (records.map Except.ok) (u.clock w).2).acc.issues ∧
        rec'.meta.TotalLines =
          (u.parseUpload uploadID (records.map Except.ok) (u.clock w).2).totalLines ∧
        rec'.meta.ParsedOK =
          (u.parseUpload uploadID (records.map Except.ok) (u.clock w).2).parsedOK ∧
        rec'.meta.ParseErr =
          (u.parseUpload uploadID (records.map Except.ok ++ Except.error err :: post)
            (u.clock w).2).parseErr) := by
  constructor
  · intro records
    have herr : (u.parseUpload uploadID (records.map Except.ok) (u.clock w).2).err = none :=
      parseCSVLoop_records_err _ records _ _ _ _
    refine ⟨by rw [(processUpload_result u s uploadID _ w rec hrec).1, herr],
      _, processUpload_record u s uploadID _ w rec hrec, ?_, ?_⟩
    · simp [herr]
    · simp [herr]
  · intro records err post
    obtain ⟨h1, h2, h3, h4, h5⟩ := parseCSVLoop_reader_error (u.onTx uploadID) records err post
      0 0 0 { balance := 0, issues := [], world := (u.clock w).2 }
    have herr : (u.parseUpload uploadID (records.map Except.ok ++ Except.error err :: post)
        (u.clock w).2).err = some err := h1
    refine ⟨by rw [(processUpload_result u s uploadID _ w rec hrec).1, herr],
      _, processUpload_record u s uploadID _ w rec hrec, ?_, ?_, ?_, ?_, ?_, ?_, ?_⟩
    · simp [herr]
    · simp [herr]
    · exact congrArg uploadAcc.balance h5
    · exact congrArg uploadAcc.issues h5
    · exact h2
    · exact h3
    · rfl

/-- C16, counterexample: two good lines, then a reader error.  The lines
before the error contain no parse error (`parseCSV` on them alone returns
`parseErr = 0`), yet the record is saved with `ParseErr = 1`: the saved
`parseErr` is not the one accumulated from the lines before the error. -/
theorem processUpload_reader_error_parseErr :
    (plainUsecase.parseUpload "upload-1" (truncatedReads.take 2) ()).parseErr = 0 ∧
    (plainUsecase.parseUpload "upload-1" (truncatedReads.take 2) ()).err = none ∧
    ((plainUsecase.processUpload queuedStore "upload-1" truncatedReads ()).2.1.uploads
        "upload-1").map (fun r => (r.meta.Status, r.meta.TotalLines, r.meta.ParsedOK,
          r.meta.ParseErr)) =
      some (UploadStatusFailed, 2, 2, 1) := by
  refine ⟨by decide, by rfl, by decide⟩

/-- Witness of C16: two good lines, then a reader error, on a queued upload:
Status Failed, the message of the error, and the balance of the first line. -/
theorem processUpload_outcome_witness :
    ((plainUsecase.processUpload queuedStore "upload-1" truncatedReads ()).2.1.uploads
        "upload-1").map (fun r => (r.meta.Status, r.meta.Err, r.balance, r.issues)) =
      some (UploadStatusFailed,
        "parse error on line 3, column 9: extraneous or missing \x22 in quoted-field",
        100, [txFailedDebit]) := by
  have h := (processUpload_outcome plainUsecase queuedStore "upload-1"
    { meta := { ID := "upload-1", Status := UploadStatusQueued } } () rfl).2
    [["1674507883", "JOHN DOE", "CREDIT", "100", "SUCCESS", "salary"],
      ["1674507885", "JOHN DOE", "DEBIT", "20", "FAILED", "restaurant"]]
    (GoError.errorString
      "parse error on line 3, column 9: extraneous or missing \x22 in quoted-field") []
  obtain ⟨_, rec', h1, h2, h3, h4, h5, _⟩ := h
  have hreads : truncatedReads =
      List.map Except.ok
        [["1674507883", "JOHN DOE", "CREDIT", "100", "SUCCESS", "salary"],
          ["1674507885", "JOHN DOE", "DEBIT", "20", "FAILED", "restaurant"]] ++
        [Except.error (GoError.errorString
          "parse error on line 3, column 9: extraneous or missing \x22 in quoted-field")] :=
    rfl
  rw [hreads, h1]
  simp only [Option.map_some']
  rw [h2, h3, h4, h5]
  decide

/-! ### The states of an upload's record -/

/-- The status and the counters of the record after each store operation of
`processUpload` on an existing upload, and the last of these stores. -/
theorem processUploadStores_trace {ω : Type} (u : Usecase ω) (s : InMemoryStore)
    (uploadID : String) (reads : csvReads) (w : ω) (rec : uploadRecord)
    (hrec : s.uploads uploadID = some rec) :
    (u.processUploadStores s uploadID reads w).map
        (fun st => (statusOf st uploadID, countersOf st uploadID)) =
      [(some UploadStatusProcessing,
          some (rec.meta.TotalLines, rec.meta.ParsedOK, rec.meta.ParseErr)),
        (some UploadStatusProcessing,
          some ((u.parseUpload uploadID reads (u.clock w).2).totalLines,
            (u.parseUpload uploadID reads (u.clock w).2).parsedOK,
            (u.parseUpload uploadID reads (u.clock w).2).parseErr)),
        (some (if (u.parseUpload uploadID reads (u.clock w).2).err.isSome then UploadStatusFailed
            else UploadStatusDone),
          some ((u.parseUpload uploadID reads (u.clock w).2).totalLines,
            (u.parseUpload uploadID reads (u.clock w).2).parsedOK,
            (u.parseUpload uploadID reads (u.clock w).2).parseErr))] ∧
    (u.processUploadStores s uploadID reads w).getLast? =
      some (u.processUpload s uploadID reads w).2.1 := by
  simp [Usecase.processUploadStores, Usecase.processUpload, InMemoryStore.UpdateMeta,
    InMemoryStore.SaveResults, InMemoryStore.get, InMemoryStore.put, hrec, statusOf,
    countersOf]

/-- C18: an upload is accepted by `Upload` exactly when the generated identity
is fresh; its record is then created with Status Queued and one task is handed
to the runner.  When that task runs (on a store in which this record is as
`Upload` left it), the record's Status after the three store operations of
`processUpload` is Processing, Processing, and then Done or Failed, which is
the state `processUpload` leaves: the values taken are Queued, Processing and
one terminal status, in this order. -/
theorem upload_status_sequence {ω : Type} (u : Usecase ω) (s : InMemoryStore)
    (tasks : List uploadTask) (reads : csvReads) (w : ω)
    (hfresh : s.uploads (u.id w).1 = none) :
    (Upload (some s) (some u.id) (some tasks) reads w).result = Except.ok (u.id w).1 ∧
    (Upload (some s) (some u.id) (some tasks) reads w).runner =
      some (tasks ++ [{ uploadID := (u.id w).1, reads := reads }]) ∧
    ∃ s1 : InMemoryStore,
      (Upload (some s) (some u.id) (some tasks) reads w).store = some s1 ∧
      statusOf s1 (u.id w).1 = some UploadStatusQueued ∧
      ∀ (s' : InMemoryStore) (w' : ω), s'.uploads (u.id w).1 = s1.uploads (u.id w).1 →
        ∃ terminal : UploadStatus,
          (terminal = UploadStatusDone ∨ terminal = UploadStatusFailed) ∧
          (u.processUploadStores s' (u.id w).1 reads w').map
              (fun st => statusOf st (u.id w).1) =
            [some UploadStatusProcessing, some UploadStatusProcessing, some terminal] ∧
          (u.processUploadStores s' (u.id w).1 reads w').getLast? =
            some (u.runTask s' { uploadID := (u.id w).1, reads := reads } w').2.1 := by
  have hup : Upload (some s) (some u.id) (some tasks) reads w =
      { result := Except.ok (u.id w).1,
        store := some (s.put (u.id w).1
          { meta := { ID := (u.id w).1, Status := UploadStatusQueued } }),
        runner := some (tasks ++ [{ uploadID := (u.id w).1, reads := reads }]),
        world := (u.id w).2 } := by
    simp [Upload, InMemoryStore.CreateUpload, hfresh]
  rw [hup]
  refine ⟨rfl, rfl, _, rfl, by simp [statusOf, InMemoryStore.put], ?_⟩
  intro s' w' hs'
  have hrec' : s'.uploads (u.id w).1 =
      some { meta := { ID := (u.id w).1, Status := UploadStatusQueued } } := by
    rw [hs']; simp [InMemoryStore.put]
  obtain ⟨h1, h2⟩ := processUploadStores_trace u s' (u.id w).1 reads w' _ hrec'
  refine ⟨if (u.parseUpload (u.id w).1 reads (u.clock w').2).err.isSome then UploadStatusFailed
      else UploadStatusDone, ?_, ?_, h2⟩
  · split
    · exact Or.inr rfl
    · exact Or.inl rfl
  · have := congrArg (List.map Prod.fst) h1
    simpa [List.map_map, Function.comp_def] using this

/-- Witness of C18: the scenario of the usecase tests uploaded into an empty
store: Processing, Processing, Done. -/
theorem upload_status_sequence_witness :
    (Upload (some NewInMemoryStore) (some plainUsecase.id) (some []) scenarioReads ()).result =
      Except.ok "id-1" ∧
    (plainUsecase.processUploadStores
        ((NewInMemoryStore.CreateUpload { ID := "id-1", Status := UploadStatusQueued }).1)
        "id-1" scenarioReads ()).map (fun st => statusOf st "id-1") =
      [some UploadStatusProcessing, some UploadStatusProcessing, some UploadStatusDone] := by
  have h := upload_status_sequence plainUsecase NewInMemoryStore [] scenarioReads () rfl
  refine ⟨h.1, ?_⟩
  decide

/-- C19 (amended): in a run of `processUpload` on an existing upload the
counters are written by two store operations.  `SaveResults` writes their final
values together with balance and issues while the Status is still Processing;
the `UpdateMeta` that sets the terminal status writes the same values again.
After the first operation the counters are still those of the record before
the run. -/
theorem processUpload_counters_written_twice {ω : Type} (u : Usecase ω) (s : InMemoryStore)
    (uploadID : String) (reads : csvReads) (w : ω) (rec : uploadRecord)
    (hrec : s.uploads uploadID = some rec) :
    (u.processUploadStores s uploadID reads w).map
        (fun st => (statusOf st uploadID, countersOf st uploadID)) =
      [(some UploadStatusProcessing,
          some (rec.meta.TotalLines, rec.meta.ParsedOK, rec.meta.ParseErr)),
        (some UploadStatusProcessing,
          some ((u.parseUpload uploadID reads (u.clock w).2).totalLines,
            (u.parseUpload uploadID reads (u.clock w).2).parsedOK,
            (u.parseUpload uploadID reads (u.clock w).2).parseErr)),
        (some (if (u.parseUpload uploadID reads (u.clock w).2).err.isSome then UploadStatusFailed
            else UploadStatusDone),
          some ((u.parseUpload uploadID reads (u.clock w).2).totalLines,
            (u.parseUpload uploadID reads (u.clock w).2).parsedOK,
            (u.parseUpload uploadID reads (u.clock w).2).parseErr))] :=
  (processUploadStores_trace u s uploadID reads w rec hrec).1

/-- Witness of C19: the scenario of the usecase tests on a queued upload. -/
theorem processUpload_counters_written_twice_witness :
    (plainUsecase.processUploadStores queuedStore "upload-1" scenarioReads ()).map
        (fun st => (statusOf st "upload-1", countersOf st "upload-1")) =
      [(some UploadStatusProcessing, some (0, 0, 0)),
        (some UploadStatusProcessing, some (4, 4, 0)),
        (some UploadStatusDone, some (4, 4, 0))] :=
  (processUpload_counters_written_twice plainUsecase queuedStore "upload-1" scenarioReads ()
    { meta := { ID := "upload-1", Status := UploadStatusQueued } } rfl).trans (by decide)

/-- C19, counterexample: in the run of the scenario of the usecase tests the
store left by `SaveResults` (the second of the three) already holds the final
counters `4, 4, 0` while the Status is still Processing, and the last
operation is not the only one that writes them. -/
theorem processUpload_final_counters_while_processing :
    ∃ st ∈ plainUsecase.processUploadStores queuedStore "upload-1" scenarioReads (),
      statusOf st "upload-1" = some UploadStatusProcessing ∧
      countersOf st "upload-1" = some (4, 4, 0) ∧
      countersOf st "upload-1" =
        countersOf (plainUsecase.processUpload queuedStore "upload-1" scenarioReads ()).2.1
          "upload-1" ∧
      countersOf st "upload-1" ≠ countersOf queuedStore "upload-1" := by
  refine ⟨(plainUsecase.processUploadStores queuedStore "upload-1" scenarioReads ()).get
    ⟨1, by decide⟩, List.get_mem _ _ _, ?_, ?_, ?_, ?_⟩ <;> decide

/-- C20 (amended): the Amount of the transaction of a successful `parseRecord`
is an `int64`, negative values included; so is the Amount of every transaction
that reaches the balance computation or the issues list. -/
theorem parseRecord_amount_int64 (record : List String) (tx : Transaction)
    (h : parseRecord record = Except.ok tx) :
    inInt64 tx.Amount ∧
    ∀ reads : csvReads, ∀ tx' ∈ handedTransactions reads, inInt64 tx'.Amount := by
  refine ⟨(parseRecord_ok record tx h).2.1, ?_⟩
  intro reads tx' hmem
  obtain ⟨record', hrecord'⟩ := handedTransactions_mem reads tx' hmem
  exact (parseRecord_ok record' tx' hrecord').2.1

/-- Witness of C20: `parseRecord` succeeds on `negativeAmountRecord`, and the
Amount `-5` it returns is an `int64`. -/
theorem parseRecord_amount_int64_witness :
    parseRecord negativeAmountRecord = Except.ok negativeAmountTx ∧
      inInt64 negativeAmountTx.Amount :=
  ⟨by rfl, (parseRecord_amount_int64 negativeAmountRecord negativeAmountTx (by rfl)).1⟩

/-- C20, counterexample: `parseRecord` succeeds on a six-field record whose
amount field is `-5` and returns the negative Amount; handed to the callback as
a successful debit, it raises the balance to `5`. -/
theorem parseRecord_negative_amount :
    parseRecord negativeAmountRecord = Except.ok negativeAmountTx ∧
    negativeAmountTx.Amount < 0 ∧
    (handedTransactions [Except.ok negativeAmountRecord]).map (fun tx => tx.Amount) = [-5] ∧
    (plainUsecase.parseUpload "upload-1" [Except.ok negativeAmountRecord] ()).acc.balance = 5 := by
  refine ⟨by rfl, by decide, by decide, by decide⟩

/-! ### Error codes and error translation -/

/-- C28, the code at `CodeTimeout`: the `switch` of `Code.String` has no case
for it, so its name is `ERROR_CODE_INTERNAL`, the name of `CodeInternal`, and
not `ERROR_CODE_TIMEOUT`.  The other seven defined codes have seven distinct
names, and every undefined code is named `ERROR_CODE_INTERNAL`. -/
theorem CodeString_timeout_is_internal :
    CodeString CodeTimeout = "ERROR_CODE_INTERNAL" ∧
    CodeString CodeTimeout = CodeString CodeInternal ∧
    CodeTimeout ≠ CodeInternal ∧
    ([CodeInternal, CodeInvalidFormat, CodeInvalidInput, CodeNotFound, CodeConflict,
        CodeUnauthorized, CodeForbidden].map CodeString =
      ["ERROR_CODE_INTERNAL", "ERROR_CODE_INVALID_FORMAT", "ERROR_CODE_INVALID_INPUT",
        "ERROR_CODE_NOT_FOUND", "ERROR_CODE_CONFLICT", "ERROR_CODE_UNAUTHORIZED",
        "ERROR_CODE_FORBIDDEN"]) ∧
    (∀ c : Int, (c < 0 ∨ 7 < c) → CodeString c = "ERROR_CODE_INTERNAL") := by
  refine ⟨by decide, by decide, by decide, by decide, ?_⟩
  intro c hc
  unfold CodeString CodeInvalidFormat CodeInvalidInput CodeNotFound CodeConflict
    CodeUnauthorized CodeForbidden CodeInternal
  have h1 : c ≠ 1 := by omega
  have h2 : c ≠ 2 := by omega
  have h3 : c ≠ 3 := by omega
  have h4 : c ≠ 4 := by omega
  have h5 : c ≠ 5 := by omega
  have h6 : c ≠ 6 := by omega
  simp [h1, h2, h3, h4, h5, h6]

/-- `errors.As` for `*pkgerror.Error` returns a `*pkgerror.Error`. -/
theorem errorsAsPkgError_isPkgError :
    ∀ (e perr : GoError), errorsAsPkgError e = some perr → isPkgError perr = true
  | GoError.ErrNotFound, _, h => by simp [errorsAsPkgError] at h
  | GoError.ErrBusClosed, _, h => by simp [errorsAsPkgError] at h
  | GoError.errorString _, _, h => by simp [errorsAsPkgError] at h
  | GoError.wrapError _ inner, perr, h => by
    rw [errorsAsPkgError] at h
    exact errorsAsPkgError_isPkgError inner perr h
  | GoError.pkgError _ _ _ _, perr, h => by
    rw [errorsAsPkgError] at h
    injection h with h
    subst h
    rfl

/-- C22 (amended): the error `mapStoreErr` makes of an error `e` of the store
is always a `*pkgerror.Error`.  If `errors.Is(e, ErrNotFound)` holds it is the
Business error with code NotFound and message `upload not found`, which wraps
nothing.  Otherwise, if `e` is a `*pkgerror.Error` it is returned unchanged; if
the `Unwrap` chain of `e` contains a `*pkgerror.Error`, the first one is
returned in place of `e`; and only an `e` without any is wrapped as a Server
error with code Internal. -/
theorem mapStoreErr_cases (e : GoError) :
    isPkgError (mapStoreErr e) = true ∧
    (errorsIsNotFound e = true →
      mapStoreErr e =
          GoError.pkgError none "upload not found" ErrType.TypeBusiness CodeNotFound ∧
        errorsIsNotFound (mapStoreErr e) = false) ∧
    (errorsIsNotFound e = false → isPkgError e = true → mapStoreErr e = e) ∧
    (errorsIsNotFound e = false → ∀ perr, errorsAsPkgError e = some perr →
      mapStoreErr e = perr) ∧
    (errorsIsNotFound e = false → errorsAsPkgError e = none →
      mapStoreErr e =
        GoError.pkgError (some e) "Internal server error" ErrType.TypeServer CodeInternal) := by
  refine ⟨?_, ?_, ?_, ?_, ?_⟩
  · unfold mapStoreErr
    split
    · rfl
    · unfold normalizeErr
      cases has : errorsAsPkgError e with
      | none => rfl
      | some perr => exact errorsAsPkgError_isPkgError e perr has
  · intro h
    have : mapStoreErr e =
        GoError.pkgError none "upload not found" ErrType.TypeBusiness CodeNotFound := by
      simp [mapStoreErr, h, NewBusiness, pkgerrorNew]
    exact ⟨this, by rw [this]; rfl⟩
  · intro h hp
    cases e with
    | pkgError err msg et code => simp [mapStoreErr, h, normalizeErr, errorsAsPkgError]
    | ErrNotFound => simp [isPkgError] at hp
    | ErrBusClosed => simp [isPkgError] at hp
    | errorString m => simp [isPkgError] at hp
    | wrapError m inner => simp [isPkgError] at hp
  · intro h perr has
    simp [mapStoreErr, h, normalizeErr, has]
  · intro h has
    simp [mapStoreErr, h, normalizeErr, has, NewServer, pkgerrorNew]

/-- C22, counterexample: a store error that is not a `*pkgerror.Error` itself
and not a NotFound, but wraps the Conflict error with `%w`: `mapStoreErr`
returns the wrapped Conflict error (a Business error), not a Server error with
code Internal around `e`. -/
theorem mapStoreErr_unwraps_wrapped_pkgError :
    isPkgError wrappedConflict = false ∧
    errorsIsNotFound wrappedConflict = false ∧
    mapStoreErr wrappedConflict =
      GoError.pkgError none "upload already exists" ErrType.TypeBusiness CodeConflict ∧
    mapStoreErr wrappedConflict ≠
      GoError.pkgError (some wrappedConflict) "Internal server error" ErrType.TypeServer
        CodeInternal := by
  refine ⟨rfl, rfl, rfl, ?_⟩
  intro h
  have h2 : mapStoreErr wrappedConflict =
      GoError.pkgError none "upload already exists" ErrType.TypeBusiness CodeConflict := rfl
  rw [h2] at h
  injection h with h1
  cases h1

/-! ### The read-through operations of the usecase -/

/-- C21: `Balance` with an empty upload id, and `Issues` with an empty upload
id or with `page < 1` or `pageSize < 1`, fail with the Validation error of
code InvalidInput and leave the state of the store untouched, whatever the
store is: the store is not called.  For every other input they call the store
once and hand on what it returns: on success the balance and the Status of the
meta (for `Issues` the items, the total and the Status, with the requested
page and page size), on failure the store's error as `mapStoreErr` translates
it. -/
theorem Balance_Issues_read_through {ω : Type} (store : Store ω) (uploadID : String)
    (filter : IssueFilter) (page pageSize : Int) (w : ω) :
    Balance store "" w =
      (Except.error
        (GoError.pkgError (some (GoError.errorString "upload_id is required"))
          "validation error" ErrType.TypeValidation CodeInvalidInput), w) ∧
    Issues store "" filter page pageSize w =
      (Except.error
        (GoError.pkgError (some (GoError.errorString "upload_id is required"))
          "validation error" ErrType.TypeValidation CodeInvalidInput), w) ∧
    (uploadID ≠ "" → (page < 1 ∨ pageSize < 1) →
      Issues store uploadID filter page pageSize w =
        (Except.error
          (GoError.pkgError (some (GoError.errorString "invalid pagination"))
            "validation error" ErrType.TypeValidation CodeInvalidInput), w)) ∧
    (uploadID ≠ "" →
      (∀ (balance : Int) (meta : UploadMeta) (w1 : ω),
        store.GetBalance uploadID w = (Except.ok (balance, meta), w1) →
        Balance store uploadID w =
          (Except.ok { UploadID := uploadID, Status := meta.Status, Balance := balance }, w1)) ∧
      (∀ (err : GoError) (w1 : ω), store.GetBalance uploadID w = (Except.error err, w1) →
        Balance store uploadID w = (Except.error (mapStoreErr err), w1))) ∧
    (uploadID ≠ "" → 1 ≤ page → 1 ≤ pageSize →
      (∀ (items : List Transaction) (total : Int) (meta : UploadMeta) (w1 : ω),
        store.ListIssues uploadID filter page pageSize w = (Except.ok (items, total, meta), w1) →
        Issues store uploadID filter page pageSize w =
          (Except.ok
            { UploadID := uploadID, Status := meta.Status, Transactions := items,
              Page := page, PageSize := pageSize, Total := total }, w1)) ∧
      (∀ (err : GoError) (w1 : ω),
        store.ListIssues uploadID filter page pageSize w = (Except.error err, w1) →
        Issues store uploadID filter page pageSize w = (Except.error (mapStoreErr err), w1))) := by
  refine ⟨?_, ?_, ?_, ?_, ?_⟩
  · simp [Balance, NewInvalidInput, pkgerrorNew]
  · simp [Issues, NewInvalidInput, pkgerrorNew]
  · intro hid hp
    simp [Issues, hid, hp, NewInvalidInput, pkgerrorNew]
  · intro hid
    constructor
    · intro balance meta w1 h
      simp [Balance, hid, h]
    · intro err w1 h
      simp [Balance, hid, h]
  · intro hid hp hs
    have hnp : ¬ (page < 1 ∨ pageSize < 1) := by omega
    constructor
    · intro items total meta w1 h
      simp [Issues, hid, hnp, h]
    · intro err w1 h
      simp [Issues, hid, hnp, h]

/-- On the in-memory store: the balance and Status of an existing record, and
the page `ListIssues` returns for it. -/
theorem Balance_InMemoryStore (s : InMemoryStore) (uploadID : String) (rec : uploadRecord)
    (hid : uploadID ≠ "") (hrec : s.uploads uploadID = some rec) :
    Balance InMemoryStore.asStore uploadID s =
      (Except.ok { UploadID := uploadID, Status := rec.meta.Status, Balance := rec.balance },
        s) := by
  simp [Balance, hid, InMemoryStore.asStore, InMemoryStore.GetBalance, InMemoryStore.get, hrec]

/-- The validation failures on a store that counts its calls: the count stays
at 0; a valid request reaches the store once. -/
theorem Balance_counting_store :
    (Balance countingStore "" 0).2 = 0 ∧
    (Issues countingStore "" {} 1 10 0).2 = 0 ∧
    (Issues countingStore "upload-1" {} 0 10 0).2 = 0 ∧
    (Issues countingStore "upload-1" {} 1 0 0).2 = 0 ∧
    (Balance countingStore "upload-1" 0).2 = 1 ∧
    (Issues countingStore "upload-1" {} 1 10 0).2 = 1 := by
  refine ⟨rfl, rfl, rfl, rfl, rfl, rfl⟩

/-! ### `Upload` -/

/-- C27: `Upload` with a missing store, identity generator or runner fails
with the Server error `missing dependency`, generates no identity, and leaves
store and runner as they are.  Otherwise it generates one identity; if the
store has no record for it, it creates the record with that identity, Status
Queued, balance 0 and no issues, hands exactly one task (for that identity and
the reader) to the runner and returns the identity; if `CreateUpload` fails
(the identity has a record: Conflict), it returns that error, and store and
runner stay as they are. -/
theorem Upload_cases {ω : Type} (reads : csvReads) (w : ω) :
    (∀ (store : Option InMemoryStore) (id : Option (ω → String × ω))
        (runner : Option (List uploadTask)),
      (store = none ∨ id = none ∨ runner = none) →
      Upload store id runner reads w =
        { result := Except.error
            (GoError.pkgError (some (GoError.errorString "missing dependency"))
              "Internal server error" ErrType.TypeServer CodeInternal),
          store := store, runner := runner, world := w }) ∧
    (∀ (s : InMemoryStore) (gen : ω → String × ω) (tasks : List uploadTask),
      s.uploads (gen w).1 = none →
      Upload (some s) (some gen) (some tasks) reads w =
        { result := Except.ok (gen w).1,
          store := some (s.put (gen w).1
            { meta := { ID := (gen w).1, Status := UploadStatusQueued }, balance := 0,
              issues := [] }),
          runner := some (tasks ++ [{ uploadID := (gen w).1, reads := reads }]),
          world := (gen w).2 }) ∧
    (∀ (s : InMemoryStore) (gen : ω → String × ω) (tasks : List uploadTask)
        (rec : uploadRecord), s.uploads (gen w).1 = some rec →
      Upload (some s) (some gen) (some tasks) reads w =
        { result := Except.error
            (GoError.pkgError none "upload already exists" ErrType.TypeBusiness CodeConflict),
          store := some s, runner := some tasks, world := (gen w).2 }) := by
  refine ⟨?_, ?_, ?_⟩
  · intro store id runner h
    cases store <;> cases id <;> cases runner <;>
      simp [Upload, NewServer, pkgerrorNew] at h ⊢
  · intro s gen tasks h
    simp [Upload, InMemoryStore.CreateUpload, h]
  · intro s gen tasks rec h
    simp [Upload, InMemoryStore.CreateUpload, h, NewBusiness, pkgerrorNew, normalizeErr,
      errorsAsPkgError]

/-! ### Terminal status and final values -/

/-- The record of the upload after each of the three store operations of
`processUpload` on an existing upload. -/
theorem processUploadStores_records {ω : Type} (u : Usecase ω) (s : InMemoryStore)
    (uploadID : String) (reads : csvReads) (w : ω) (rec : uploadRecord)
    (hrec : s.uploads uploadID = some rec) :
    (u.processUploadStores s uploadID reads w).map (fun st => st.uploads uploadID) =
      [some
          { meta := { rec.meta with Status := UploadStatusProcessing, StartedAt := (u.clock w).1 },
            balance := rec.balance, issues := rec.issues },
        some
          { meta :=
              { rec.meta with
                Status := UploadStatusProcessing, StartedAt := (u.clock w).1,
                TotalLines := (u.parseUpload uploadID reads (u.clock w).2).totalLines,
                ParsedOK := (u.parseUpload uploadID reads (u.clock w).2).parsedOK,
                ParseErr := (u.parseUpload uploadID reads (u.clock w).2).parseErr },
            balance := (u.parseUpload uploadID reads (u.clock w).2).acc.balance,
            issues := (u.parseUpload uploadID reads (u.clock w).2).acc.issues },
        (u.processUpload s uploadID reads w).2.1.uploads uploadID] := by
  simp [Usecase.processUploadStores, Usecase.processUpload, InMemoryStore.UpdateMeta,
    InMemoryStore.SaveResults, InMemoryStore.get, InMemoryStore.put, hrec]

/-- C29: in every store state a run of `processUpload` on an existing upload
produces, a record whose Status is Done or Failed is the record the run ends
with: its balance, issues and counters are the final values computed for the
upload.  The two states before the last have Status Processing. -/
theorem terminal_status_has_final_values {ω : Type} (u : Usecase ω) (s : InMemoryStore)
    (uploadID : String) (reads : csvReads) (w : ω) (rec : uploadRecord)
    (hrec : s.uploads uploadID = some rec) :
    ∀ st ∈ u.processUploadStores s uploadID reads w, ∀ rec' : uploadRecord,
      st.uploads uploadID = some rec' →
      (rec'.meta.Status = UploadStatusDone ∨ rec'.meta.Status = UploadStatusFailed) →
      st.uploads uploadID = (u.processUpload s uploadID reads w).2.1.uploads uploadID ∧
      rec'.balance = (u.parseUpload uploadID reads (u.clock w).2).acc.balance ∧
      rec'.issues = (u.parseUpload uploadID reads (u.clock w).2).acc.issues ∧
      rec'.meta.TotalLines = (u.parseUpload uploadID reads (u.clock w).2).totalLines ∧
      rec'.meta.ParsedOK = (u.parseUpload uploadID reads (u.clock w).2).parsedOK ∧
      rec'.meta.ParseErr = (u.parseUpload uploadID reads (u.clock w).2).parseErr := by
  have hd : UploadStatusProcessing ≠ UploadStatusDone := by decide
  have hf : UploadStatusProcessing ≠ UploadStatusFailed := by decide
  intro st hst rec' hrec' hterm
  have hmem : st.uploads uploadID ∈
      (u.processUploadStores s uploadID reads w).map (fun st => st.uploads uploadID) :=
    List.mem_map_of_mem _ hst
  rw [processUploadStores_records u s uploadID reads w rec hrec, hrec'] at hmem
  simp only [List.mem_cons, List.mem_singleton, List.not_mem_nil, or_false] at hmem
  rcases hmem with h | h | h
  · injection h with h
    subst h
    rcases hterm with h | h
    · exact absurd h hd
    · exact absurd h hf
  · injection h with h
    subst h
    rcases hterm with h | h
    · exact absurd h hd
    · exact absurd h hf
  · have hfin := processUpload_record u s uploadID reads w rec hrec
    rw [hfin] at h
    injection h with h
    subst h
    exact ⟨by rw [hrec', hfin], rfl, rfl, rfl, rfl, rfl⟩

/-- Witness of C29: the third store of the run of the scenario of the usecase
tests holds `scenarioFinalRecord`, whose Status is Done; its balance 50 is the
final balance. -/
theorem terminal_status_has_final_values_witness :
    scenarioFinalRecord.balance =
      (plainUsecase.parseUpload "upload-1" scenarioReads (plainUsecase.clock ()).2).acc.balance :=
  (terminal_status_has_final_values plainUsecase queuedStore "upload-1" scenarioReads ()
    { meta := { ID := "upload-1", Status := UploadStatusQueued } } rfl
    ((plainUsecase.processUploadStores queuedStore "upload-1" scenarioReads ()).get
      ⟨2, by decide⟩)
    (List.get_mem _ _ _) scenarioFinalRecord (by decide) (Or.inl (by decide))).2.1

/-! ### When `parseRecord` succeeds -/

theorem equalsIgnoringCase_const (v c : String) (hc : ToUpper c = c) :
    equalsIgnoringCase v c = true ↔ ToUpper v = c := by
  unfold equalsIgnoringCase
  rw [hc]
  simp

/-- `parseTxType` succeeds exactly on the case variants of `CREDIT` and `DEBIT`
and returns the canonical constant. -/
theorem parseTxType_iff (value : String) (t : TxType) :
    parseTxType value = Except.ok t ↔
      (equalsIgnoringCase value TxTypeCredit = true ∧ t = TxTypeCredit) ∨
      (equalsIgnoringCase value TxTypeDebit = true ∧ t = TxTypeDebit) := by
  have hne : TxTypeCredit ≠ TxTypeDebit := by decide
  rw [equalsIgnoringCase_const value TxTypeCredit (by decide),
    equalsIgnoringCase_const value TxTypeDebit (by decide)]
  unfold parseTxType
  by_cases h1 : ToUpper value = TxTypeCredit
  · rw [if_pos h1]
    constructor
    · intro h
      injection h with h
      exact Or.inl ⟨h1, h.symm⟩
    · rintro (⟨_, ht⟩ | ⟨h2, _⟩)
      · rw [ht]
      · exact absurd (h1.symm.trans h2) hne
  · rw [if_neg h1]
    by_cases h2 : ToUpper value = TxTypeDebit
    · rw [if_pos h2]
      constructor
      · intro h
        injection h with h
        exact Or.inr ⟨h2, h.symm⟩
      · rintro (⟨h1', _⟩ | ⟨_, ht⟩)
        · exact absurd h1' h1
        · rw [ht]
    · rw [if_neg h2]
      constructor
      · intro h; cases h
      · rintro (⟨h1', _⟩ | ⟨h2', _⟩)
        · exact absurd h1' h1
        · exact absurd h2' h2

/-- `parseTxStatus` succeeds exactly on the case variants of `SUCCESS`,
`FAILED` and `PENDING` and returns the canonical constant. -/
theorem parseTxStatus_iff (value : String) (st : TxStatus) :
    parseTxStatus value = Except.ok st ↔
      (equalsIgnoringCase value TxStatusSuccess = true ∧ st = TxStatusSuccess) ∨
      (equalsIgnoringCase value TxStatusFailed = true ∧ st = TxStatusFailed) ∨
      (equalsIgnoringCase value TxStatusPending = true ∧ st = TxStatusPending) := by
  have h12 : TxStatusSuccess ≠ TxStatusFailed := by decide
  have h13 : TxStatusSuccess ≠ TxStatusPending := by decide
  have h23 : TxStatusFailed ≠ TxStatusPending := by decide
  rw [equalsIgnoringCase_const value TxStatusSuccess (by decide),
    equalsIgnoringCase_const value TxStatusFailed (by decide),
    equalsIgnoringCase_const value TxStatusPending (by decide)]
  unfold parseTxStatus
  by_cases h1 : ToUpper value = TxStatusSuccess
  · rw [if_pos h1]
    constructor
    · intro h
      injection h with h
      exact Or.inl ⟨h1, h.symm⟩
    · rintro (⟨_, ht⟩ | ⟨h2, _⟩ | ⟨h3, _⟩)
      · rw [ht]
      · exact absurd (h1.symm.trans h2) h12
      · exact absurd (h1.symm.trans h3) h13
  · rw [if_neg h1]
    by_cases h2 : ToUpper value = TxStatusFailed
    · rw [if_pos h2]
      constructor
      · intro h
        injection h with h
        exact Or.inr (Or.inl ⟨h2, h.symm⟩)
      · rintro (⟨h1', _⟩ | ⟨_, ht⟩ | ⟨h3, _⟩)
        · exact absurd h1' h1
        · rw [ht]
        · exact absurd (h2.symm.trans h3) h23
    · rw [if_neg h2]
      by_cases h3 : ToUpper value = TxStatusPending
      · rw [if_pos h3]
        constructor
        · intro h
          injection h with h
          exact Or.inr (Or.inr ⟨h3, h.symm⟩)
        · rintro (⟨h1', _⟩ | ⟨h2', _⟩ | ⟨_, ht⟩)
          · exact absurd h1' h1
          · exact absurd h2' h2
          · rw [ht]
      · rw [if_neg h3]
        constructor
        · intro h; cases h
        · rintro (⟨h1', _⟩ | ⟨h2', _⟩ | ⟨h3', _⟩)
          · exact absurd h1' h1
          · exact absurd h2' h2
          · exact absurd h3' h3

/-- `parseRecord` on six fields returns `tx` exactly when the trimmed fields 0
and 3 parse to its timestamp and amount, the trimmed fields 2 and 4 are case
variants of the constants that are its type and status, and the trimmed fields
1 and 5 are its counterparty and description. -/
theorem parseRecord_six_iff (f0 f1 f2 f3 f4 f5 : String) (tx : Transaction) :
    parseRecord [f0, f1, f2, f3, f4, f5] = Except.ok tx ↔
      ParseInt (TrimSpace f0) = Except.ok tx.Timestamp ∧
      parseTxType (TrimSpace f2) = Except.ok tx.Type_ ∧
      ParseInt (TrimSpace f3) = Except.ok tx.Amount ∧
      parseTxStatus (TrimSpace f4) = Except.ok tx.Status ∧
      tx.Counterparty = TrimSpace f1 ∧ tx.Description = TrimSpace f5 := by
  unfold parseRecord
  simp only [List.map_cons, List.map_nil]
  cases h0 : ParseInt (TrimSpace f0) with
  | error e => simp
  | ok ts =>
    cases h2 : parseTxType (TrimSpace f2) with
    | error e => simp
    | ok ty =>
      cases h3 : ParseInt (TrimSpace f3) with
      | error e => simp
      | ok am =>
        cases h4 : parseTxStatus (TrimSpace f4) with
        | error e => simp
        | ok st =>
          simp only [Except.ok.injEq]
          constructor
          · intro h
            subst h
            exact ⟨rfl, rfl, rfl, rfl, rfl, rfl⟩
          · intro ⟨h1, h2', h3', h4', h5, h6⟩
            cases tx
            simp_all

/-- A record that does not have exactly six fields is rejected. -/
theorem parseRecord_not_six (record : List String) (h : record.length ≠ 6) :
    ∃ e, parseRecord record = Except.error e := by
  rcases record with _ | ⟨a, _ | ⟨b, _ | ⟨c, _ | ⟨d, _ | ⟨e, _ | ⟨f, _ | ⟨g, r⟩⟩⟩⟩⟩⟩⟩
  all_goals first
    | exact absurd rfl h
    | exact ⟨_, rfl⟩

/-- C30: `parseRecord` succeeds on a record exactly when the record has six
fields and, after trimming each field, fields 0 and 3 are accepted by
`ParseInt` (base 10, 64 bits), field 2 equals `CREDIT` or `DEBIT` ignoring case
and field 4 equals `SUCCESS`, `FAILED` or `PENDING` ignoring case.  On success
the transaction holds the two parsed integers (both in the `int64` range), the
canonical upper-case Type and Status constant that the field matched, and the
trimmed fields 1 and 5 as Counterparty and Description. -/
theorem parseRecord_succeeds_iff (record : List String) :
    ((∃ tx, parseRecord record = Except.ok tx) ↔
      ∃ f0 f1 f2 f3 f4 f5 : String, record = [f0, f1, f2, f3, f4, f5] ∧
        (∃ ts, ParseInt (TrimSpace f0) = Except.ok ts) ∧
        (∃ am, ParseInt (TrimSpace f3) = Except.ok am) ∧
        (equalsIgnoringCase (TrimSpace f2) TxTypeCredit = true ∨
          equalsIgnoringCase (TrimSpace f2) TxTypeDebit = true) ∧
        (equalsIgnoringCase (TrimSpace f4) TxStatusSuccess = true ∨
          equalsIgnoringCase (TrimSpace f4) TxStatusFailed = true ∨
          equalsIgnoringCase (TrimSpace f4) TxStatusPending = true)) ∧
    (∀ (f0 f1 f2 f3 f4 f5 : String) (tx : Transaction),
      parseRecord [f0, f1, f2, f3, f4, f5] = Except.ok tx →
        ParseInt (TrimSpace f0) = Except.ok tx.Timestamp ∧ inInt64 tx.Timestamp ∧
        ParseInt (TrimSpace f3) = Except.ok tx.Amount ∧ inInt64 tx.Amount ∧
        ((equalsIgnoringCase (TrimSpace f2) TxTypeCredit = true ∧ tx.Type_ = TxTypeCredit) ∨
          (equalsIgnoringCase (TrimSpace f2) TxTypeDebit = true ∧ tx.Type_ = TxTypeDebit)) ∧
        ((equalsIgnoringCase (TrimSpace f4) TxStatusSuccess = true ∧
            tx.Status = TxStatusSuccess) ∨
          (equalsIgnoringCase (TrimSpace f4) TxStatusFailed = true ∧
            tx.Status = TxStatusFailed) ∨
          (equalsIgnoringCase (TrimSpace f4) TxStatusPending = true ∧
            tx.Status = TxStatusPending)) ∧
        tx.Counterparty = TrimSpace f1 ∧ tx.Description = TrimSpace f5) := by
  refine ⟨⟨?_, ?_⟩, ?_⟩
  · rintro ⟨tx, htx⟩
    by_cases hlen : record.length = 6
    · rcases record with _ | ⟨f0, _ | ⟨f1, _ | ⟨f2, _ | ⟨f3, _ | ⟨f4, _ | ⟨f5, _ | ⟨g, r⟩⟩⟩⟩⟩⟩⟩
      all_goals try (simp at hlen; done)
      obtain ⟨h0, h2, h3, h4, _, _⟩ := (parseRecord_six_iff f0 f1 f2 f3 f4 f5 tx).mp htx
      refine ⟨f0, f1, f2, f3, f4, f5, rfl, ⟨_, h0⟩, ⟨_, h3⟩, ?_, ?_⟩
      · rcases (parseTxType_iff _ _).mp h2 with ⟨h, _⟩ | ⟨h, _⟩
        · exact Or.inl h
        · exact Or.inr h
      · rcases (parseTxStatus_iff _ _).mp h4 with ⟨h, _⟩ | ⟨h, _⟩ | ⟨h, _⟩
        · exact Or.inl h
        · exact Or.inr (Or.inl h)
        · exact Or.inr (Or.inr h)
    · obtain ⟨e, he⟩ := parseRecord_not_six record hlen
      rw [he] at htx
      cases htx
  · rintro ⟨f0, f1, f2, f3, f4, f5, hrec, ⟨ts, h0⟩, ⟨am, h3⟩, h2, h4⟩
    subst hrec
    have h2' : ∃ t, parseTxType (TrimSpace f2) = Except.ok t := by
      rcases h2 with h | h
      · exact ⟨_, (parseTxType_iff _ _).mpr (Or.inl ⟨h, rfl⟩)⟩
      · exact ⟨_, (parseTxType_iff _ _).mpr (Or.inr ⟨h, rfl⟩)⟩
    have h4' : ∃ t, parseTxStatus (TrimSpace f4) = Except.ok t := by
      rcases h4 with h | h | h
      · exact ⟨_, (parseTxStatus_iff _ _).mpr (Or.inl ⟨h, rfl⟩)⟩
      · exact ⟨_, (parseTxStatus_iff _ _).mpr (Or.inr (Or.inl ⟨h, rfl⟩))⟩
      · exact ⟨_, (parseTxStatus_iff _ _).mpr (Or.inr (Or.inr ⟨h, rfl⟩))⟩
    obtain ⟨ty, hty⟩ := h2'
    obtain ⟨st, hst⟩ := h4'
    exact ⟨{ Timestamp := ts, Counterparty := TrimSpace f1, Type_ := ty, Amount := am,
             Status := st, Description := TrimSpace f5 },
      (parseRecord_six_iff f0 f1 f2 f3 f4 f5 _).mpr ⟨h0, hty, h3, hst, rfl, rfl⟩⟩
  · intro f0 f1 f2 f3 f4 f5 tx htx
    obtain ⟨h0, h2, h3, h4, h5, h6⟩ := (parseRecord_six_iff f0 f1 f2 f3 f4 f5 tx).mp htx
    exact ⟨h0, ParseInt_inRange _ _ h0, h3, ParseInt_inRange _ _ h3,
      (parseTxType_iff _ _).mp h2, (parseTxStatus_iff _ _).mp h4, h5, h6⟩

/-! ### The bus -/

theorem Bus.apply_closed (b : Bus) (op : BusOp) (h : b.closed = true) :
    (b.apply op).closed = true := by
  cases op with
  | publish ctxErr pick event => simp [Bus.apply, Bus.Publish, h]
  | close => simp [Bus.apply, Bus.Close, h]
  | receive =>
    unfold Bus.apply Bus.Receive
    cases hch : b.ch with
    | nil => simpa using h
    | cons e rest => simpa using h

theorem Bus.foldl_apply_closed (ops : List BusOp) (b : Bus) (h : b.closed = true) :
    (ops.foldl Bus.apply b).closed = true := by
  induction ops generalizing b with
  | nil => exact h
  | cons op ops ih => exact ih _ (Bus.apply_closed b op h)

theorem Bus.Close_closed (b : Bus) : b.Close.closed = true := by
  unfold Bus.Close
  by_cases h : b.closed = true
  · simp [h]
  · simp [h]

/-- C23: the bus as the pair (queue, closed).  `NewBus` gives an open, empty
bus of capacity max(requested, 1).  After `Close`, whatever operations follow,
every `Publish` returns `ErrBusClosed` and leaves the bus as it is; a second
`Close` changes nothing; `Close` leaves the queue, its order and what the next
receive yields as they were.  A `Publish` that returns, returns nil if and only
if the event was appended at the end of the queue, it leaves the bus unchanged
when it returns an error, and it never exceeds the capacity; while neither the
queue has room nor the context is done the call has not returned. -/
theorem Bus_publish_close_contract :
    (∀ n : Int, (NewBus n).chCap = max n 1 ∧ (NewBus n).ch = [] ∧ (NewBus n).closed = false) ∧
    (∀ (b : Bus) (ops : List BusOp) (ctxErr : Option GoError) (pick : Bool)
        (event : FailedTxEvent),
      (ops.foldl Bus.apply b.Close).Publish ctxErr pick event =
        some (ops.foldl Bus.apply b.Close, some GoError.ErrBusClosed)) ∧
    (∀ b : Bus, b.Close.Close = b.Close) ∧
    (∀ b : Bus, b.Close.ch = b.ch ∧ b.Close.chCap = b.chCap ∧
      (b.Close.Receive).map Prod.fst = (b.Receive).map Prod.fst) ∧
    (∀ (b b1 : Bus) (ctxErr r : Option GoError) (pick : Bool) (event : FailedTxEvent),
      b.Publish ctxErr pick event = some (b1, r) →
        (r = none ↔ b1.ch = b.ch ++ [event]) ∧
        (r ≠ none → b1 = b) ∧
        (r = none → b1.closed = false ∧ b1.chCap = b.chCap ∧ (b1.ch.length : Int) ≤ b.chCap)) ∧
    (∀ (b : Bus) (pick : Bool) (event : FailedTxEvent),
      b.closed = false → b.chCap ≤ (b.ch.length : Int) →
        b.Publish none pick event = none) := by
  refine ⟨?_, ?_, ?_, ?_, ?_, ?_⟩
  · intro n
    unfold NewBus
    refine ⟨?_, rfl, rfl⟩
    by_cases h : n < 1
    · simp only [h, if_true]
      omega
    · simp only [h, if_false]
      omega
  · intro b ops ctxErr pick event
    have h := Bus.foldl_apply_closed ops b.Close (Bus.Close_closed b)
    simp [Bus.Publish, h]
  · intro b
    unfold Bus.Close
    by_cases h : b.closed = true
    · simp [h]
    · simp [h]
  · intro b
    unfold Bus.Close
    by_cases h : b.closed = true
    · simp [h]
    · simp only [h]
      refine ⟨rfl, rfl, ?_⟩
      unfold Bus.Receive
      cases b.ch <;> simp
  · intro b b1 ctxErr r pick event h
    have hne : b.ch ++ [event] ≠ b.ch := by
      intro heq
      have := congrArg List.length heq
      simp at this
    unfold Bus.Publish at h
    by_cases hc : b.closed = true
    · simp only [hc, if_true, Option.some.injEq, Prod.mk.injEq] at h
      obtain ⟨h1, h2⟩ := h
      subst h1 h2
      refine ⟨⟨fun h => (nomatch h), fun h => absurd h.symm hne⟩, fun _ => rfl,
        fun h => (nomatch h)⟩
    · have hc0 : b.closed = false := by simpa using hc
      simp only [hc0, Bool.false_eq_true, if_false] at h
      by_cases hroom : (b.ch.length : Int) < b.chCap
      · have hd : decide ((b.ch.length : Int) < b.chCap) = true := by simpa using hroom
        rw [hd] at h
        cases ctxErr with
        | none =>
          simp only [Option.some.injEq, Prod.mk.injEq] at h
          obtain ⟨h1, h2⟩ := h
          subst h1 h2
          refine ⟨⟨fun _ => rfl, fun _ => rfl⟩, fun h => (h rfl).elim, fun _ => ⟨rfl, rfl, ?_⟩⟩
          simp only [List.length_append, List.length_singleton, Nat.cast_add, Nat.cast_one]
          omega
        | some e =>
          cases pick with
          | true =>
            simp only [if_true, Option.some.injEq, Prod.mk.injEq] at h
            obtain ⟨h1, h2⟩ := h
            subst h1 h2
            refine ⟨⟨fun _ => rfl, fun _ => rfl⟩, fun h => (h rfl).elim,
              fun _ => ⟨rfl, rfl, ?_⟩⟩
            simp only [List.length_append, List.length_singleton, Nat.cast_add, Nat.cast_one]
            omega
          | false =>
            simp only [Bool.false_eq_true, if_false, Option.some.injEq, Prod.mk.injEq] at h
            obtain ⟨h1, h2⟩ := h
            subst h1 h2
            refine ⟨⟨fun h => (nomatch h), fun h => absurd h.symm hne⟩, fun _ => rfl,
              fun h => (nomatch h)⟩
      · have hd : decide ((b.ch.length : Int) < b.chCap) = false := by simpa using hroom
        rw [hd] at h
        cases ctxErr with
        | none => cases h
        | some e =>
          simp only [Option.some.injEq, Prod.mk.injEq] at h
          obtain ⟨h1, h2⟩ := h
          subst h1 h2
          refine ⟨⟨fun h => (nomatch h), fun h => absurd h.symm hne⟩, fun _ => rfl,
            fun h => (nomatch h)⟩
  · intro b pick event hc hfull
    have hd : decide ((b.ch.length : Int) < b.chCap) = false := by
      simp only [decide_eq_false_iff_not, not_lt]
      exact hfull
    simp [Bus.Publish, hc, hd]

/-! ### The issue filter of the endpoint -/

/-- `parseStatus` succeeds exactly on the case variants of `FAILED` and
`PENDING`, and its only error is the invalid-input error. -/
theorem parseStatus_cases (value : String) :
    (equalsIgnoringCase value TxStatusFailed = true ∧
      parseStatus value = Except.ok TxStatusFailed) ∨
    (equalsIgnoringCase value TxStatusPending = true ∧
      parseStatus value = Except.ok TxStatusPending) ∨
    (equalsIgnoringCase value TxStatusFailed = false ∧
      equalsIgnoringCase value TxStatusPending = false ∧
      parseStatus value =
        Except.error (NewInvalidInput (GoError.errorString "invalid status filter"))) := by
  have e1 := equalsIgnoringCase_const value TxStatusFailed (by decide)
  have e2 := equalsIgnoringCase_const value TxStatusPending (by decide)
  unfold parseStatus
  by_cases h1 : ToUpper value = TxStatusFailed
  · exact Or.inl ⟨e1.mpr h1, by rw [if_pos h1]⟩
  · by_cases h2 : ToUpper value = TxStatusPending
    · exact Or.inr (Or.inl ⟨e2.mpr h2, by rw [if_neg h1, if_pos h2]⟩)
    · refine Or.inr (Or.inr ⟨?_, ?_, by rw [if_neg h1, if_neg h2]⟩)
      · cases h : equalsIgnoringCase value TxStatusFailed
        · rfl
        · exact absurd (e1.mp h) h1
      · cases h : equalsIgnoringCase value TxStatusPending
        · rfl
        · exact absurd (e2.mp h) h2

/-- The statuses loop only appends `Failed` and `Pending`, and its only error
is the invalid-input error. -/
theorem parseStatuses_spec (items : List String) (acc : List TxStatus) :
    (∃ added : List TxStatus, (parseStatuses items acc).1 = acc ++ added ∧
      ∀ s ∈ added, s = TxStatusFailed ∨ s = TxStatusPending) ∧
    (∀ e, (parseStatuses items acc).2 = some e →
      e = NewInvalidInput (GoError.errorString "invalid status filter")) := by
  induction items generalizing acc with
  | nil =>
    exact ⟨⟨[], by simp [parseStatuses], by simp⟩, by simp [parseStatuses]⟩
  | cons v vs ih =>
    unfold parseStatuses
    by_cases hb : TrimSpace v = ""
    · simp only [hb, if_true]
      exact ih acc
    · simp only [hb, if_false]
      rcases parseStatus_cases (TrimSpace v) with ⟨_, h⟩ | ⟨_, h⟩ | ⟨_, _, h⟩
      · rw [h]
        obtain ⟨⟨added, h1, h2⟩, h3⟩ := ih (acc ++ [TxStatusFailed])
        refine ⟨⟨TxStatusFailed :: added, by simpa using h1, ?_⟩, h3⟩
        intro s hs
        rcases List.mem_cons.mp hs with h | h
        · exact Or.inl h
        · exact h2 s h
      · rw [h]
        obtain ⟨⟨added, h1, h2⟩, h3⟩ := ih (acc ++ [TxStatusPending])
        refine ⟨⟨TxStatusPending :: added, by simpa using h1, ?_⟩, h3⟩
        intro s hs
        rcases List.mem_cons.mp hs with h | h
        · exact Or.inr h
        · exact h2 s h
      · rw [h]
        refine ⟨⟨[], by simp, by simp⟩, ?_⟩
        intro e he
        simp only [Option.some.injEq] at he
        exact he.symm

/-- Blank items are skipped by the statuses loop. -/
theorem parseStatuses_blank (items : List String) (acc : List TxStatus)
    (h : ∀ v ∈ items, TrimSpace v = "") : parseStatuses items acc = (acc, none) := by
  induction items with
  | nil => rfl
  | cons v vs ih =>
    unfold parseStatuses
    simp only [h v (List.mem_cons_self _ _), if_true]
    exact ih (fun w hw => h w (List.mem_cons_of_mem _ hw))

/-- An item that is neither blank nor a case variant of `FAILED` or `PENDING`
makes the statuses loop return an error. -/
theorem parseStatuses_bad (items : List String) (acc : List TxStatus) (v : String)
    (hv : v ∈ items) (hb : TrimSpace v ≠ "")
    (h1 : equalsIgnoringCase (TrimSpace v) TxStatusFailed = false)
    (h2 : equalsIgnoringCase (TrimSpace v) TxStatusPending = false) :
    ∃ e, (parseStatuses items acc).2 = some e := by
  induction items generalizing acc with
  | nil => cases hv
  | cons w ws ih =>
    unfold parseStatuses
    by_cases hw : TrimSpace w = ""
    · simp only [hw, if_true]
      rcases List.mem_cons.mp hv with h | h
      · rw [h] at hb
        exact absurd hw hb
      · exact ih acc h
    · simp only [hw, if_false]
      rcases parseStatus_cases (TrimSpace w) with ⟨c, h⟩ | ⟨c, h⟩ | ⟨_, _, h⟩
      · rw [h]
        rcases List.mem_cons.mp hv with hvw | hvw
        · rw [hvw, c] at h1
          cases h1
        · exact ih _ hvw
      · rw [h]
        rcases List.mem_cons.mp hv with hvw | hvw
        · rw [hvw, c] at h2
          cases h2
        · exact ih _ hvw
      · rw [h]
        exact ⟨_, rfl⟩

/-- The only piece of the empty string is the empty string. -/
theorem Split_empty : Split "" = [""] := by decide

/-- A filter whose statuses are all `Failed` or `Pending`, and not empty,
matches no `Success` transaction. -/
theorem Matches_success_false (f : IssueFilter) (tx : Transaction)
    (hne : f.Statuses ≠ []) (hall : ∀ s ∈ f.Statuses, s = TxStatusFailed ∨ s = TxStatusPending)
    (htx : tx.Status = TxStatusSuccess) : f.Matches tx = false := by
  have hlen : f.Statuses.length > 0 := List.length_pos.mpr hne
  have hnot : f.Statuses.contains tx.Status = false := by
    cases hc : f.Statuses.contains tx.Status
    · rfl
    · have hmem : tx.Status ∈ f.Statuses := by simpa using hc
      rw [htx] at hmem
      rcases hall _ hmem with h | h
      · exact absurd h (by decide)
      · exact absurd h (by decide)
  unfold IssueFilter.Matches
  rw [hnot]
  simp [hlen]

/-- C26: whenever `parseIssueFilter` succeeds, the filter's Statuses is a
non-empty list of `Failed` and `Pending` only, and the filter matches no
`Success` transaction; when moreover every comma-separated item of `statusRaw`
is blank (in particular when `statusRaw` is empty), Statuses is exactly
`[Failed, Pending]`.  An item of `statusRaw` that is not blank and is not
`FAILED` or `PENDING` ignoring case makes `parseIssueFilter` fail with the
Validation error of code `InvalidInput`; the item `SUCCESS` is an instance. -/
theorem parseIssueFilter_statuses (statusRaw typeRaw : String) :
    ((parseIssueFilter statusRaw typeRaw).2 = none →
      (parseIssueFilter statusRaw typeRaw).1.Statuses ≠ [] ∧
      (∀ s ∈ (parseIssueFilter statusRaw typeRaw).1.Statuses,
        s = TxStatusFailed ∨ s = TxStatusPending) ∧
      (∀ tx : Transaction, tx.Status = TxStatusSuccess →
        (parseIssueFilter statusRaw typeRaw).1.Matches tx = false) ∧
      ((statusRaw = "" ∨ ∀ v ∈ Split statusRaw, TrimSpace v = "") →
        (parseIssueFilter statusRaw typeRaw).1.Statuses =
          [TxStatusFailed, TxStatusPending])) ∧
    (∀ v ∈ Split statusRaw, TrimSpace v ≠ "" →
      equalsIgnoringCase (TrimSpace v) TxStatusFailed = false →
      equalsIgnoringCase (TrimSpace v) TxStatusPending = false →
        (parseIssueFilter statusRaw typeRaw).2 =
          some (pkgerrorNew (some (GoError.errorString "invalid status filter"))
            "validation error" ErrType.TypeValidation CodeInvalidInput)) ∧
    (∀ v ∈ Split statusRaw, equalsIgnoringCase (TrimSpace v) TxStatusSuccess = true →
        (parseIssueFilter statusRaw typeRaw).2 =
          some (pkgerrorNew (some (GoError.errorString "invalid status filter"))
            "validation error" ErrType.TypeValidation CodeInvalidInput)) := by
  -- the statuses collected by the first loop
  have hfirst : ∃ sts err,
      (if statusRaw ≠ "" then parseStatuses (Split statusRaw) [] else ([], none)) = (sts, err) ∧
      (∀ s ∈ sts, s = TxStatusFailed ∨ s = TxStatusPending) ∧
      (∀ e, err = some e →
        e = NewInvalidInput (GoError.errorString "invalid status filter")) ∧
      ((statusRaw = "" ∨ ∀ v ∈ Split statusRaw, TrimSpace v = "") → sts = [] ∧ err = none) ∧
      (∀ v ∈ Split statusRaw, TrimSpace v ≠ "" →
        equalsIgnoringCase (TrimSpace v) TxStatusFailed = false →
        equalsIgnoringCase (TrimSpace v) TxStatusPending = false → ∃ e, err = some e) := by
    by_cases hraw : statusRaw = ""
    · refine ⟨[], none, by simp [hraw], by simp, by simp, fun _ => ⟨rfl, rfl⟩, ?_⟩
      intro v hv hb
      rw [hraw, Split_empty] at hv
      rw [List.mem_singleton.mp hv] at hb
      exact absurd (by decide) hb
    · obtain ⟨⟨added, h1, h2⟩, h3⟩ := parseStatuses_spec (Split statusRaw) []
      refine ⟨(parseStatuses (Split statusRaw) []).1, (parseStatuses (Split statusRaw) []).2,
        by simp [hraw], ?_, h3, ?_, ?_⟩
      · rw [h1]
        simpa using h2
      · rintro (h | h)
        · exact absurd h hraw
        · rw [parseStatuses_blank _ _ h]
          exact ⟨rfl, rfl⟩
      · intro v hv hb hf hp
        exact parseStatuses_bad _ _ v hv hb hf hp
  obtain ⟨sts, err, hrun, hall, herr, hblank, hbad⟩ := hfirst
  have hfail : ∀ v ∈ Split statusRaw, TrimSpace v ≠ "" →
      equalsIgnoringCase (TrimSpace v) TxStatusFailed = false →
      equalsIgnoringCase (TrimSpace v) TxStatusPending = false →
        (parseIssueFilter statusRaw typeRaw).2 =
          some (pkgerrorNew (some (GoError.errorString "invalid status filter"))
            "validation error" ErrType.TypeValidation CodeInvalidInput) := by
    intro v hv hb hf hp
    obtain ⟨e, he⟩ := hbad v hv hb hf hp
    have hE := herr e he
    unfold parseIssueFilter
    simp only [hrun, he, hE]
    rfl
  refine ⟨?_, hfail, ?_⟩
  · intro hok
    cases err with
    | some e =>
      unfold parseIssueFilter at hok
      simp only [hrun] at hok
      cases hok
    | none =>
      have hshape : ∃ tys, (parseIssueFilter statusRaw typeRaw).1 =
          { Statuses := if sts.length = 0 then [TxStatusFailed, TxStatusPending] else sts,
            Types := tys } := by
        unfold parseIssueFilter at hok ⊢
        simp only [hrun] at hok ⊢
        cases htys : (if typeRaw ≠ "" then parseTypes (Split typeRaw) [] else ([], none)) with
        | mk tys terr =>
          rw [htys] at hok
          cases terr with
          | some e => cases hok
          | none => exact ⟨tys, rfl⟩
      obtain ⟨tys, hshape⟩ := hshape
      have hne : (parseIssueFilter statusRaw typeRaw).1.Statuses ≠ [] := by
        rw [hshape]
        by_cases hl : sts.length = 0
        · simp [hl]
        · simp only [hl, if_false]
          intro h
          rw [h] at hl
          exact hl rfl
      have hmem : ∀ s ∈ (parseIssueFilter statusRaw typeRaw).1.Statuses,
          s = TxStatusFailed ∨ s = TxStatusPending := by
        rw [hshape]
        by_cases hl : sts.length = 0
        · simp only [hl, if_true]
          intro s hs
          simpa using hs
        · simp only [hl, if_false]
          exact hall
      refine ⟨hne, hmem, fun tx htx => Matches_success_false _ tx hne hmem htx, ?_⟩
      intro hb
      obtain ⟨h1, _⟩ := hblank hb
      rw [hshape, h1]
      rfl
  · intro v hv hs
    have hu : ToUpper (TrimSpace v) = TxStatusSuccess :=
      (equalsIgnoringCase_const _ TxStatusSuccess (by decide)).mp hs
    have hb : TrimSpace v ≠ "" := by
      intro h
      rw [h] at hu
      exact absurd hu (by decide)
    have hf : equalsIgnoringCase (TrimSpace v) TxStatusFailed = false := by
      cases h : equalsIgnoringCase (TrimSpace v) TxStatusFailed
      · rfl
      · have := (equalsIgnoringCase_const _ TxStatusFailed (by decide)).mp h
        rw [hu] at this
        exact absurd this (by decide)
    have hp : equalsIgnoringCase (TrimSpace v) TxStatusPending = false := by
      cases h : equalsIgnoringCase (TrimSpace v) TxStatusPending
      · rfl
      · have := (equalsIgnoringCase_const _ TxStatusPending (by decide)).mp h
        rw [hu] at this
        exact absurd this (by decide)
    exact hfail v hv hb hf hp

/-! ### The manager of goroutines -/

theorem GoError.beq_refl : ∀ e : GoError, GoError.beq e e = true
  | GoError.ErrNotFound => by simp [GoError.beq]
  | GoError.ErrBusClosed => by simp [GoError.beq]
  | GoError.errorString a => by simp [GoError.beq]
  | GoError.wrapError a x => by simp [GoError.beq, GoError.beq_refl x]
  | GoError.pkgError none m t c => by simp [GoError.beq]
  | GoError.pkgError (some x) m t c => by simp [GoError.beq, GoError.beq_refl x]

/-- `errors.Is(e, e)` holds. -/
theorem errorsIs_refl (e : GoError) : errorsIs e e = true := by
  cases e with
  | ErrNotFound => simp [errorsIs, GoError.beq_refl]
  | ErrBusClosed => simp [errorsIs, GoError.beq_refl]
  | errorString a => simp [errorsIs, GoError.beq_refl]
  | wrapError a x => simp [errorsIs, GoError.beq_refl]
  | pkgError o m t c =>
    cases o with
    | none => simp [errorsIs, GoError.beq_refl]
    | some x => simp [errorsIs, GoError.beq_refl]

/-- `errors.Join` of a slice without nil elements. -/
theorem errorsJoin_map_some (errs : List GoError) :
    errorsJoin (errs.map some) = if errs.isEmpty then none else some { errs := errs } := by
  have h : (errs.map some).filterMap id = errs := by
    induction errs with
    | nil => rfl
    | cons e es ih => simp [List.filterMap_cons, ih]
  unfold errorsJoin
  simp only [h]

/-- Removing element `i` of a list. -/
theorem eraseIdx_of_getElem? {α : Type} (l : List α) (i : Nat) (f : α) (h : l[i]? = some f) :
    (l.eraseIdx i).length + 1 = l.length ∧ l.Perm (f :: l.eraseIdx i) := by
  induction l generalizing i with
  | nil => simp at h
  | cons a l ih =>
    cases i with
    | zero =>
      simp only [List.getElem?_cons_zero, Option.some.injEq] at h
      subst h
      exact ⟨by simp, List.Perm.refl _⟩
    | succ i =>
      simp only [List.getElem?_cons_succ] at h
      obtain ⟨h1, h2⟩ := ih i h
      refine ⟨by simp only [List.eraseIdx_cons_succ, List.length_cons]; omega, ?_⟩
      simp only [List.eraseIdx_cons_succ]
      exact List.Perm.trans (List.Perm.cons a h2) (List.Perm.swap f a _)

theorem initManager_consistent (n : Int) : (initManager n).consistent := by
  unfold ManagerState.consistent initManager NewManager DefaultMaxGoroutine
  refine ⟨rfl, rfl, ?_, rfl, rfl⟩
  by_cases h : n < 1
  · simp [h]
  · simp only [h, if_false, List.length_nil, Nat.cast_zero]
    omega

/-- A call of `Go` that returns keeps the state consistent and the capacity. -/
theorem Go_consistent (s s1 : ManagerState) (ctxDone pick : Bool) (f : TaskOutcome)
    (hs : s.consistent) (h : s.Go ctxDone pick f = some s1) :
    s1.consistent ∧ s1.g.semaCap = s.g.semaCap ∧ s1.submitted = s.submitted ++ [f] := by
  obtain ⟨h1, h2, h3, h4, h5⟩ := hs
  have hadm : (s.g.sema : Int) < s.g.semaCap →
      ManagerState.consistent
        { s with
          g := { s.g with sema := s.g.sema + 1, wg := s.g.wg + 1 }
          goroutines := s.goroutines ++ [f]
          submitted := s.submitted ++ [f] } := by
    intro hlt
    refine ⟨?_, ?_, ?_, h4, h5⟩
    · simp only [List.length_append, List.length_singleton]
      omega
    · simp only [List.length_append, List.length_singleton, Nat.cast_add, Nat.cast_one]
      omega
    · simp only [List.length_append, List.length_singleton, Nat.cast_add, Nat.cast_one]
      omega
  have hdrop : ManagerState.consistent { s with submitted := s.submitted ++ [f] } :=
    ⟨h1, h2, h3, h4, h5⟩
  unfold ManagerState.Go at h
  by_cases hroom : (s.g.sema : Int) < s.g.semaCap
  · have hd : decide ((s.g.sema : Int) < s.g.semaCap) = true := by simpa using hroom
    rw [hd] at h
    cases ctxDone with
    | false =>
      simp only [Option.some.injEq] at h
      subst h
      exact ⟨hadm hroom, rfl, rfl⟩
    | true =>
      cases pick with
      | true =>
        simp only [if_true, Option.some.injEq] at h
        subst h
        exact ⟨hadm hroom, rfl, rfl⟩
      | false =>
        simp only [Bool.false_eq_true, if_false, Option.some.injEq] at h
        subst h
        exact ⟨hdrop, rfl, rfl⟩
  · have hd : decide ((s.g.sema : Int) < s.g.semaCap) = false := by simpa using hroom
    rw [hd] at h
    cases ctxDone with
    | false => cases h
    | true =>
      simp only [Option.some.injEq] at h
      subst h
      exact ⟨hdrop, rfl, rfl⟩

/-- What a goroutine that runs does to a consistent state. -/
theorem runGoroutine_spec (s : ManagerState) (i : Nat) (ctxDone : Bool) (f : TaskOutcome)
    (hs : s.consistent) (hf : s.goroutines[i]? = some f) :
    ∃ s1, s.runGoroutine i ctxDone = some s1 ∧ s1.consistent ∧
      s1.g.semaCap = s.g.semaCap ∧ s1.submitted = s.submitted ∧
      s1.goroutines = s.goroutines.eraseIdx i ∧
      s1.called = (if ctxDone then s.called else s.called ++ [f]) ∧
      s1.g.sema + 1 = s.g.sema ∧
      (ctxDone = true ∨ f.err = none → s1.g.errs = s.g.errs) := by
  obtain ⟨h1, h2, h3, h4, h5⟩ := hs
  obtain ⟨hlen, _⟩ := eraseIdx_of_getElem? s.goroutines i f hf
  have hsema : s.g.sema ≠ 0 := by omega
  unfold ManagerState.runGoroutine
  simp only [hf, hsema, if_false]
  refine ⟨_, rfl, ⟨?_, ?_, ?_, ?_, ?_⟩, rfl, rfl, rfl, rfl, ?_, ?_⟩
  · show s.g.sema - 1 = (s.goroutines.eraseIdx i).length
    omega
  · show s.g.wg - 1 = ((s.goroutines.eraseIdx i).length : Int)
    omega
  · show ((s.goroutines.eraseIdx i).length : Int) ≤ s.g.semaCap
    omega
  · show (s.crashed || (recover (if ctxDone = true then none else f.panic)).2.isSome ||
      decide (s.g.wg - 1 < 0)) = false
    have hwg : ¬ (s.g.wg - 1 < 0) := by omega
    simp [h4, recover, hwg]
  · show (if ctxDone = true then s.g.errs
        else match f.err with
          | some err => s.g.errs ++ [err]
          | none => s.g.errs) =
      (if ctxDone = true then s.called else s.called ++ [f]).filterMap TaskOutcome.err
    cases ctxDone with
    | true => simpa using h5
    | false =>
      simp only [Bool.false_eq_true, if_false, List.filterMap_append, ← h5]
      cases hfe : f.err with
      | none => simp [List.filterMap_cons, hfe]
      | some err => simp [List.filterMap_cons, hfe]
  · show s.g.sema - 1 + 1 = s.g.sema
    omega
  · intro hc
    show (if ctxDone = true then s.g.errs
        else match f.err with
          | some err => s.g.errs ++ [err]
          | none => s.g.errs) = s.g.errs
    rcases hc with hc | hc
    · simp [hc]
    · simp [hc]

/-- A goroutine that runs was one of those that had not finished. -/
theorem runGoroutine_some (s s1 : ManagerState) (i : Nat) (ctxDone : Bool)
    (h : s.runGoroutine i ctxDone = some s1) : ∃ f, s.goroutines[i]? = some f := by
  unfold ManagerState.runGoroutine at h
  cases hf : s.goroutines[i]? with
  | none =>
    rw [hf] at h
    cases h
  | some f => exact ⟨f, rfl⟩

/-- Every step keeps the state consistent and the capacity. -/
theorem step_consistent (s s1 : ManagerState) (st : ManagerStep) (hs : s.consistent)
    (h : s.step st = some s1) : s1.consistent ∧ s1.g.semaCap = s.g.semaCap := by
  cases st with
  | go ctxDone pick f =>
    obtain ⟨h1, h2, _⟩ := Go_consistent s s1 ctxDone pick f hs h
    exact ⟨h1, h2⟩
  | run i ctxDone =>
    obtain ⟨f, hf⟩ := runGoroutine_some s s1 i ctxDone h
    obtain ⟨s2, h2, h3, h4, _⟩ := runGoroutine_spec s i ctxDone f hs hf
    have h' : s.runGoroutine i ctxDone = some s1 := h
    rw [h2] at h'
    simp only [Option.some.injEq] at h'
    subst h'
    exact ⟨h3, h4⟩

/-- Every state that a run reaches is consistent and has the capacity of the
start. -/
theorem exec_consistent (steps : List ManagerStep) (s s1 : ManagerState) (hs : s.consistent)
    (h : s.exec steps = some s1) : s1.consistent ∧ s1.g.semaCap = s.g.semaCap := by
  induction steps generalizing s with
  | nil =>
    simp only [ManagerState.exec, Option.some.injEq] at h
    subst h
    exact ⟨hs, rfl⟩
  | cons st rest ih =>
    unfold ManagerState.exec at h
    cases hst : s.step st with
    | none =>
      rw [hst] at h
      cases h
    | some s2 =>
      rw [hst] at h
      obtain ⟨h1, h2⟩ := step_consistent s s2 st hs hst
      obtain ⟨h3, h4⟩ := ih s2 h1 h
      exact ⟨h3, h4.trans h2⟩

/-- The functions passed to `Go` during a run. -/
theorem exec_submitted (steps : List ManagerStep) (s s1 : ManagerState) (hs : s.consistent)
    (h : s.exec steps = some s1) : s1.submitted = s.submitted ++ tasksOf steps := by
  induction steps generalizing s with
  | nil =>
    simp only [ManagerState.exec, Option.some.injEq] at h
    subst h
    simp [tasksOf]
  | cons st rest ih =>
    unfold ManagerState.exec at h
    cases hst : s.step st with
    | none =>
      rw [hst] at h
      cases h
    | some s2 =>
      rw [hst] at h
      have hc := (step_consistent s s2 st hs hst).1
      rw [ih s2 hc h]
      cases st with
      | go ctxDone pick f =>
        obtain ⟨_, _, h3⟩ := Go_consistent s s2 ctxDone pick f hs hst
        rw [h3]
        simp [tasksOf]
      | run i ctxDone =>
        obtain ⟨f, hf⟩ := runGoroutine_some s s2 i ctxDone hst
        obtain ⟨s3, h2, _, _, h5, _⟩ := runGoroutine_spec s i ctxDone f hs hf
        have h' : s.runGoroutine i ctxDone = some s2 := hst
        rw [h2] at h'
        simp only [Option.some.injEq] at h'
        subst h'
        rw [h5]
        simp [tasksOf]

/-- Under a context that is not cancelled, the functions passed to `Go` are
those that have been called and those of the goroutines that have not
finished. -/
theorem step_uncancelled_perm (s s1 : ManagerState) (st : ManagerStep) (hs : s.consistent)
    (hu : st.uncancelled = true) (hp : (s.called ++ s.goroutines).Perm s.submitted)
    (h : s.step st = some s1) : (s1.called ++ s1.goroutines).Perm s1.submitted := by
  cases st with
  | go ctxDone pick f =>
    have hd : ctxDone = false := by simpa [ManagerStep.uncancelled] using hu
    subst hd
    have h' : s.Go false pick f = some s1 := h
    unfold ManagerState.Go at h'
    by_cases hroom : (s.g.sema : Int) < s.g.semaCap
    · have hdec : decide ((s.g.sema : Int) < s.g.semaCap) = true := by simpa using hroom
      rw [hdec] at h'
      simp only [Option.some.injEq] at h'
      subst h'
      show (s.called ++ (s.goroutines ++ [f])).Perm (s.submitted ++ [f])
      rw [← List.append_assoc]
      exact List.Perm.append_right _ hp
    · have hdec : decide ((s.g.sema : Int) < s.g.semaCap) = false := by simpa using hroom
      rw [hdec] at h'
      cases h'
  | run i ctxDone =>
    have hd : ctxDone = false := by simpa [ManagerStep.uncancelled] using hu
    subst hd
    obtain ⟨f, hf⟩ := runGoroutine_some s s1 i false h
    obtain ⟨s2, h2, _, _, h5, h6, h7, _⟩ := runGoroutine_spec s i false f hs hf
    have h' : s.runGoroutine i false = some s1 := h
    rw [h2] at h'
    simp only [Option.some.injEq] at h'
    subst h'
    rw [h5, h6, h7]
    simp only [Bool.false_eq_true, if_false]
    obtain ⟨_, hperm⟩ := eraseIdx_of_getElem? s.goroutines i f hf
    refine List.Perm.trans ?_ hp
    rw [List.append_assoc]
    exact List.Perm.append_left _ hperm.symm

theorem exec_uncancelled_perm (steps : List ManagerStep) (s s1 : ManagerState)
    (hs : s.consistent) (hu : ∀ st ∈ steps, st.uncancelled = true)
    (hp : (s.called ++ s.goroutines).Perm s.submitted) (h : s.exec steps = some s1) :
    (s1.called ++ s1.goroutines).Perm s1.submitted := by
  induction steps generalizing s with
  | nil =>
    simp only [ManagerState.exec, Option.some.injEq] at h
    subst h
    exact hp
  | cons st rest ih =>
    unfold ManagerState.exec at h
    cases hst : s.step st with
    | none =>
      rw [hst] at h
      cases h
    | some s2 =>
      rw [hst] at h
      exact ih s2 (step_consistent s s2 st hs hst).1
        (fun x hx => hu x (List.mem_cons_of_mem _ hx))
        (step_uncancelled_perm s s2 st hs (hu st (List.mem_cons_self _ _)) hp hst) h

/-- The goroutines that have not finished can all run, one after the other. -/
theorem exec_drain (k : Nat) (s : ManagerState) (hs : s.consistent)
    (hk : s.goroutines.length = k) :
    ∃ s1, s.exec (List.replicate k (ManagerStep.run 0 false)) = some s1 ∧
      s1.goroutines = [] ∧ s1.submitted = s.submitted := by
  induction k generalizing s with
  | zero =>
    exact ⟨s, rfl, List.length_eq_zero.mp hk, rfl⟩
  | succ k ih =>
    cases hg : s.goroutines with
    | nil =>
      rw [hg] at hk
      cases hk
    | cons f rest =>
      have hf : s.goroutines[0]? = some f := by rw [hg]; simp
      obtain ⟨s2, h2, h3, _, h5, h6, _⟩ := runGoroutine_spec s 0 false f hs hf
      have hlen : s2.goroutines.length = k := by
        rw [h6, hg]
        rw [hg] at hk
        simpa using hk
      obtain ⟨s3, h7, h8, h9⟩ := ih s2 h3 hlen
      refine ⟨s3, ?_, h8, h9.trans h5⟩
      simp only [List.replicate_succ, ManagerState.exec, ManagerState.step, h2]
      exact h7

theorem TaskOutcome.err_eq_some (f : TaskOutcome) (x : GoError) :
    f.err = some x ↔ f = TaskOutcome.returns (some x) := by
  cases f with
  | returns e =>
    simp only [TaskOutcome.err, TaskOutcome.returns.injEq]
  | panics v =>
    simp only [TaskOutcome.err]
    constructor
    · intro h
      cases h
    · intro h
      cases h

theorem sampleSchedule_exec : (initManager 2).exec sampleSchedule = some sampleFinalState := by
  simp [sampleSchedule, sampleFinalState, initManager, NewManager, DefaultMaxGoroutine,
    ManagerState.exec, ManagerState.step, ManagerState.Go, ManagerState.runGoroutine, recover,
    taskOne, taskTwo, taskBoom, TaskOutcome.err, TaskOutcome.panic]

theorem cancelledSchedule_exec :
    (initManager 1).exec cancelledSchedule = some cancelledFinalState := by
  simp [cancelledSchedule, cancelledFinalState, initManager, NewManager, DefaultMaxGoroutine,
    ManagerState.exec, ManagerState.step, ManagerState.Go, ManagerState.runGoroutine, recover,
    taskNil, TaskOutcome.err, TaskOutcome.panic]

/-- C24: a manager built by `NewManager`, any run of it under a context that
is never cancelled, `s` the state reached.  The goroutines that have not
finished can all finish, so that `Wait` returns.  Once they have finished,
`Wait` returns `errors.Join` of the collected errors: nil if and only if no
submitted function returned a non-nil error, and otherwise a joined error `e`
with `errors.Is(e, x)` for every error `x` that a submitted function returned;
every slot of the semaphore is free again.  No panic has left a goroutine, and a
goroutine whose function panics finishes, adds no error and frees its slot. -/
theorem Manager_Wait_joins_errors (n : Int) (steps : List ManagerStep) (s : ManagerState)
    (hrun : (initManager n).exec steps = some s)
    (hctx : ∀ st ∈ steps, st.uncancelled = true) :
    (∃ s1, s.exec (List.replicate s.goroutines.length (ManagerStep.run 0 false)) = some s1 ∧
      s1.goroutines = [] ∧ s1.submitted = tasksOf steps) ∧
    (s.goroutines = [] →
      ∃ r, s.Wait = some r ∧
        (r = none ↔ ∀ x, TaskOutcome.returns (some x) ∉ tasksOf steps) ∧
        (∀ x, TaskOutcome.returns (some x) ∈ tasksOf steps →
          ∃ e, r = some e ∧ e.Is x = true) ∧
        s.g.sema = 0) ∧
    s.crashed = false ∧
    (∀ (i : Nat) (v : String), s.goroutines[i]? = some (TaskOutcome.panics v) →
      ∃ s1, s.runGoroutine i false = some s1 ∧ s1.g.errs = s.g.errs ∧
        s1.g.sema + 1 = s.g.sema ∧ s1.crashed = false) := by
  have hc : s.consistent := (exec_consistent steps _ s (initManager_consistent n) hrun).1
  have hsub : s.submitted = tasksOf steps := by
    rw [exec_submitted steps _ s (initManager_consistent n) hrun]
    simp [initManager]
  have hperm : (s.called ++ s.goroutines).Perm s.submitted :=
    exec_uncancelled_perm steps _ s (initManager_consistent n) hctx (List.Perm.refl _) hrun
  refine ⟨?_, ?_, hc.2.2.2.1, ?_⟩
  · obtain ⟨s1, h1, h2, h3⟩ := exec_drain s.goroutines.length s hc rfl
    exact ⟨s1, h1, h2, h3.trans hsub⟩
  · intro hg
    obtain ⟨h1, h2, _, _, h5⟩ := hc
    rw [hg] at h1 h2
    simp only [List.length_nil, Nat.cast_zero] at h1 h2
    rw [hg, List.append_nil, hsub] at hperm
    have hmem : ∀ x, x ∈ s.g.errs ↔ TaskOutcome.returns (some x) ∈ tasksOf steps := by
      intro x
      rw [h5, List.mem_filterMap]
      constructor
      · rintro ⟨f, hf, hfx⟩
        rw [← (TaskOutcome.err_eq_some f x).mp hfx]
        exact hperm.mem_iff.mp hf
      · intro hx
        exact ⟨_, hperm.mem_iff.mpr hx, rfl⟩
    refine ⟨errorsJoin (s.g.errs.map some), by simp [ManagerState.Wait, h2], ?_, ?_, h1⟩
    · rw [errorsJoin_map_some]
      cases herrs : s.g.errs with
      | nil =>
        simp only [List.isEmpty_nil, if_true, true_iff]
        intro x hx
        have := (hmem x).mpr hx
        rw [herrs] at this
        cases this
      | cons e es =>
        simp only [List.isEmpty_cons, Bool.false_eq_true, if_false, false_iff, not_forall,
          not_not]
        refine ⟨fun h => (nomatch h), ?_⟩
        intro h
        exact absurd ((hmem e).mp (by rw [herrs]; exact List.mem_cons_self _ _)) (h e)
    · intro x hx
      have hxe : x ∈ s.g.errs := (hmem x).mpr hx
      rw [errorsJoin_map_some]
      cases herrs : s.g.errs with
      | nil =>
        rw [herrs] at hxe
        cases hxe
      | cons e es =>
        refine ⟨{ errs := e :: es }, by simp, ?_⟩
        unfold joinError.Is
        rw [List.any_eq_true]
        exact ⟨x, by rw [← herrs]; exact hxe, errorsIs_refl x⟩
  · intro i v hf
    obtain ⟨s1, h1, h2, _, _, _, _, h7, h8⟩ := runGoroutine_spec s i false _ hc hf
    exact ⟨s1, h1, h8 (Or.inr rfl), h7, h2.2.2.2.1⟩

theorem Manager_Wait_joins_errors_witness :
    (initManager 2).exec sampleSchedule = some sampleFinalState ∧
    (∀ st ∈ sampleSchedule, st.uncancelled = true) ∧
    sampleFinalState.goroutines = [] ∧
    TaskOutcome.returns (some (GoError.errorString "one")) ∈ tasksOf sampleSchedule ∧
    (∃ r, sampleFinalState.Wait = some r ∧
      ∃ e, r = some e ∧ e.Is (GoError.errorString "one") = true) ∧
    sampleFinalState.crashed = false := by
  have hctx : ∀ st ∈ sampleSchedule, st.uncancelled = true := by
    intro st hst
    simp only [sampleSchedule, List.mem_cons, List.mem_singleton, List.not_mem_nil,
      or_false] at hst
    rcases hst with h | h | h | h | h | h <;> rw [h] <;> rfl
  have hmem : TaskOutcome.returns (some (GoError.errorString "one")) ∈
      tasksOf sampleSchedule := by
    simp [sampleSchedule, tasksOf, taskOne]
  obtain ⟨_, hwait, hcr, _⟩ :=
    Manager_Wait_joins_errors 2 sampleSchedule sampleFinalState sampleSchedule_exec hctx
  obtain ⟨r, hr, _, hall, _⟩ := hwait rfl
  exact ⟨sampleSchedule_exec, hctx, rfl, hmem, ⟨r, hr, hall _ hmem⟩, hcr⟩

/-- With capacity one and a context that is not cancelled, the functions
passed to `Go` are those that have been called followed by the one whose
goroutine has not finished, in the order of submission. -/
theorem step_uncancelled_order (s s1 : ManagerState) (st : ManagerStep) (hs : s.consistent)
    (hcap : s.g.semaCap = 1) (hu : st.uncancelled = true)
    (hp : s.called ++ s.goroutines = s.submitted) (h : s.step st = some s1) :
    s1.called ++ s1.goroutines = s1.submitted := by
  cases st with
  | go ctxDone pick f =>
    have hd : ctxDone = false := by simpa [ManagerStep.uncancelled] using hu
    subst hd
    have h' : s.Go false pick f = some s1 := h
    unfold ManagerState.Go at h'
    by_cases hroom : (s.g.sema : Int) < s.g.semaCap
    · have hdec : decide ((s.g.sema : Int) < s.g.semaCap) = true := by simpa using hroom
      rw [hdec] at h'
      simp only [Option.some.injEq] at h'
      subst h'
      show s.called ++ (s.goroutines ++ [f]) = s.submitted ++ [f]
      rw [← List.append_assoc, hp]
    · have hdec : decide ((s.g.sema : Int) < s.g.semaCap) = false := by simpa using hroom
      rw [hdec] at h'
      cases h'
  | run i ctxDone =>
    have hd : ctxDone = false := by simpa [ManagerStep.uncancelled] using hu
    subst hd
    obtain ⟨f, hf⟩ := runGoroutine_some s s1 i false h
    obtain ⟨s2, h2, _, _, h5, h6, h7, _⟩ := runGoroutine_spec s i false f hs hf
    have h' : s.runGoroutine i false = some s1 := h
    rw [h2] at h'
    simp only [Option.some.injEq] at h'
    subst h'
    have hlen : (s.goroutines.length : Int) ≤ 1 := hcap ▸ hs.2.2.1
    rw [h5, h6, h7, ← hp]
    simp only [Bool.false_eq_true, if_false]
    cases hg : s.goroutines with
    | nil =>
      rw [hg] at hf
      simp at hf
    | cons a rest =>
      cases rest with
      | nil =>
        rw [hg] at hf
        cases i with
        | zero =>
          simp only [List.getElem?_cons_zero, Option.some.injEq] at hf
          subst hf
          simp
        | succ i => simp at hf
      | cons b rest =>
        rw [hg] at hlen
        simp only [List.length_cons, Nat.cast_add, Nat.cast_one] at hlen
        omega

theorem exec_uncancelled_order (steps : List ManagerStep) (s s1 : ManagerState)
    (hs : s.consistent) (hcap : s.g.semaCap = 1) (hu : ∀ st ∈ steps, st.uncancelled = true)
    (hp : s.called ++ s.goroutines = s.submitted) (h : s.exec steps = some s1) :
    s1.called ++ s1.goroutines = s1.submitted := by
  induction steps generalizing s with
  | nil =>
    simp only [ManagerState.exec, Option.some.injEq] at h
    subst h
    exact hp
  | cons st rest ih =>
    unfold ManagerState.exec at h
    cases hst : s.step st with
    | none =>
      rw [hst] at h
      cases h
    | some s2 =>
      rw [hst] at h
      obtain ⟨hc2, hcap2⟩ := step_consistent s s2 st hs hst
      exact ih s2 hc2 (hcap2.trans hcap)
        (fun x hx => hu x (List.mem_cons_of_mem _ hx))
        (step_uncancelled_order s s2 st hs hcap (hu st (List.mem_cons_self _ _)) hp hst) h

/-- C25, amended: the capacity N of a manager built by `NewManager(n)` is `n`
when `n >= 1` and `DefaultMaxGoroutine` (10) otherwise, and in every state the
manager reaches the goroutines admitted and not finished, one for each element
of `sema`, are at most N.  With N = 1 and a context that is not cancelled: a
second submission does not return while the first function has not finished;
the run in which each function finishes before the next is submitted calls both
and lets `Wait` return; and in every state reached at most one goroutine is
admitted and not finished, the functions called so far followed by that one
being the submitted functions in their order, so that once the goroutines have
finished every submitted function has been called. -/
theorem Manager_admission_capacity :
    (∀ n : Int, (NewManager n).semaCap = if 1 ≤ n then n else DefaultMaxGoroutine) ∧
    DefaultMaxGoroutine = 10 ∧
    (∀ (n : Int) (steps : List ManagerStep) (s : ManagerState),
      (initManager n).exec steps = some s →
        s.g.semaCap = (NewManager n).semaCap ∧
        (s.goroutines.length : Int) ≤ (NewManager n).semaCap ∧
        s.g.sema = s.goroutines.length) ∧
    (∀ (f1 f2 : TaskOutcome) (p1 p2 : Bool),
      (initManager 1).exec [ManagerStep.go false p1 f1, ManagerStep.go false p2 f2] = none ∧
      ∃ s, (initManager 1).exec [ManagerStep.go false p1 f1, ManagerStep.run 0 false,
          ManagerStep.go false p2 f2, ManagerStep.run 0 false] = some s ∧
        s.called = [f1, f2] ∧ s.goroutines = [] ∧ s.Wait.isSome = true) ∧
    (∀ (steps : List ManagerStep) (s : ManagerState),
      (initManager 1).exec steps = some s → (∀ st ∈ steps, st.uncancelled = true) →
        s.goroutines.length ≤ 1 ∧ s.called ++ s.goroutines = tasksOf steps ∧
        (s.goroutines = [] → s.called = tasksOf steps)) := by
  refine ⟨?_, rfl, ?_, ?_, ?_⟩
  · intro n
    unfold NewManager
    by_cases h : n < 1
    · have h1 : ¬ (1 ≤ n) := by omega
      simp [h, h1]
    · have h1 : 1 ≤ n := by omega
      simp [h, h1]
  · intro n steps s hrun
    obtain ⟨⟨h1, _, h3, _, _⟩, hcap⟩ :=
      exec_consistent steps _ s (initManager_consistent n) hrun
    have hcap1 : s.g.semaCap = (NewManager n).semaCap := hcap
    exact ⟨hcap1, hcap1 ▸ h3, h1⟩
  · intro f1 f2 p1 p2
    refine ⟨?_, ?_⟩
    · simp [initManager, NewManager, DefaultMaxGoroutine, ManagerState.exec,
        ManagerState.step, ManagerState.Go]
    · simp [initManager, NewManager, DefaultMaxGoroutine, ManagerState.exec,
        ManagerState.step, ManagerState.Go, ManagerState.runGoroutine, recover,
        ManagerState.Wait]
  · intro steps s hrun hctx
    obtain ⟨hc, hcap⟩ := exec_consistent steps _ s (initManager_consistent 1) hrun
    have hcap1 : s.g.semaCap = 1 := hcap
    have hsub : s.submitted = tasksOf steps := by
      rw [exec_submitted steps _ s (initManager_consistent 1) hrun]
      simp [initManager]
    have hord := exec_uncancelled_order steps _ s (initManager_consistent 1) rfl hctx rfl hrun
    have hlen : (s.goroutines.length : Int) ≤ 1 := hcap1 ▸ hc.2.2.1
    refine ⟨by omega, hord.trans hsub, ?_⟩
    intro hg
    rw [← hsub, ← hord, hg, List.append_nil]

/-- C25, counterexample: on a manager of capacity one, two functions submitted
under a context that is already cancelled are never called; the first
submission is dropped by `Go`, the goroutine of the second finds the context
done, and `Wait` returns nil. -/
theorem Manager_cancelled_tasks_never_run :
    (NewManager 1).semaCap = 1 ∧
    (initManager 1).exec cancelledSchedule = some cancelledFinalState ∧
    tasksOf cancelledSchedule = [taskNil, taskNil] ∧
    cancelledFinalState.called = [] ∧
    cancelledFinalState.goroutines = [] ∧
    cancelledFinalState.Wait.isSome = true := by
  refine ⟨rfl, cancelledSchedule_exec, rfl, rfl, rfl, rfl⟩

end Goflip
